import Mathlib

/-!
# basic_selection.cpp: command / history engine and frame loop

Shallow embedding of `src/basic_selection.cpp`.

* `selection_object*` pointers are natural numbers (`ObjId`); `0` is the null
  pointer.  The pointed-to objects live in an explicit store (`Scene.heap`).
* `vec3` and `mat4` come from a maths library that is not part of the
  repository; they are the type parameters `V` and `M`.  The command and
  history code only copies such values.
* `command*` pointers are owned by exactly one container (a `pack` or the
  history's `commandlist`), so commands are embedded by value.  The `type`
  field is always the constructor's default argument and `chained` is never
  read, so `type` is a function of the class and `chained` is left out.
* `delete` of a `selection_object*` (lines 637, 658) is modelled by recording
  the released pointer in `Scene.freed`; the store keeps the last value
  written.  `delete` of a `command*` (lines 111, 135, 188) releases no
  `selection_object`: `class command` (lines 65-79) declares no virtual
  destructor, so the destructors `~add_command`, `~remove_command` and
  `~packed_command` (lines 215-218, 247-250, 184-190), which hold the only
  `delete o`, are not run through a `command*`.
-/

namespace BasicSelection

/-- A `selection_object*`; `0` is the null pointer. -/
abbrev ObjId := Nat

/-- The class `selection_object` (lines 48-60). -/
structure selection_object (V M : Type) where
  rotation_mat : M
  translate_vec : V
  scale_vec : V
  selected : Bool

/-- The enum `command::command_type` (line 70). -/
inductive command_type where
  | PACKED | ADD | REMOVE | SELECT | DESELECT | GROUP | UNGROUP
  | TRANSLATE | ROTATE | SCALE | NONE
  deriving DecidableEq, Repr

/-- The class `command` with its subclasses (lines 65-79, 139-376).  A
`packed_command` holds its `pack`; the others hold their target `o`, and the
three transform commands a start and an end state. -/
inductive command (V M : Type) where
  | packed_command (pack : List (command V M))
  | add_command (o : ObjId)
  | remove_command (o : ObjId)
  | select_command (o : ObjId)
  | deselect_command (o : ObjId)
  | translate_command (o : ObjId) (startstate endstate : V)
  | rotate_command (o : ObjId) (startstate endstate : M)
  | scale_command (o : ObjId) (startstate endstate : V)

/-- The globals `objects` (line 62) with the object store and the set of
released pointers. -/
structure Scene (V M : Type) where
  objects : List ObjId
  heap : ObjId → selection_object V M
  freed : List ObjId

variable {V M : Type}

/-- The field `command::type`, as set by each constructor's default. -/
def command.type : command V M → command_type
  | .packed_command _ => .PACKED
  | .add_command _ => .ADD
  | .remove_command _ => .REMOVE
  | .select_command _ => .SELECT
  | .deselect_command _ => .DESELECT
  | .translate_command _ _ _ => .TRANSLATE
  | .rotate_command _ _ _ => .ROTATE
  | .scale_command _ _ _ => .SCALE

/-- The field `command::o`; a `packed_command` is built with `oo = 0`. -/
def command.o : command V M → ObjId
  | .packed_command _ => 0
  | .add_command o => o
  | .remove_command o => o
  | .select_command o => o
  | .deselect_command o => o
  | .translate_command o _ _ => o
  | .rotate_command o _ _ => o
  | .scale_command o _ _ => o

/-- Write through an object pointer: `o->field = ...`. -/
def Scene.modify (s : Scene V M) (o : ObjId)
    (f : selection_object V M → selection_object V M) : Scene V M :=
  { s with heap := Function.update s.heap o (f (s.heap o)) }

/-- The loop `for c in objects: if *c == o then erase(c); break` (lines
203-208, 230-235): the first occurrence of `o` is erased. -/
def erase_first (o : ObjId) : List ObjId → List ObjId
  | [] => []
  | x :: xs => if x = o then xs else x :: erase_first o xs

mutual
/-- The virtual `execute()` of every command class. -/
def command.execute : command V M → Scene V M → Scene V M
  | .packed_command pack, s => execute_pack pack s
  | .add_command o, s => { s with objects := s.objects ++ [o] }
  | .remove_command o, s => { s with objects := erase_first o s.objects }
  | .select_command o, s => s.modify o (fun x => { x with selected := true })
  | .deselect_command o, s => s.modify o (fun x => { x with selected := false })
  | .translate_command o _ e, s => s.modify o (fun x => { x with translate_vec := e })
  | .rotate_command o _ e, s => s.modify o (fun x => { x with rotation_mat := e })
  | .scale_command o _ e, s => s.modify o (fun x => { x with scale_vec := e })
/-- The loop `for c in pack: c->execute()` (lines 145-148). -/
def execute_pack : List (command V M) → Scene V M → Scene V M
  | [], s => s
  | c :: cs, s => execute_pack cs (c.execute s)
end

mutual
/-- The virtual `unexecute()` of every command class. -/
def command.unexecute : command V M → Scene V M → Scene V M
  | .packed_command pack, s => unexecute_pack pack s
  | .add_command o, s => { s with objects := erase_first o s.objects }
  | .remove_command o, s => { s with objects := s.objects ++ [o] }
  | .select_command o, s => s.modify o (fun x => { x with selected := false })
  | .deselect_command o, s => s.modify o (fun x => { x with selected := true })
  | .translate_command o st _, s => s.modify o (fun x => { x with translate_vec := st })
  | .rotate_command o st _, s => s.modify o (fun x => { x with rotation_mat := st })
  | .scale_command o st _, s => s.modify o (fun x => { x with scale_vec := st })
/-- The loop `for c in pack: c->unexecute()` (lines 153-156), front to back. -/
def unexecute_pack : List (command V M) → Scene V M → Scene V M
  | [], s => s
  | c :: cs, s => unexecute_pack cs (c.unexecute s)
end

mutual
/-- The virtual `set_end(e, t)` of every command class; the scene is read for
`e->translate_vec`, `e->rotation_mat` and `e->scale_vec`. -/
def command.set_end : command V M → ObjId → command_type → Scene V M → command V M
  | .packed_command pack, e, t, s => .packed_command (set_end_pack pack e t s)
  | .add_command o, _, _, _ => .add_command o
  | .remove_command o, _, _, _ => .remove_command o
  | .select_command o, _, _, _ => .select_command o
  | .deselect_command o, _, _, _ => .deselect_command o
  | .translate_command o st _, e, _, s => .translate_command o st (s.heap e).translate_vec
  | .rotate_command o st _, e, _, s => .rotate_command o st (s.heap e).rotation_mat
  | .scale_command o st _, e, _, s => .scale_command o st (s.heap e).scale_vec
/-- The loop of `packed_command::set_end` (lines 166-172). -/
def set_end_pack : List (command V M) → ObjId → command_type → Scene V M → List (command V M)
  | [], _, _, _ => []
  | c :: cs, e, t, s =>
    (if c.type = t ∧ c.o = e then c.set_end e t s else c) :: set_end_pack cs e t s
end

/-- The class `history` (lines 81-137): `commandlist` and the cursor `ptr`. -/
structure history (V M : Type) where
  commandlist : List (command V M)
  ptr : Int

/-- The constructor `history() : ptr( -1 )`. -/
def history.init : history V M := { commandlist := [], ptr := -1 }

/-- A history together with the globals its methods act on. -/
structure Session (V M : Type) where
  his : history V M
  scene : Scene V M

/-- The test `ptr < commandlist.size()`: `ptr` is converted to the unsigned
`size_t`, so a negative `ptr` becomes a huge value and the test fails. -/
def lt_size (ptr : Int) (size : Nat) : Bool :=
  decide (0 ≤ ptr) && decide (ptr < (size : Int))

/-- The method `history::undo` (lines 88-95). -/
def history.undo (x : Session V M) : Session V M :=
  let cl := x.his.commandlist
  let ptr := x.his.ptr
  let scene :=
    if 0 < cl.length ∧ lt_size ptr cl.length = true ∧ ptr > -1 then
      match cl[ptr.toNat]? with
      | some c => c.unexecute x.scene
      | none => x.scene
    else x.scene
  { his := { commandlist := cl, ptr := if ptr > -1 then ptr - 1 else ptr }, scene := scene }

/-- The method `history::redo` (lines 97-105). -/
def history.redo (x : Session V M) : Session V M :=
  let cl := x.his.commandlist
  if x.his.ptr < (cl.length : Int) - 1 then
    let ptr := x.his.ptr + 1
    let scene :=
      if 0 < cl.length ∧ lt_size ptr cl.length = true ∧ ptr > -1 then
        match cl[ptr.toNat]? with
        | some c => c.execute x.scene
        | none => x.scene
      else x.scene
    { his := { commandlist := cl, ptr := ptr }, scene := scene }
  else x

/-- The calls `commandlist.resize( n + 1 )` and `commandlist[n] = c` (lines
114-115): `resize` keeps the first `n + 1` entries, of which entry `n` is then
overwritten; when the list had exactly `n` entries, the one entry `resize`
appends is the entry overwritten.  (With fewer than `n` entries `resize` would
pad with null pointers; that needs `ptr >= size` before the call.) -/
def resize_and_store (cl : List (command V M)) (n : Nat) (c : command V M) :
    List (command V M) :=
  let l := cl.take (n + 1)
  if n < l.length then l.set n c else l ++ [c]

/-- The method `history::put` (lines 107-117).  When `ptr > -1` the entries
after the cursor are deleted (line 111); the pointer deleted is a `command*`
and `class command` has no virtual destructor, so the storage of the entry is
returned and no `selection_object` is released.  Then the cursor is
incremented, the list is resized to `ptr + 1` entries, `c` is stored at `ptr`
and executed. -/
def history.put (x : Session V M) (c : command V M) : Session V M :=
  let ptr := x.his.ptr + 1
  { his := { commandlist := resize_and_store x.his.commandlist ptr.toNat c, ptr := ptr },
    scene := c.execute x.scene }

/-- The loop of `history::set_end` (lines 122-127); `n` is `c + 1`, so the
entry inspected is `commandlist[n - 1]` and `n = 0` is the loop exit. -/
def history.set_end_loop (cl : List (command V M)) (o : ObjId) (ct : command_type)
    (s : Scene V M) : Nat → List (command V M)
  | 0 => cl
  | n + 1 =>
    match cl[n]? with
    | some c =>
      if c.type = .PACKED ∨ (c.o = o ∧ c.type = ct) then cl.set n (c.set_end o ct s)
      else history.set_end_loop cl o ct s n
    | none => history.set_end_loop cl o ct s n

/-- The method `history::set_end` (lines 119-128). -/
def history.set_end (x : Session V M) (o : ObjId) (ct : command_type) : Session V M :=
  let cl := x.his.commandlist
  if 0 < cl.length then
    { x with his := { x.his with commandlist := history.set_end_loop cl o ct x.scene cl.length } }
  else x

/-- The data-model invariant of the cursor: `-1 <= ptr <= size - 1`. -/
def history.in_range (h : history V M) : Prop :=
  -1 ≤ h.ptr ∧ h.ptr ≤ (h.commandlist.length : Int) - 1

/-- One call of a public method of `history`. -/
inductive history_call (V M : Type) where
  | put (c : command V M)
  | undo
  | redo
  | set_end (o : ObjId) (ct : command_type)

/-- Perform one method call on the session. -/
def history_call.apply : history_call V M → Session V M → Session V M
  | .put c, x => history.put x c
  | .undo, x => history.undo x
  | .redo, x => history.redo x
  | .set_end o ct, x => history.set_end x o ct

/-- Perform a sequence of method calls, first to last. -/
def run_calls : List (history_call V M) → Session V M → Session V M
  | [], x => x
  | k :: ks, x => run_calls ks (k.apply x)

mutual
/-- A command followed by every command stored inside it, at any depth. -/
def command.members : command V M → List (command V M)
  | .packed_command pack => .packed_command pack :: members_pack pack
  | .add_command o => [.add_command o]
  | .remove_command o => [.remove_command o]
  | .select_command o => [.select_command o]
  | .deselect_command o => [.deselect_command o]
  | .translate_command o st e => [.translate_command o st e]
  | .rotate_command o st e => [.rotate_command o st e]
  | .scale_command o st e => [.scale_command o st e]
/-- Every command of a list of commands, at any depth. -/
def members_pack : List (command V M) → List (command V M)
  | [] => []
  | c :: cs => c.members ++ members_pack cs
end

/-- A command matches `(o, ct)` when its target is `o` and its type is `ct`:
the test of lines 123 and 168. -/
def command.is_match (c : command V M) (o : ObjId) (ct : command_type) : Prop :=
  c.o = o ∧ c.type = ct

/-- A history of two transactions: a Translate gesture on object 1 recorded
with start and end 0, then a click that selected object 2.  Object 1 has since
been dragged to 5. -/
def C9_session : Session Int Int :=
  { his := { commandlist := [.packed_command [.translate_command 1 0 0],
                             .packed_command [.select_command 2]],
             ptr := 1 },
    scene := { objects := [1, 2],
               heap := fun o => { rotation_mat := 0, translate_vec := (if o = 1 then 5 else 0),
                                  scale_vec := 1, selected := decide (o = 1 ∨ o = 2) },
               freed := [] } }

/-- The command types whose `set_end` has an empty body. -/
def command_type.no_end_state (t : command_type) : Prop :=
  t = .ADD ∨ t = .REMOVE ∨ t = .SELECT ∨ t = .DESELECT

/-- No command stored in the history, at any depth, matches `(o, ct)`. -/
def history.no_match (h : history V M) (o : ObjId) (ct : command_type) : Prop :=
  ∀ c ∈ members_pack h.commandlist, ¬ c.is_match o ct

/-- Every command stored in the history that targets `o` is an Add, Remove,
Select or Deselect command. -/
def history.only_stateless (h : history V M) (o : ObjId) : Prop :=
  ∀ c ∈ members_pack h.commandlist, c.o = o → c.type.no_end_state

/-- A session whose history holds one transaction, `[Select 1]`. -/
def C10_session : Session Int Int :=
  { his := { commandlist := [.packed_command [.select_command 1]], ptr := 0 },
    scene := { objects := [1],
               heap := fun _ => { rotation_mat := 0, translate_vec := 7,
                                  scale_vec := 1, selected := true },
               freed := [] } }

mutual
/-- The commands of a transaction that are not themselves packed, in the order
in which `execute` and `unexecute` reach them. -/
def command.leaves : command V M → List (command V M)
  | .packed_command pack => leaves_pack pack
  | .add_command o => [.add_command o]
  | .remove_command o => [.remove_command o]
  | .select_command o => [.select_command o]
  | .deselect_command o => [.deselect_command o]
  | .translate_command o st e => [.translate_command o st e]
  | .rotate_command o st e => [.rotate_command o st e]
  | .scale_command o st e => [.scale_command o st e]
/-- The leaves of a list of commands. -/
def leaves_pack : List (command V M) → List (command V M)
  | [] => []
  | c :: cs => c.leaves ++ leaves_pack cs
end

/-- The state a command's `unexecute` writes back is the state of the scene
`s`: an Add targets an object that is not live, a Remove one that is, a Select
an unselected object, a Deselect a selected one, and a Translate, Rotate or
Scale command's start-state is the object's current value. -/
def command.records_state (c : command V M) (s : Scene V M) : Prop :=
  match c with
  | .packed_command _ => True
  | .add_command o => o ∉ s.objects
  | .remove_command o => o ∈ s.objects
  | .select_command o => (s.heap o).selected = false
  | .deselect_command o => (s.heap o).selected = true
  | .translate_command o st _ => (s.heap o).translate_vec = st
  | .rotate_command o st _ => (s.heap o).rotation_mat = st
  | .scale_command o st _ => (s.heap o).scale_vec = st

/-- The target of an Add or Remove command. -/
def command.live_target : command V M → Option ObjId
  | .add_command o => some o
  | .remove_command o => some o
  | _ => none

/-- The target of an Add command. -/
def command.add_target : command V M → Option ObjId
  | .add_command o => some o
  | _ => none

/-- The target of a Remove command. -/
def command.remove_target : command V M → Option ObjId
  | .remove_command o => some o
  | _ => none

/-- A transaction whose every command records the state of the scene `s` and
in which no object is the target of two Add or Remove commands. -/
def command.well_recorded (t : command V M) (s : Scene V M) : Prop :=
  (∀ c ∈ t.leaves, c.records_state s) ∧ (t.leaves.filterMap command.live_target).Nodup

/-- A sequence of transactions, each well recorded in the scene the previous
ones leave behind. -/
def well_recorded_seq : List (command V M) → Scene V M → Prop
  | [], _ => True
  | t :: ts, s => t.well_recorded s ∧ well_recorded_seq ts (t.execute s)

/-- Call `history::put` for each transaction of the list, first to last. -/
def put_all : Session V M → List (command V M) → Session V M
  | x, [] => x
  | x, t :: ts => put_all (history.put x t) ts

/-- Call `history::undo` `n` times. -/
def undo_times : Nat → Session V M → Session V M
  | 0, x => x
  | n + 1, x => undo_times n (history.undo x)

/-- The four attributes of a `selection_object`. -/
inductive attribute_name where
  | translate | rotate | scale | selected
  deriving DecidableEq

/-- The attribute a command's `execute` and `unexecute` write, and of which
object. -/
def command.writes : command V M → ObjId → attribute_name → Prop
  | .select_command o, o', .selected => o = o'
  | .deselect_command o, o', .selected => o = o'
  | .translate_command o _ _, o', .translate => o = o'
  | .rotate_command o _ _, o', .rotate => o = o'
  | .scale_command o _ _, o', .scale => o = o'
  | _, _, _ => False

/-- Two object stores agree on every attribute outside `W`. -/
def heap_agree_off (W : ObjId → attribute_name → Prop)
    (h h' : ObjId → selection_object V M) : Prop :=
  ∀ o, (¬ W o .translate → (h o).translate_vec = (h' o).translate_vec) ∧
       (¬ W o .rotate → (h o).rotation_mat = (h' o).rotation_mat) ∧
       (¬ W o .scale → (h o).scale_vec = (h' o).scale_vec) ∧
       (¬ W o .selected → (h o).selected = (h' o).selected)

/-- The attributes written by some command of a list. -/
def writes_pack (L : List (command V M)) (o : ObjId) (a : attribute_name) : Prop :=
  ∃ c ∈ L, c.writes o a

/-- Unexecute the transactions of a list, last to first: what repeated
`history::undo` does to the entries between the old and the new cursor. -/
def unexecute_all_rev : List (command V M) → Scene V M → Scene V M
  | [], s => s
  | t :: ts, s => t.unexecute (unexecute_all_rev ts s)

/-- A scene with one live object, object 1, which is selected, and an empty
history. -/
def C1_session : Session Int Int :=
  { his := history.init,
    scene := { objects := [1],
               heap := fun _ => { rotation_mat := 0, translate_vec := 0,
                                  scale_vec := 1, selected := true },
               freed := [] } }

/-- The transaction of a shift-click on object 1: one Select command. -/
def C1_transaction : command Int Int :=
  .packed_command [.select_command 1]

/-- A scene with one live object, object 1, which is not selected, and an
empty history. -/
def C1_good_session : Session Int Int :=
  { his := history.init,
    scene := { objects := [1],
               heap := fun _ => { rotation_mat := 0, translate_vec := 0,
                                  scale_vec := 1, selected := false },
               freed := [] } }

/-- A session with two transactions in the history, `[Add 1]` and
`[Select 1]`, of which the second has been undone: the cursor is 0, object 1 is
live and not selected. -/
def sample_session : Session Int Int :=
  { his := { commandlist := [.packed_command [.add_command 1],
                             .packed_command [.select_command 1]],
             ptr := 0 },
    scene := { objects := [1],
               heap := fun _ => { rotation_mat := 0, translate_vec := 0,
                                  scale_vec := 1, selected := false },
               freed := [] } }

/-- A transaction that adds object 2 and moves object 1 from 0 to 3. -/
def sample_transaction : command Int Int :=
  .packed_command [.add_command 2, .translate_command 1 0 3]

/-- A scene with live objects 1 and 2, each added by its own transaction. -/
def C2_session : Session Int Int :=
  { his := { commandlist := [.packed_command [.add_command 1],
                             .packed_command [.add_command 2]],
             ptr := 1 },
    scene := { objects := [1, 2],
               heap := fun _ => { rotation_mat := 0, translate_vec := 0,
                                  scale_vec := 1, selected := false },
               freed := [] } }

/-- A transaction whose Add command targets object 1. -/
def C2_transaction : command Int Int :=
  .packed_command [.add_command 1]

/-! ### The event handler and the frame loop (lines 559-1166)

Rendering, the camera and the debug drawing are left out.  `P` is the type of
`mouse_pos` (a `vec2`).  The floating-point geometry of the frame (the
ray/box test and the three gesture steps) is an input of the frame. -/

variable {P : Type}

/-- The key codes the event handler tests (lines 582-739, 750-760). -/
inductive key_code where
  | T | R | Y | F | Space | Delete | Z | C | X | V | A | I | Num1 | Num2 | Num3 | Other
  deriving DecidableEq

/-- The mouse buttons the event handler tests (lines 801-817). -/
inductive mouse_button where
  | Left | Right | Other
  deriving DecidableEq

/-- An `sf::Event` as the handler reads it.  A `KeyPressed` event carries the
answers of the `isKeyPressed` polls for a control key and a shift key made
while it is handled; `MouseMoved` carries the new value of `mouse_pos`. -/
inductive event (P : Type) where
  | KeyPressed (code : key_code) (ctrl shift : Bool)
  | KeyReleased (code : key_code)
  | MouseMoved (pos : P)
  | MouseButtonPressed (button : mouse_button)
  | MouseButtonReleased (button : mouse_button)
  | Other

/-- The variables captured by the event handler and the frame callback (lines
559-574) with the globals: `ses` holds `his`, `objects` and the object store,
`pc` is the pack of the per-frame `packed_command` (empty when `pc` is null or
freshly created), `next_ptr` is the next pointer `new` returns. -/
structure editor (V M P : Type) where
  ses : Session V M
  selection_buffer : List ObjId
  next_ptr : ObjId
  pc : List (command V M)
  mouse_pos : P
  translate_begin : Bool
  rotate_begin : Bool
  scale_begin : Bool
  translate_end : Bool
  rotate_end : Bool
  scale_end : Bool
  translate_action : Bool
  rotate_action : Bool
  scale_action : Bool
  warped : Bool
  clicked : Bool
  wireframe : Bool
  lock_to_x : Bool
  lock_to_y : Bool
  lock_to_z : Bool

/-- What one frame reads from outside the editor state: the drained events,
the shift poll of line 896, and the frame's geometry as functions of
`mouse_pos`, the axis locks and the object's current attributes: the ray/box
test of lines 911-961 and the new attribute values of lines 1011-1096. -/
structure frame_input (V M P : Type) where
  events : List (event P)
  shift : Bool
  intersects : P → selection_object V M → Bool
  translate_step : P → Bool → Bool → Bool → V → V
  rotate_step : P → Bool → Bool → Bool → M → M
  scale_step : P → V → V

/-- Read an object through its pointer. -/
def editor.obj (e : editor V M P) (c : ObjId) : selection_object V M :=
  e.ses.scene.heap c

/-- Write an object through its pointer. -/
def editor.set_obj (e : editor V M P) (c : ObjId) (v : selection_object V M) : editor V M P :=
  { e with ses := { e.ses with scene :=
      { e.ses.scene with heap := Function.update e.ses.scene.heap c v } } }

/-- The call `pc->put( c )` (lines 159-162): `push_back` on the pack. -/
def editor.pc_put (e : editor V M P) (c : command V M) : editor V M P :=
  { e with pc := e.pc ++ [c] }

/-- The expression `new selection_object( v )`: the next pointer, holding `v`. -/
def editor.alloc (e : editor V M P) (v : selection_object V M) : ObjId × editor V M P :=
  (e.next_ptr, { e.set_obj e.next_ptr v with next_ptr := e.next_ptr + 1 })

/-- The loop `for c in selection_buffer: delete c` with `clear()` (lines
635-640, 656-661). -/
def editor.clear_buffer (e : editor V M P) : editor V M P :=
  { e with
    ses := { e.ses with scene :=
      { e.ses.scene with freed := e.ses.scene.freed ++ e.selection_buffer } },
    selection_buffer := [] }

/-- The loop of Ctrl+C (lines 642-648) over the remaining objects. -/
def copy_loop : List ObjId → editor V M P → editor V M P
  | [], e => e
  | c :: cs, e =>
    if (e.obj c).selected then
      let r := e.alloc (e.obj c)
      copy_loop cs { r.2 with selection_buffer := r.2.selection_buffer ++ [r.1] }
    else copy_loop cs e

/-- The loop of Ctrl+X (lines 663-672) over the remaining objects. -/
def cut_loop : List ObjId → editor V M P → editor V M P
  | [], e => e
  | c :: cs, e =>
    if (e.obj c).selected then
      let e1 := e.pc_put (.remove_command c)
      let r := e1.alloc (e1.obj c)
      cut_loop cs { r.2 with selection_buffer := r.2.selection_buffer ++ [r.1] }
    else cut_loop cs e

/-- The loop of Ctrl+V (lines 680-686) over the remaining buffer entries. -/
def paste_loop : List ObjId → editor V M P → editor V M P
  | [], e => e
  | c :: cs, e =>
    let r := e.alloc (e.obj c)
    let e1 := r.2.pc_put (.add_command r.1)
    paste_loop cs (e1.set_obj r.1 { e1.obj r.1 with selected := false })

/-- The loop of Delete (lines 610-617) over the remaining objects. -/
def delete_loop : List ObjId → editor V M P → editor V M P
  | [], e => e
  | c :: cs, e =>
    if (e.obj c).selected then delete_loop cs (e.pc_put (.remove_command c))
    else delete_loop cs e

/-- The loop of Ctrl+A (lines 694-701) over the remaining objects. -/
def select_all_loop : List ObjId → editor V M P → editor V M P
  | [], e => e
  | c :: cs, e =>
    if (e.obj c).selected then select_all_loop cs e
    else select_all_loop cs (e.pc_put (.select_command c))

/-- The loop of Ctrl+I (lines 709-721) over the remaining objects. -/
def invert_loop : List ObjId → editor V M P → editor V M P
  | [], e => e
  | c :: cs, e =>
    if (e.obj c).selected then invert_loop cs (e.pc_put (.deselect_command c))
    else invert_loop cs (e.pc_put (.select_command c))

/-- The `KeyPressed` case of the event handler (lines 580-747).
`new_object` is the value `selection_object()` constructs. -/
def key_pressed (new_object : selection_object V M) (e : editor V M P)
    (code : key_code) (ctrl shift : Bool) : editor V M P :=
  match code with
  | .T => if e.translate_action then e else { e with translate_begin := true }
  | .R => if e.rotate_action then e else { e with rotate_begin := true }
  | .Y => if e.scale_action then e else { e with scale_begin := true }
  | .F => { e with wireframe := !e.wireframe }
  | .Space =>
    let r := e.alloc new_object
    r.2.pc_put (.add_command r.1)
  | .Delete => delete_loop e.ses.scene.objects e
  | .Z =>
    if ctrl then
      if shift then { e with ses := history.redo e.ses }
      else { e with ses := history.undo e.ses }
    else e
  | .C => if ctrl then copy_loop e.ses.scene.objects e.clear_buffer else e
  | .X => if ctrl then cut_loop e.ses.scene.objects e.clear_buffer else e
  | .V => if ctrl then paste_loop e.selection_buffer e else e
  | .A => if ctrl then select_all_loop e.ses.scene.objects e else e
  | .I => if ctrl then invert_loop e.ses.scene.objects e else e
  | .Num1 => { e with lock_to_x := !e.lock_to_x, lock_to_y := false, lock_to_z := false }
  | .Num2 => { e with lock_to_y := !e.lock_to_y, lock_to_x := false, lock_to_z := false }
  | .Num3 => { e with lock_to_z := !e.lock_to_z, lock_to_y := false, lock_to_x := false }
  | .Other => e

/-- The lambda `event_handler` (lines 576-827). -/
def event_handler (new_object : selection_object V M) (e : editor V M P) :
    event P → editor V M P
  | .KeyPressed code ctrl shift => key_pressed new_object e code ctrl shift
  | .KeyReleased .T => { e with translate_end := true }
  | .KeyReleased .R => { e with rotate_end := true }
  | .KeyReleased .Y => { e with scale_end := true }
  | .KeyReleased _ => e
  | .MouseMoved pos => { e with mouse_pos := pos }
  | .MouseButtonPressed .Left => { e with clicked := true }
  | .MouseButtonPressed _ => e
  | .MouseButtonReleased _ => e
  | .Other => e

/-- The call `frm.handle_events( event_handler )` (line 843). -/
def handle_events (new_object : selection_object V M) :
    List (event P) → editor V M P → editor V M P
  | [], e => e
  | ev :: evs, e => handle_events new_object evs (event_handler new_object e ev)

/-- The loop of lines 898-905 over the remaining objects. -/
def deselect_loop : List ObjId → editor V M P → editor V M P
  | [], e => e
  | d :: ds, e =>
    if (e.obj d).selected then deselect_loop ds (e.pc_put (.deselect_command d))
    else deselect_loop ds e

/-- The pick test of one object (lines 943-970). -/
def pick_step (inp : frame_input V M P) (e : editor V M P) (c : ObjId) : editor V M P :=
  if e.clicked then
    if inp.intersects e.mouse_pos (e.obj c) then
      { e.pc_put (.select_command c) with clicked := false }
    else e
  else e

/-- The commands queued for a selected object when a gesture begins (lines
976-992). -/
def begin_step (e : editor V M P) (c : ObjId) : editor V M P :=
  let e1 :=
    if e.translate_begin && !e.translate_action then
      e.pc_put (.translate_command c (e.obj c).translate_vec (e.obj c).translate_vec)
    else e
  let e2 :=
    if e1.rotate_begin && !e1.rotate_action then
      e1.pc_put (.rotate_command c (e1.obj c).rotation_mat (e1.obj c).rotation_mat)
    else e1
  if e2.scale_begin && !e2.scale_action then
    e2.pc_put (.scale_command c (e2.obj c).scale_vec (e2.obj c).scale_vec)
  else e2

/-- The resets of the action flags inside the selected-object branch (lines
994-1007). -/
def end_step (e : editor V M P) : editor V M P :=
  { e with
    translate_action := (if e.translate_end then false else e.translate_action),
    rotate_action := (if e.rotate_end then false else e.rotate_action),
    scale_action := (if e.scale_end then false else e.scale_action) }

/-- The direct mutation of a selected object while a gesture is active (lines
1009-1097). -/
def action_step (inp : frame_input V M P) (e : editor V M P) (c : ObjId) : editor V M P :=
  let lx := e.lock_to_x
  let ly := e.lock_to_y
  let lz := e.lock_to_z
  if e.translate_action && e.warped then
    let v := inp.translate_step e.mouse_pos lx ly lz (e.obj c).translate_vec
    e.set_obj c { e.obj c with translate_vec := v }
  else if e.rotate_action && e.warped then
    let r := inp.rotate_step e.mouse_pos lx ly lz (e.obj c).rotation_mat
    e.set_obj c { e.obj c with rotation_mat := r }
  else if e.scale_action && e.warped then
    let v := inp.scale_step e.mouse_pos (e.obj c).scale_vec
    e.set_obj c { e.obj c with scale_vec := v }
  else e

/-- The body of the loop over `objects` (lines 909-1105) for one object. -/
def object_step (inp : frame_input V M P) (e : editor V M P) (c : ObjId) : editor V M P :=
  let e1 := pick_step inp e c
  if (e1.obj c).selected then action_step inp (end_step (begin_step e1 c)) c
  else e1

/-- The loop over `objects` (lines 909-1105) for the remaining objects. -/
def objects_loop (inp : frame_input V M P) : List ObjId → editor V M P → editor V M P
  | [], e => e
  | c :: cs, e => objects_loop inp cs (object_step inp e c)

/-- The loops of lines 1143-1145, 1150-1152 and 1157-1159: `his.set_end( c,
ct )` for every selected object. -/
def set_end_loop_selected (ct : command_type) : List ObjId → Session V M → Session V M
  | [], x => x
  | c :: cs, x =>
    if (x.scene.heap c).selected then set_end_loop_selected ct cs (history.set_end x c ct)
    else set_end_loop_selected ct cs x

/-- The commit of the per-frame transaction (lines 1117-1121). -/
def commit_step (e : editor V M P) : editor V M P :=
  if e.pc.isEmpty then e
  else { e with ses := history.put e.ses (.packed_command e.pc), pc := [] }

/-- The moves from Begin to Active (lines 1123-1139). -/
def activate_step (e : editor V M P) : editor V M P :=
  { e with
    translate_action := (if e.translate_begin then true else e.translate_action),
    translate_begin := false,
    rotate_action := (if e.rotate_begin then true else e.rotate_action),
    rotate_begin := false,
    scale_action := (if e.scale_begin then true else e.scale_action),
    scale_begin := false }

/-- The three end-state stamps (lines 1141-1160). -/
def stamp_step (e : editor V M P) : editor V M P :=
  let x1 :=
    if e.translate_end then set_end_loop_selected .TRANSLATE e.ses.scene.objects e.ses
    else e.ses
  let x2 :=
    if e.rotate_end then set_end_loop_selected .ROTATE x1.scene.objects x1 else x1
  let x3 :=
    if e.scale_end then set_end_loop_selected .SCALE x2.scene.objects x2 else x2
  { e with ses := x3 }

/-- The deselection queued by a click without shift (lines 894-907). -/
def click_step (inp : frame_input V M P) (e : editor V M P) : editor V M P :=
  if e.clicked && !inp.shift then deselect_loop e.ses.scene.objects e else e

/-- The update of `warped` (lines 1107-1115). -/
def warp_step (e : editor V M P) : editor V M P :=
  { e with warped := e.translate_action || e.rotate_action || e.scale_action }

/-- The resets at the end of the frame (lines 1162-1165). -/
def reset_step (e : editor V M P) : editor V M P :=
  { e with translate_end := false, rotate_end := false, scale_end := false, clicked := false }

/-- One call of the frame callback (lines 836-1166). -/
def frame (new_object : selection_object V M) (inp : frame_input V M P)
    (e : editor V M P) : editor V M P :=
  let e1 := click_step inp (handle_events new_object inp.events e)
  let e2 := objects_loop inp e1.ses.scene.objects e1
  reset_step (stamp_step (activate_step (commit_step (warp_step e2))))

/-- Run the frames of a list of inputs, first to last. -/
def run_frames (new_object : selection_object V M) :
    List (frame_input V M P) → editor V M P → editor V M P
  | [], e => e
  | inp :: inps, e => run_frames new_object inps (frame new_object inp e)

/-- Replace the object store of the editor. -/
def editor.with_heap (e : editor V M P) (h : ObjId → selection_object V M) : editor V M P :=
  { e with ses := { e.ses with scene := { e.ses.scene with heap := h } } }

/-- The state of the editor between two frames: the per-frame pack is empty and
the begin, end and click flags are down (lines 1117-1139, 1162-1165). -/
def editor.between_frames (e : editor V M P) : Prop :=
  e.pc = [] ∧ e.translate_begin = false ∧ e.rotate_begin = false ∧ e.scale_begin = false ∧
  e.translate_end = false ∧ e.rotate_end = false ∧ e.scale_end = false ∧ e.clicked = false

/-- A frame whose events are cursor movements only. -/
def only_mouse_moves (inp : frame_input V M P) : Prop :=
  ∀ ev ∈ inp.events, ∃ p, ev = event.MouseMoved p

/-- The selected objects of the live list, in list order. -/
def editor.selected_objects (e : editor V M P) : List ObjId :=
  e.ses.scene.objects.filter (fun c => (e.obj c).selected)

/-- The zero-delta Translate commands queued when a Translate gesture begins:
one per selected object of `cs`, in list order, with start and end equal to
the object's translation in the store `h` (lines 976-980). -/
def translate_marks (h : ObjId → selection_object V M) (cs : List ObjId) :
    List (command V M) :=
  (cs.filter (fun c => (h c).selected)).map
    (fun c => .translate_command c (h c).translate_vec (h c).translate_vec)

/-- Replace the per-frame pack of the editor. -/
def editor.with_pc (e : editor V M P) (pc : List (command V M)) : editor V M P :=
  { e with pc := pc }

/-- Replace the flag `translate_action` of the editor. -/
def editor.with_translate_action (e : editor V M P) (b : Bool) : editor V M P :=
  { e with translate_action := b }

/-- Replace the variable `mouse_pos` of the editor. -/
def editor.with_mouse_pos (e : editor V M P) (p : P) : editor V M P :=
  { e with mouse_pos := p }

/-- Replace the flag `translate_begin` of the editor. -/
def editor.with_translate_begin (e : editor V M P) (b : Bool) : editor V M P :=
  { e with translate_begin := b }

/-- Replace the flag `translate_end` of the editor. -/
def editor.with_translate_end (e : editor V M P) (b : Bool) : editor V M P :=
  { e with translate_end := b }

/-- Replace the command list of a session's history. -/
def Session.with_commandlist (x : Session V M) (cl : List (command V M)) : Session V M :=
  { x with his := { x.his with commandlist := cl } }

/-- Replace the object store of a session. -/
def Session.with_heap (x : Session V M) (h : ObjId → selection_object V M) : Session V M :=
  { x with scene := { x.scene with heap := h } }

/-- An editor between two frames with live objects 1, 2 and 3 at translations
10, 20 and 30, of which 1 and 3 are selected, and an empty history. -/
def C4_editor : editor Int Int Int :=
  { ses := { his := history.init,
             scene := { objects := [1, 2, 3],
                        heap := fun o => { rotation_mat := 0, translate_vec := 10 * o,
                                           scale_vec := 1, selected := decide (o = 1 ∨ o = 3) },
                        freed := [] } },
    selection_buffer := [], next_ptr := 4, pc := [], mouse_pos := 0,
    translate_begin := false, rotate_begin := false, scale_begin := false,
    translate_end := false, rotate_end := false, scale_end := false,
    translate_action := false, rotate_action := false, scale_action := false,
    warped := false, clicked := false, wireframe := false,
    lock_to_x := false, lock_to_y := false, lock_to_z := false }

/-- A frame with the given events in which nothing is hit and a Translate step
adds the cursor position to the translation. -/
def C4_frame (evs : List (event Int)) : frame_input Int Int Int :=
  { events := evs, shift := false, intersects := fun _ _ => false,
    translate_step := fun p _ _ _ v => v + p,
    rotate_step := fun _ _ _ _ m => m,
    scale_step := fun _ v => v }

/-- The value `selection_object()` constructs, over the integers. -/
def C4_new_object : selection_object Int Int :=
  { rotation_mat := 1, translate_vec := 0, scale_vec := 1, selected := false }

/-- The transaction of a frame in which Delete and Ctrl+X are both pressed
while object 1 is selected: two Remove commands for object 1. -/
def double_remove_transaction : command Int Int :=
  .packed_command [.remove_command 1, .remove_command 1]

/-- A transaction that adds object 3 and removes it again. -/
def add_remove_transaction : command Int Int :=
  .packed_command [.add_command 3, .remove_command 3]

/-- A scene whose live list holds object 1 twice, before object 2. -/
def duplicate_session : Session Int Int :=
  { his := history.init,
    scene := { objects := [1, 1, 2],
               heap := fun _ => { rotation_mat := 0, translate_vec := 0,
                                  scale_vec := 1, selected := false },
               freed := [] } }

/-! ### The gesture steps (lines 1009-1097)

The steps compute with `float`, `vec2`, `vec3` and `mat4` of the maths library,
which is not part of the source file.  A `float` is an element of a linearly
ordered type `F` with a zero; the arithmetic operations and the constants the
steps use are the fields of `float_ops`, arbitrary functions of `F` (so any
rounding is covered; NaN, which no order relates, is not).  A vector is the
tuple of its components. -/

/-- Modelled from the spec: the library type `vec2`, a pair of scalars. -/
structure vec2 (F : Type) where
  x : F
  y : F
  deriving DecidableEq

/-- Modelled from the spec: the library type `vec3`, a triple of scalars. -/
structure vec3 (F : Type) where
  x : F
  y : F
  z : F
  deriving DecidableEq

/-- The `float` arithmetic the gesture steps use: the operations `+`, `-`, `*`
and unary minus, and the values of the literals `1`, `2`, `40`, `0.5` and
`0.01` (lines 1011-1096). -/
structure float_ops (F : Type) where
  add : F → F → F
  sub : F → F → F
  mul : F → F → F
  neg : F → F
  one : F
  two : F
  forty : F
  half : F
  c001 : F

/-- Exact arithmetic: the operations and constants of a field. -/
def float_ops.exact {F : Type} [LinearOrderedField F] : float_ops F :=
  { add := fun a b => a + b, sub := fun a b => a - b, mul := fun a b => a * b,
    neg := fun a => -a, one := 1, two := 2, forty := 40, half := 1 / 2, c001 := 1 / 100 }

section gesture
variable {F : Type}

/-- Modelled from the spec: the library expression `v - k` of a `vec2` and a
scalar (line 1011), taken componentwise. -/
def vec2.sub_scalar (fp : float_ops F) (v : vec2 F) (k : F) : vec2 F :=
  ⟨fp.sub v.x k, fp.sub v.y k⟩

/-- Modelled from the spec: the library constructor `vec3( k )` (lines 1094,
1096), the same scalar in every component. -/
def vec3.splat (k : F) : vec3 F := ⟨k, k, k⟩

/-- Modelled from the spec: the library sum of two `vec3`, componentwise. -/
def vec3.add (fp : float_ops F) (a b : vec3 F) : vec3 F :=
  ⟨fp.add a.x b.x, fp.add a.y b.y, fp.add a.z b.z⟩

/-- Modelled from the spec: the library difference of two `vec3`,
componentwise. -/
def vec3.sub (fp : float_ops F) (a b : vec3 F) : vec3 F :=
  ⟨fp.sub a.x b.x, fp.sub a.y b.y, fp.sub a.z b.z⟩

/-- Modelled from the spec: the library product `k * v` of a scalar and a
`vec3`. -/
def vec3.smul (fp : float_ops F) (k : F) (v : vec3 F) : vec3 F :=
  ⟨fp.mul k v.x, fp.mul k v.y, fp.mul k v.z⟩

/-- Modelled from the spec: the library product `v * k` of a `vec3` and a
scalar. -/
def vec3.mul_scalar (fp : float_ops F) (v : vec3 F) (k : F) : vec3 F :=
  ⟨fp.mul v.x k, fp.mul v.y k, fp.mul v.z k⟩

/-- Modelled from the spec: the library function `max` of two `vec3` (line
1096), the componentwise maximum ("clamped elementwise"). -/
def vec3.max [LinearOrder F] (a b : vec3 F) : vec3 F :=
  ⟨Max.max a.x b.x, Max.max a.y b.y, Max.max a.z b.z⟩

/-- What the gesture steps read besides the cursor, the locks and the object:
the `float` arithmetic, the control-key poll of lines 1015 and 1055, the
camera, and the functions of the maths library the steps call.
`tan_half_fov` is the value of `tan( cam_fov * 0.5f )`, `right_vec` the value
of `normalize( cross( cam.view_dir, cam.up_vector ) )` and `up_vec` the value
of `normalize( cam.up_vector )`. -/
structure gesture_env (F M : Type) where
  fp : float_ops F
  ctrl : Bool
  cam_pos : vec3 F
  tan_half_fov : F
  aspect : F
  right_vec : vec3 F
  up_vec : vec3 F
  length2 : vec2 F → F
  length3 : vec3 F → F
  radians : F → F
  create_rotation : F → vec3 F → M
  mat_mul : M → M → M

/-- The Translate step of one selected object (lines 1011-1049): the new value
of `c->translate_vec`.  `along k axis len` is the expression
`k * axis * 2 * len` of lines 1019-1047. -/
def translate_gesture [Zero F] (env : gesture_env F M) (mouse_pos : vec2 F)
    (lock_to_x lock_to_y lock_to_z : Bool) (t : vec3 F) : vec3 F :=
  let fp := env.fp
  let delta := mouse_pos.sub_scalar fp fp.half
  let top := fp.mul (env.length3 (t.sub fp env.cam_pos)) env.tan_half_fov
  let right := fp.mul top env.aspect
  let x_axis : vec3 F := ⟨fp.one, 0, 0⟩
  let z_axis : vec3 F := ⟨0, 0, fp.one⟩
  let along (k : F) (axis : vec3 F) (len : F) : vec3 F :=
    ((vec3.smul fp k axis).mul_scalar fp fp.two).mul_scalar fp len
  if env.ctrl then
    if lock_to_x then t.add fp (along delta.x x_axis top)
    else if lock_to_z then t.add fp (along (fp.neg delta.y) z_axis right)
    else (t.add fp (along delta.x x_axis top)).add fp (along (fp.neg delta.y) z_axis right)
  else
    if lock_to_x then t.add fp (along delta.x env.right_vec top)
    else if lock_to_y then t.add fp (along delta.y env.up_vec right)
    else (t.add fp (along delta.x env.right_vec top)).add fp (along delta.y env.up_vec right)

/-- The Rotate step of one selected object (lines 1053-1089): the new value of
`c->rotation_mat`.  `about_x axis m` is the expression
`create_rotation( radians( -delta.y * 40 ), axis ) * m` and `about_y axis m`
the expression `create_rotation( radians( delta.x * 40 ), axis ) * m`. -/
def rotate_gesture [Zero F] (env : gesture_env F M) (mouse_pos : vec2 F)
    (lock_to_x lock_to_y _lock_to_z : Bool) (r : M) : M :=
  let fp := env.fp
  let delta := mouse_pos.sub_scalar fp fp.half
  let x_axis : vec3 F := ⟨fp.one, 0, 0⟩
  let y_axis : vec3 F := ⟨0, fp.one, 0⟩
  let about_x (axis : vec3 F) (m : M) : M :=
    env.mat_mul (env.create_rotation (env.radians (fp.mul (fp.neg delta.y) fp.forty)) axis) m
  let about_y (axis : vec3 F) (m : M) : M :=
    env.mat_mul (env.create_rotation (env.radians (fp.mul delta.x fp.forty)) axis) m
  if env.ctrl then
    if lock_to_x then about_x x_axis r
    else if lock_to_y then about_y y_axis r
    else about_y y_axis (about_x x_axis r)
  else
    if lock_to_x then about_x env.right_vec r
    else if lock_to_y then about_y env.up_vec r
    else about_y env.up_vec (about_x env.right_vec r)

/-- The Scale step of one selected object (lines 1093-1096): the new value of
`c->scale_vec`. -/
def scale_gesture [LinearOrder F] [Zero F] (env : gesture_env F M) (mouse_pos : vec2 F)
    (s : vec3 F) : vec3 F :=
  let fp := env.fp
  let delta := mouse_pos.sub_scalar fp fp.half
  let dir : vec3 F := vec3.splat (if delta.y > 0 then fp.one else fp.neg fp.one)
  let s1 := s.add fp (vec3.smul fp (env.length2 delta) dir)
  s1.max (vec3.splat fp.c001)

/-- The frame input whose gesture steps are the steps of the code in the
environment `env`. -/
def gesture_env.input [LinearOrder F] [Zero F] (env : gesture_env F M)
    (events : List (event (vec2 F))) (shift : Bool)
    (intersects : vec2 F → selection_object (vec3 F) M → Bool) :
    frame_input (vec3 F) M (vec2 F) :=
  { events := events, shift := shift, intersects := intersects,
    translate_step := translate_gesture env,
    rotate_step := rotate_gesture env,
    scale_step := scale_gesture env }

/-- Every component of the vector is strictly positive. -/
def vec3.positive [LT F] [Zero F] (v : vec3 F) : Prop := 0 < v.x ∧ 0 < v.y ∧ 0 < v.z

end gesture

/-- A gesture environment over the rationals: exact arithmetic, global-space
mode as given, camera at the origin, `tan( cam_fov * 0.5f )` and the aspect
ratio equal to 1, every vector of length 1 (so `top = right = 1`), camera right
and up along the world X and Y axes; a rotation matrix is stood for by an
integer. -/
def sample_env (ctrl : Bool) : gesture_env ℚ Int :=
  { fp := float_ops.exact, ctrl := ctrl, cam_pos := ⟨0, 0, 0⟩, tan_half_fov := 1, aspect := 1,
    right_vec := ⟨1, 0, 0⟩, up_vec := ⟨0, 1, 0⟩,
    length2 := fun _ => 1, length3 := fun _ => 1, radians := id,
    create_rotation := fun _ _ => 1, mat_mul := fun a b => a + b }

/-- An editor between two frames with one live object, selected, of scale
(1/2, 2, 1), the Scale gesture Active, and the cursor below the centre
(`delta = (0, -1/2)`). -/
def scale_editor : editor (vec3 ℚ) Int (vec2 ℚ) :=
  { ses := { his := history.init,
             scene := { objects := [1],
                        heap := fun _ => { rotation_mat := 0, translate_vec := ⟨0, 0, 0⟩,
                                           scale_vec := ⟨1 / 2, 2, 1⟩, selected := true },
                        freed := [] } },
    selection_buffer := [], next_ptr := 2, pc := [], mouse_pos := ⟨1 / 2, 0⟩,
    translate_begin := false, rotate_begin := false, scale_begin := false,
    translate_end := false, rotate_end := false, scale_end := false,
    translate_action := false, rotate_action := false, scale_action := true,
    warped := true, clicked := false, wireframe := false,
    lock_to_x := false, lock_to_y := false, lock_to_z := false }

/-- The editor when the frame callback is first called (lines 559-574 and the
globals of lines 379-380): no live object, an empty history, no pack, an empty
`selection_buffer`, every flag false.  `h0` is the content of the store before
any `new` and `p0` the value `vec2(0)`; the null pointer is 0, so the first
pointer `new` returns is 1. -/
def editor.init (h0 : ObjId → selection_object V M) (p0 : P) : editor V M P :=
  { ses := { his := history.init, scene := { objects := [], heap := h0, freed := [] } },
    selection_buffer := [], next_ptr := 1, pc := [], mouse_pos := p0,
    translate_begin := false, rotate_begin := false, scale_begin := false,
    translate_end := false, rotate_end := false, scale_end := false,
    translate_action := false, rotate_action := false, scale_action := false,
    warped := false, clicked := false, wireframe := false,
    lock_to_x := false, lock_to_y := false, lock_to_z := false }

/-- The initial editor over the integers. -/
def empty_editor : editor Int Int Int :=
  editor.init (fun _ => C4_new_object) 0

/-- The frames of: Space (add an object), Ctrl+A (select it), Delete, Ctrl+Z
(undo the Delete). -/
def C17_frames : List (frame_input Int Int Int) :=
  [C4_frame [event.KeyPressed key_code.Space false false],
   C4_frame [event.KeyPressed key_code.A true false],
   C4_frame [event.KeyPressed key_code.Delete false false],
   C4_frame [event.KeyPressed key_code.Z true false]]

/-- The Select commands of a pack, in pack order. -/
def select_commands (pc : List (command V M)) : List (command V M) :=
  pc.filter (fun c => decide (c.type = command_type.SELECT))

/-- The first object of `cs`, in list order, whose ray/box test succeeds with
the cursor and the object attributes of the editor state `e` (lines 911-961). -/
def first_hit (inp : frame_input V M P) (e : editor V M P) (cs : List ObjId) : Option ObjId :=
  cs.find? (fun c => inp.intersects e.mouse_pos (e.obj c))

/-- The editor `C4_editor` with a left click pending. -/
def click_editor : editor Int Int Int :=
  { C4_editor with clicked := true }

/-- A frame with the given events and shift poll in which the ray hits exactly
the objects whose translation is at least `lo`; the gesture steps are those of
`C4_frame`. -/
def hit_frame (evs : List (event Int)) (shift : Bool) (lo : Int) : frame_input Int Int Int :=
  { C4_frame evs with shift := shift, intersects := fun _ o => decide (lo ≤ o.translate_vec) }

/-- Replace the flag `clicked` of the editor. -/
def editor.with_clicked (e : editor V M P) (b : Bool) : editor V M P :=
  { e with clicked := b }

/-- The Select command of a pick: one command for the hit object, if any. -/
def select_of (hit : Option ObjId) : List (command V M) :=
  match hit with
  | some c => [.select_command c]
  | none => []

/-- Replace the next pointer of `new` and the `selection_buffer` of the
editor. -/
def editor.with_buffer (e : editor V M P) (n : ObjId) (buf : List ObjId) : editor V M P :=
  { e with next_ptr := n, selection_buffer := buf }

/-- No gesture is Active. -/
def editor.idle (e : editor V M P) : Prop :=
  e.translate_action = false ∧ e.rotate_action = false ∧ e.scale_action = false

section scale_invariant
variable {F : Type} [LinearOrder F] [Zero F]

mutual
/-- What the scale invariant asks of a command in the store `h`: the object
an Add or Remove command owns has a positive scale, a Scale command stores a
positive start-state and a positive end-state, and a packed command holds such
commands only. -/
def command.scale_ok (h : ObjId → selection_object (vec3 F) M) : command (vec3 F) M → Prop
  | .packed_command pack => pack_scale_ok h pack
  | .add_command o => (h o).scale_vec.positive
  | .remove_command o => (h o).scale_vec.positive
  | .select_command _ => True
  | .deselect_command _ => True
  | .translate_command _ _ _ => True
  | .rotate_command _ _ _ => True
  | .scale_command _ st e => st.positive ∧ e.positive
/-- Every command of the list is `scale_ok`. -/
def pack_scale_ok (h : ObjId → selection_object (vec3 F) M) : List (command (vec3 F) M) → Prop
  | [] => True
  | c :: cs => c.scale_ok h ∧ pack_scale_ok h cs
end

/-- Every store cell with a positive scale in `h` has one in `h'`. -/
def scale_mono (h h' : ObjId → selection_object (vec3 F) M) : Prop :=
  ∀ o, (h o).scale_vec.positive → (h' o).scale_vec.positive

/-- The scale invariant of a session: every live object has a positive scale
and every command of the history is `scale_ok`. -/
def Session.scale_inv (x : Session (vec3 F) M) : Prop :=
  (∀ o ∈ x.scene.objects, (x.scene.heap o).scale_vec.positive) ∧
  pack_scale_ok x.scene.heap x.his.commandlist

/-- The scale invariant of the editor: that of its session, a positive scale
in every entry of `selection_buffer`, and a `scale_ok` per-frame pack. -/
def editor.scale_inv (e : editor (vec3 F) M P) : Prop :=
  e.ses.scale_inv ∧
  (∀ b ∈ e.selection_buffer, (e.obj b).scale_vec.positive) ∧
  pack_scale_ok e.ses.scene.heap e.pc

end scale_invariant

/-- The value `selection_object()` constructs, over the rationals: translation
`vec3( 0 )`, scale `vec3( 1 )`, not selected (lines 53-57). -/
def unit_object : selection_object (vec3 ℚ) Int :=
  { rotation_mat := 1, translate_vec := ⟨0, 0, 0⟩, scale_vec := vec3.splat 1, selected := false }

/-- A frame over the rationals with the given events, no shift key, no hit and
the gesture steps of the code in camera-relative mode. -/
def code_frame (evs : List (event (vec2 ℚ))) : frame_input (vec3 ℚ) Int (vec2 ℚ) :=
  (sample_env false).input evs false (fun _ _ => false)

/-- The frames of: Space (add an object), Ctrl+A (select it), a press of Y, two
frames without events, a release of Y. -/
def C16_frames : List (frame_input (vec3 ℚ) Int (vec2 ℚ)) :=
  [code_frame [event.KeyPressed key_code.Space false false],
   code_frame [event.KeyPressed key_code.A true false],
   code_frame [event.KeyPressed key_code.Y false false],
   code_frame [], code_frame [],
   code_frame [event.KeyReleased key_code.Y]]

/-! ### Definitions for the packs, the axis locks and the first Active frame
(C21 to C26) -/

/-- The pack `[Add 3, Remove 3]`. -/
def add_then_remove_pack : List (command Int Int) :=
  [.add_command 3, .remove_command 3]

/-- The command `c` with its end-state replaced by the corresponding attribute
of the object value `v`: the translation for a Translate command, the rotation
for a Rotate command, the scale for a Scale command.  The start-state and the
target are kept; a command without an end-state is returned as it is.  This
is the amended member in the words of the specification. -/
def command.with_end_of (c : command V M) (v : selection_object V M) : command V M :=
  match c with
  | .translate_command o st _ => .translate_command o st v.translate_vec
  | .rotate_command o st _ => .rotate_command o st v.rotation_mat
  | .scale_command o st _ => .scale_command o st v.scale_vec
  | c => c

/-- The start-state of a command, when it has one. -/
def command.start_state (c : command V M) : Option (V ⊕ M) :=
  match c with
  | .translate_command _ st _ => some (.inl st)
  | .rotate_command _ st _ => some (.inr st)
  | .scale_command _ st _ => some (.inl st)
  | _ => none

/-- The three axis-lock flags `lock_to_x`, `lock_to_y`, `lock_to_z` (lines
563-565). -/
def editor.locks (e : editor V M P) : Bool × Bool × Bool :=
  (e.lock_to_x, e.lock_to_y, e.lock_to_z)

/-- At most one of the three flags is on. -/
def at_most_one_lock (l : Bool × Bool × Bool) : Prop :=
  ¬ (l.1 = true ∧ l.2.1 = true) ∧ ¬ (l.1 = true ∧ l.2.2 = true) ∧
  ¬ (l.2.1 = true ∧ l.2.2 = true)

/-- The flags of the gesture controller that outlive a frame: the three
`..._action` flags and `warped` (lines 559-562). -/
def editor.gesture_flags (e : editor V M P) : Bool × Bool × Bool × Bool :=
  (e.translate_action, e.rotate_action, e.scale_action, e.warped)

/-- The axis locks together with the gesture flags. -/
def editor.controls (e : editor V M P) : (Bool × Bool × Bool) × (Bool × Bool × Bool × Bool) :=
  (e.locks, e.gesture_flags)

/-- The value the direct mutation of `action_step` leaves in an object whose
value was `v` (lines 1009-1097): the step of the first gesture kind, in the
order Translate, Rotate, Scale, that is Active while `warped` is set, and `v`
itself when there is none. -/
def gesture_value (inp : frame_input V M P) (e : editor V M P) (v : selection_object V M) :
    selection_object V M :=
  if e.translate_action && e.warped then
    { v with translate_vec :=
        inp.translate_step e.mouse_pos e.lock_to_x e.lock_to_y e.lock_to_z v.translate_vec }
  else if e.rotate_action && e.warped then
    { v with rotation_mat :=
        inp.rotate_step e.mouse_pos e.lock_to_x e.lock_to_y e.lock_to_z v.rotation_mat }
  else if e.scale_action && e.warped then
    { v with scale_vec := inp.scale_step e.mouse_pos v.scale_vec }
  else v

/-- The frames of: Space (add an object), Ctrl+A (select it). -/
def C21_setup : List (frame_input Int Int Int) :=
  [C4_frame [event.KeyPressed key_code.Space false false],
   C4_frame [event.KeyPressed key_code.A true false]]

/-- The frames of: Space, Ctrl+A, a press of R, a cursor movement, a press of T
while the Rotate gesture is Active, a cursor movement to position 5. -/
def C21_frames : List (frame_input Int Int Int) :=
  C21_setup ++
  [C4_frame [event.KeyPressed key_code.R false false],
   C4_frame [event.MouseMoved 1],
   C4_frame [event.KeyPressed key_code.T false false],
   C4_frame [event.MouseMoved 5]]

/-- The frames of: Space (add an object), Ctrl+A (select it), Delete and Ctrl+X
in one frame, Ctrl+Z. -/
def C26_frames : List (frame_input Int Int Int) :=
  [C4_frame [event.KeyPressed key_code.Space false false],
   C4_frame [event.KeyPressed key_code.A true false],
   C4_frame [event.KeyPressed key_code.Delete false false,
             event.KeyPressed key_code.X true false],
   C4_frame [event.KeyPressed key_code.Z true false]]

/-- The frames of: a press of T, a release of T (nothing is selected: the scene
is empty), Space (add an object), Ctrl+A (select it). -/
def C4_stuck_frames : List (frame_input Int Int Int) :=
  [C4_frame [event.KeyPressed key_code.T false false],
   C4_frame [event.KeyReleased key_code.T],
   C4_frame [event.KeyPressed key_code.Space false false],
   C4_frame [event.KeyPressed key_code.A true false]]

/-- The frames of a Translate gesture: a press of T, cursor movements to 4 and
to 5, a release of T. -/
def C4_gesture_frames : List (frame_input Int Int Int) :=
  [C4_frame [event.KeyPressed key_code.T false false],
   C4_frame [event.MouseMoved 4],
   C4_frame [event.MouseMoved 5],
   C4_frame [event.KeyReleased key_code.T]]

/-- The frames of: Ctrl+C, Ctrl+V. -/
def C13_copy_paste_frames : List (frame_input Int Int Int) :=
  [C4_frame [event.KeyPressed key_code.C true false],
   C4_frame [event.KeyPressed key_code.V true false]]

/-- The frames of: Space (add an object), Ctrl+A (select it), a press of T, a
cursor movement to 5 (the first Active frame, which moves nothing). -/
def C14_frames : List (frame_input Int Int Int) :=
  [C4_frame [event.KeyPressed key_code.Space false false],
   C4_frame [event.KeyPressed key_code.A true false],
   C4_frame [event.KeyPressed key_code.T false false],
   C4_frame [event.MouseMoved 5]]

/-- The expression `k * axis * 2 * len` of lines 1019-1047, evaluated left to
right in the arithmetic `fp`: one axis vector multiplied by the scalars `k`,
`2` and `len` in turn. -/
def vec3.along {F : Type} (fp : float_ops F) (k : F) (axis : vec3 F) (len : F) : vec3 F :=
  ((vec3.smul fp k axis).mul_scalar fp fp.two).mul_scalar fp len

/-- The local `delta` of the gesture steps (lines 1011, 1053): `mouse_pos - 0.5`. -/
def gesture_env.delta {F M : Type} (env : gesture_env F M) (mouse_pos : vec2 F) : vec2 F :=
  mouse_pos.sub_scalar env.fp env.fp.half

/-- The local `top` of the Translate step (line 1012):
`length( c->translate_vec - cam.pos ) * tan( cam_fov * 0.5f )`. -/
def gesture_env.top {F M : Type} (env : gesture_env F M) (t : vec3 F) : F :=
  env.fp.mul (env.length3 (t.sub env.fp env.cam_pos)) env.tan_half_fov

/-- The local `right` of the Translate step (line 1013): `top * aspect`. -/
def gesture_env.right {F M : Type} (env : gesture_env F M) (t : vec3 F) : F :=
  env.fp.mul (env.top t) env.aspect

/-- The objects a command refers to: the targets `o` of its leaves. -/
def command.targets (c : command V M) : List ObjId :=
  c.leaves.map command.o

/-- The frames of: Space (add an object), Ctrl+A (select it), Ctrl+C, Ctrl+C
again (the second copy releases the clipboard entry of the first). -/
def C17_copy_frames : List (frame_input Int Int Int) :=
  [C4_frame [event.KeyPressed key_code.Space false false],
   C4_frame [event.KeyPressed key_code.A true false],
   C4_frame [event.KeyPressed key_code.C true false],
   C4_frame [event.KeyPressed key_code.C true false]]

/-! ## Theorems -/

/-! ### `history::put`, `undo` and `redo` (C3, C5, C6, C7, C8) -/

theorem erase_first_eq_erase (o : ObjId) (l : List ObjId) : erase_first o l = l.erase o := by
  induction l with
  | nil => rfl
  | cons a l ih =>
    by_cases h : a = o
    · simp [erase_first, h]
    · simp [erase_first, h, List.erase_cons_tail, ih]

mutual
theorem execute_with_freed : ∀ (c : command V M) (s : Scene V M) (f : List ObjId),
    c.execute { s with freed := f } = { c.execute s with freed := f }
  | .packed_command pack, s, f => by
    simp only [command.execute]; exact execute_pack_with_freed pack s f
  | .add_command _, _, _ => rfl
  | .remove_command _, _, _ => rfl
  | .select_command _, _, _ => rfl
  | .deselect_command _, _, _ => rfl
  | .translate_command _ _ _, _, _ => rfl
  | .rotate_command _ _ _, _, _ => rfl
  | .scale_command _ _ _, _, _ => rfl
theorem execute_pack_with_freed : ∀ (p : List (command V M)) (s : Scene V M) (f : List ObjId),
    execute_pack p { s with freed := f } = { execute_pack p s with freed := f }
  | [], _, _ => rfl
  | c :: cs, s, f => by
    simp only [execute_pack]
    rw [execute_with_freed c s f]
    exact execute_pack_with_freed cs _ f
end

mutual
theorem execute_freed : ∀ (c : command V M) (s : Scene V M), (c.execute s).freed = s.freed
  | .packed_command pack, s => by
    simp only [command.execute]; exact execute_pack_freed pack s
  | .add_command _, _ => rfl
  | .remove_command _, _ => rfl
  | .select_command _, _ => rfl
  | .deselect_command _, _ => rfl
  | .translate_command _ _ _, _ => rfl
  | .rotate_command _ _ _, _ => rfl
  | .scale_command _ _ _, _ => rfl
theorem execute_pack_freed : ∀ (p : List (command V M)) (s : Scene V M),
    (execute_pack p s).freed = s.freed
  | [], _ => rfl
  | c :: cs, s => by
    simp only [execute_pack]
    rw [execute_pack_freed cs _, execute_freed c s]
end

theorem take_succ_set {α : Type} (l : List α) (n : Nat) (c : α) (h : n < l.length) :
    (l.take (n + 1)).set n c = l.take n ++ [c] := by
  induction l generalizing n with
  | nil => simp at h
  | cons a l ih =>
    cases n with
    | zero => simp
    | succ n =>
      simp only [List.length_cons, Nat.add_lt_add_iff_right] at h
      simp only [List.take_succ_cons, List.set_cons_succ, List.cons_append, ih n h]

theorem resize_and_store_eq (cl : List (command V M)) (n : Nat) (c : command V M)
    (h : n ≤ cl.length) : resize_and_store cl n c = cl.take n ++ [c] := by
  unfold resize_and_store
  simp only
  by_cases hlt : n < cl.length
  · rw [if_pos (by rw [List.length_take]; omega), take_succ_set cl n c hlt]
  · have hn : cl.length = n := by omega
    rw [if_neg (by rw [List.length_take]; omega),
      List.take_of_length_le (by omega), List.take_of_length_le (by omega)]

theorem put_commandlist (x : Session V M) (c : command V M) (hr : x.his.in_range) :
    (history.put x c).his.commandlist
      = x.his.commandlist.take (x.his.ptr + 1).toNat ++ [c] := by
  obtain ⟨h1, h2⟩ := hr
  exact resize_and_store_eq _ _ _ (by omega)

/-- C5: for a history whose cursor `p` is in range, `history::put(t)` leaves the
entries `e_0..e_p` followed by `t` (everything after the old cursor is gone),
the cursor is `p + 1`, which is the index of `t` and the last index, and the
scene is `t.execute` applied once to the prior objects and attributes; the
`put` releases no object. -/
theorem C5_put (x : Session V M) (t : command V M) (hr : x.his.in_range) :
    (history.put x t).his.commandlist
        = x.his.commandlist.take (x.his.ptr + 1).toNat ++ [t] ∧
    ((x.his.commandlist.take (x.his.ptr + 1).toNat).length : Int) = x.his.ptr + 1 ∧
    (history.put x t).his.ptr = x.his.ptr + 1 ∧
    (history.put x t).his.commandlist[(history.put x t).his.ptr.toNat]? = some t ∧
    (history.put x t).his.ptr = ((history.put x t).his.commandlist.length : Int) - 1 ∧
    (history.put x t).scene.objects = (t.execute x.scene).objects ∧
    (history.put x t).scene.heap = (t.execute x.scene).heap ∧
    (history.put x t).scene.freed = x.scene.freed := by
  obtain ⟨h1, h2⟩ := hr
  have hlen : ((x.his.commandlist.take (x.his.ptr + 1).toNat).length : Int) = x.his.ptr + 1 := by
    rw [List.length_take]
    omega
  have hlen' : (x.his.commandlist.take (x.his.ptr + 1).toNat).length = (x.his.ptr + 1).toNat := by
    omega
  have hcl := put_commandlist x t ⟨h1, h2⟩
  refine ⟨hcl, hlen, rfl, ?_, ?_, ?_, ?_, ?_⟩
  · rw [hcl]
    show (List.take (x.his.ptr + 1).toNat x.his.commandlist ++ [t])[(x.his.ptr + 1).toNat]?
      = some t
    rw [List.getElem?_append_right (by omega)]
    simp [hlen']
  · rw [hcl]
    show x.his.ptr + 1 = _
    simp only [List.length_append, List.length_singleton]
    omega
  · rfl
  · rfl
  · exact execute_freed t x.scene

/-- C6: for a history whose cursor is in range, `history::undo` is a no-op
exactly when the cursor is -1; otherwise it unexecutes the entry at the cursor
and decrements the cursor, and the entries stay as they are. -/
theorem C6_undo (x : Session V M) (hr : x.his.in_range) :
    (history.undo x = x ↔ x.his.ptr = -1) ∧
    (x.his.ptr ≠ -1 →
      ∃ c, x.his.commandlist[x.his.ptr.toNat]? = some c ∧
        history.undo x =
          { his := { commandlist := x.his.commandlist, ptr := x.his.ptr - 1 },
            scene := c.unexecute x.scene }) := by
  obtain ⟨h1, h2⟩ := hr
  constructor
  · constructor
    · intro h
      by_contra hne
      have hp : (history.undo x).his.ptr = x.his.ptr - 1 := by
        simp only [history.undo]
        rw [if_pos (by omega)]
      rw [h] at hp
      omega
    · intro h
      obtain ⟨⟨cl, p⟩, sc⟩ := x
      simp only at h
      subst h
      simp [history.undo, lt_size]
  · intro hne
    have hlt : x.his.ptr.toNat < x.his.commandlist.length := by omega
    refine ⟨x.his.commandlist[x.his.ptr.toNat], List.getElem?_eq_getElem hlt, ?_⟩
    simp only [history.undo, lt_size]
    rw [if_pos (by omega), if_pos, List.getElem?_eq_getElem hlt]
    refine ⟨by omega, ?_, by omega⟩
    simp only [Bool.and_eq_true, decide_eq_true_eq]
    omega

/-- C7: for a history whose cursor is in range, `history::redo` is a no-op
when the cursor is `size - 1` (so also on the empty history); otherwise it
increments the cursor and executes the entry now at the cursor, and the
entries stay as they are. -/
theorem C7_redo (x : Session V M) (hr : x.his.in_range) :
    (x.his.ptr = (x.his.commandlist.length : Int) - 1 → history.redo x = x) ∧
    (∀ s : Scene V M, history.redo { his := history.init, scene := s }
        = { his := history.init, scene := s }) ∧
    (x.his.ptr ≠ (x.his.commandlist.length : Int) - 1 →
      ∃ c, x.his.commandlist[(x.his.ptr + 1).toNat]? = some c ∧
        history.redo x =
          { his := { commandlist := x.his.commandlist, ptr := x.his.ptr + 1 },
            scene := c.execute x.scene }) := by
  obtain ⟨h1, h2⟩ := hr
  refine ⟨?_, ?_, ?_⟩
  · intro h
    simp only [history.redo]
    rw [if_neg (by omega)]
  · intro s
    simp [history.redo, history.init]
  · intro hne
    have hlt : (x.his.ptr + 1).toNat < x.his.commandlist.length := by omega
    refine ⟨x.his.commandlist[(x.his.ptr + 1).toNat], List.getElem?_eq_getElem hlt, ?_⟩
    simp only [history.redo, lt_size]
    rw [if_pos (by omega), if_pos, List.getElem?_eq_getElem hlt]
    refine ⟨by omega, ?_, by omega⟩
    simp only [Bool.and_eq_true, decide_eq_true_eq]
    omega

theorem put_ptr (x : Session V M) (c : command V M) :
    (history.put x c).his.ptr = x.his.ptr + 1 := rfl

theorem undo_commandlist (x : Session V M) :
    (history.undo x).his.commandlist = x.his.commandlist := rfl

theorem undo_ptr (x : Session V M) (h : x.his.ptr > -1) :
    (history.undo x).his.ptr = x.his.ptr - 1 := by
  simp only [history.undo]
  rw [if_pos h]

theorem put_in_range (x : Session V M) (c : command V M) (hr : x.his.in_range) :
    (history.put x c).his.in_range := by
  have hcl := put_commandlist x c hr
  obtain ⟨h1, h2⟩ := hr
  unfold history.in_range
  rw [hcl]
  show -1 ≤ x.his.ptr + 1 ∧ x.his.ptr + 1 ≤ _
  simp only [List.length_append, List.length_take, List.length_singleton]
  omega

theorem undo_in_range (x : Session V M) (hr : x.his.in_range) :
    (history.undo x).his.in_range := by
  obtain ⟨h1, h2⟩ := hr
  simp only [history.in_range, history.undo]
  split <;> omega

theorem redo_in_range (x : Session V M) (hr : x.his.in_range) :
    (history.redo x).his.in_range := by
  obtain ⟨h1, h2⟩ := hr
  simp only [history.in_range, history.redo]
  split
  · simp only
    omega
  · exact ⟨h1, h2⟩

theorem set_end_loop_length (cl : List (command V M)) (o : ObjId) (ct : command_type)
    (s : Scene V M) (n : Nat) : (history.set_end_loop cl o ct s n).length = cl.length := by
  induction n with
  | zero => rfl
  | succ n ih =>
    simp only [history.set_end_loop]
    split
    · split
      · simp
      · exact ih
    · exact ih

theorem set_end_ptr (x : Session V M) (o : ObjId) (ct : command_type) :
    (history.set_end x o ct).his.ptr = x.his.ptr := by
  simp only [history.set_end]
  split <;> rfl

theorem set_end_length (x : Session V M) (o : ObjId) (ct : command_type) :
    (history.set_end x o ct).his.commandlist.length = x.his.commandlist.length := by
  simp only [history.set_end]
  split
  · exact set_end_loop_length _ _ _ _ _
  · rfl

theorem set_end_scene (x : Session V M) (o : ObjId) (ct : command_type) :
    (history.set_end x o ct).scene = x.scene := by
  simp only [history.set_end]
  split <;> rfl

theorem set_end_in_range (x : Session V M) (o : ObjId) (ct : command_type)
    (hr : x.his.in_range) : (history.set_end x o ct).his.in_range := by
  simp only [history.in_range, set_end_ptr, set_end_length]
  exact hr

/-- C3: after `put(A); put(B); undo(); put(C)` on a history whose cursor `p` is
in range, `redo()` changes nothing, the entries are `e_0..e_p, A, C` (the slot
that held `B` holds `C`), and the cursor is the last index. -/
theorem C3_redo_truncation (x : Session V M) (A B C : command V M) (hr : x.his.in_range) :
    history.redo (history.put (history.undo (history.put (history.put x A) B)) C)
        = history.put (history.undo (history.put (history.put x A) B)) C ∧
    (history.put (history.undo (history.put (history.put x A) B)) C).his.commandlist
        = x.his.commandlist.take (x.his.ptr + 1).toNat ++ [A, C] ∧
    (history.put (history.undo (history.put (history.put x A) B)) C).his.ptr
        = x.his.ptr + 2 ∧
    (history.put (history.undo (history.put (history.put x A) B)) C).his.ptr
        = ((history.put (history.undo (history.put (history.put x A) B)) C).his.commandlist.length
            : Int) - 1 := by
  have hy := put_in_range _ C (undo_in_range _ (put_in_range _ B (put_in_range x A hr)))
  obtain ⟨h1, h2⟩ := hr
  have hlen : (x.his.commandlist.take (x.his.ptr + 1).toNat).length = (x.his.ptr + 1).toNat := by
    rw [List.length_take]
    omega
  have i1 := put_in_range x A ⟨h1, h2⟩
  have i2 := put_in_range _ B i1
  have i3 := undo_in_range _ i2
  have p3 : (history.undo (history.put (history.put x A) B)).his.ptr = x.his.ptr + 1 := by
    rw [undo_ptr _ (by simp only [put_ptr]; omega)]
    simp only [put_ptr]
    omega
  have hcl : (history.put (history.undo (history.put (history.put x A) B)) C).his.commandlist
      = x.his.commandlist.take (x.his.ptr + 1).toNat ++ [A, C] := by
    rw [put_commandlist _ C i3, undo_commandlist, put_commandlist _ B i1,
      put_commandlist x A ⟨h1, h2⟩, p3]
    simp only [put_ptr]
    have e1 : (x.his.ptr + 1 + 1).toNat = (x.his.ptr + 1).toNat + 1 := by omega
    rw [e1]
    have t1 : List.take ((x.his.ptr + 1).toNat + 1)
        (List.take (x.his.ptr + 1).toNat x.his.commandlist ++ [A] ++ [B])
        = List.take (x.his.ptr + 1).toNat x.his.commandlist ++ [A] := by
      rw [List.take_append_eq_append_take]
      simp [hlen]
    have t2 : List.take ((x.his.ptr + 1).toNat + 1)
        (List.take (x.his.ptr + 1).toNat x.his.commandlist ++ [A])
        = List.take (x.his.ptr + 1).toNat x.his.commandlist ++ [A] := by
      apply List.take_of_length_le
      simp [hlen]
    rw [t2, t1]
    simp
  have hp : (history.put (history.undo (history.put (history.put x A) B)) C).his.ptr
      = x.his.ptr + 2 := by
    rw [put_ptr, p3]
    omega
  have hl : (history.put (history.undo (history.put (history.put x A) B)) C).his.ptr
      = ((history.put (history.undo (history.put (history.put x A) B)) C).his.commandlist.length
          : Int) - 1 := by
    rw [hp, hcl]
    simp only [List.length_append, hlen, List.length_cons, List.length_nil]
    push_cast
    omega
  refine ⟨?_, hcl, hp, hl⟩
  generalize history.put (history.undo (history.put (history.put x A) B)) C = y at hl
  simp only [history.redo]
  rw [if_neg (by omega)]

theorem put_getElem_ptr (x : Session V M) (t : command V M) (hr : x.his.in_range) :
    (history.put x t).his.commandlist[(x.his.ptr + 1).toNat]? = some t := by
  obtain ⟨h1, h2⟩ := hr
  have hlen : (x.his.commandlist.take (x.his.ptr + 1).toNat).length = (x.his.ptr + 1).toNat := by
    rw [List.length_take]
    omega
  rw [put_commandlist x t ⟨h1, h2⟩, List.getElem?_append_right (by omega)]
  simp [hlen]

theorem run_calls_in_range (calls : List (history_call V M)) (x : Session V M)
    (hr : x.his.in_range) : (run_calls calls x).his.in_range := by
  induction calls generalizing x with
  | nil => exact hr
  | cons k ks ih =>
    apply ih
    cases k with
    | put c => exact put_in_range x c hr
    | undo => exact undo_in_range x hr
    | redo => exact redo_in_range x hr
    | set_end o ct => exact set_end_in_range x o ct hr

/-- C8: in every state reached from the empty history by `put`, `undo`, `redo`
and `set_end` calls the cursor satisfies `-1 <= ptr <= size - 1`, so the entry
`commandlist[ptr]` read by `undo` exists, the entry `commandlist[ptr + 1]` read
by `redo` exists, and `put` finds at least `ptr + 1` entries to keep and reads
back the entry it stored. -/
theorem C8_cursor_in_range (s : Scene V M) (calls : List (history_call V M)) :
    (run_calls calls { his := history.init, scene := s }).his.in_range ∧
    ((run_calls calls { his := history.init, scene := s }).his.ptr > -1 →
      ∃ c, (run_calls calls { his := history.init, scene := s }).his.commandlist[
        (run_calls calls { his := history.init, scene := s }).his.ptr.toNat]? = some c) ∧
    ((run_calls calls { his := history.init, scene := s }).his.ptr
        < ((run_calls calls { his := history.init, scene := s }).his.commandlist.length : Int) - 1 →
      ∃ c, (run_calls calls { his := history.init, scene := s }).his.commandlist[
        ((run_calls calls { his := history.init, scene := s }).his.ptr + 1).toNat]? = some c) ∧
    (((run_calls calls { his := history.init, scene := s }).his.ptr + 1).toNat
        ≤ (run_calls calls { his := history.init, scene := s }).his.commandlist.length) ∧
    (∀ c, (history.put (run_calls calls { his := history.init, scene := s }) c).his.commandlist[
        (history.put (run_calls calls { his := history.init, scene := s }) c).his.ptr.toNat]?
          = some c) := by
  have hr : (run_calls calls { his := history.init, scene := s }).his.in_range :=
    run_calls_in_range calls _ (by simp [history.in_range, history.init])
  generalize run_calls calls { his := history.init, scene := s } = y at hr
  have hput := fun c => put_getElem_ptr y c hr
  obtain ⟨h1, h2⟩ := hr
  refine ⟨⟨h1, h2⟩, ?_, ?_, by omega, hput⟩
  · intro h
    exact ⟨_, List.getElem?_eq_getElem (by omega)⟩
  · intro h
    exact ⟨_, List.getElem?_eq_getElem (by omega)⟩

/-! ### `history::set_end` (C9, C10) -/

theorem mem_members_self : ∀ (c : command V M), c ∈ c.members
  | .packed_command _ => by simp [command.members]
  | .add_command _ => by simp [command.members]
  | .remove_command _ => by simp [command.members]
  | .select_command _ => by simp [command.members]
  | .deselect_command _ => by simp [command.members]
  | .translate_command _ _ _ => by simp [command.members]
  | .rotate_command _ _ _ => by simp [command.members]
  | .scale_command _ _ _ => by simp [command.members]

theorem mem_members_pack_of_mem (p : List (command V M)) (c : command V M) (h : c ∈ p) :
    c ∈ members_pack p := by
  induction p with
  | nil => cases h
  | cons a p ih =>
    simp only [members_pack, List.mem_append]
    rcases List.mem_cons.mp h with h | h
    · left
      rw [h]
      exact mem_members_self a
    · right
      exact ih h

theorem members_pack_subset_of_mem (p : List (command V M)) (c d : command V M) (h : c ∈ p)
    (hd : d ∈ c.members) : d ∈ members_pack p := by
  induction p with
  | nil => cases h
  | cons a p ih =>
    simp only [members_pack, List.mem_append]
    rcases List.mem_cons.mp h with h | h
    · left
      rw [← h]
      exact hd
    · right
      exact ih h

/-- The code at the failing input of C9: the history holds a Translate command
for object 1 in its first entry, object 1 now has translation 5, and
`history::set_end(1, TRANSLATE)` stops at the more recent transaction (which
has no match) and leaves the recorded end-state at 0. -/
theorem C9_set_end_stops_at_latest_packed :
    (∃ c ∈ members_pack C9_session.his.commandlist, c.is_match 1 .TRANSLATE) ∧
    (C9_session.scene.heap 1).translate_vec = 5 ∧
    (history.set_end C9_session 1 .TRANSLATE).his.commandlist
      = [.packed_command [.translate_command 1 0 0], .packed_command [.select_command 2]] := by
  refine ⟨⟨.translate_command 1 0 0, ?_, ?_⟩, rfl, rfl⟩
  · simp [C9_session, members_pack, command.members]
  · exact ⟨rfl, rfl⟩

theorem set_end_of_no_end_state (c : command V M) (o : ObjId) (ct : command_type)
    (s : Scene V M) (h : c.type.no_end_state) : c.set_end o ct s = c := by
  cases c <;> first
    | rfl
    | (exfalso
       simp [command_type.no_end_state, command.type] at h)

theorem set_end_pack_eq_self (p : List (command V M)) (o : ObjId) (ct : command_type)
    (s : Scene V M) (h : ∀ c ∈ p, c.is_match o ct → c.type.no_end_state) :
    set_end_pack p o ct s = p := by
  induction p with
  | nil => rfl
  | cons a p ih =>
    simp only [set_end_pack]
    rw [ih (fun c hc => h c (List.mem_cons_of_mem _ hc))]
    split
    · rename_i hm
      rw [set_end_of_no_end_state a o ct s (h a (List.mem_cons_self _ _) ⟨hm.2, hm.1⟩)]
    · rfl

theorem set_end_eq_self_of_guard (c : command V M) (o : ObjId) (ct : command_type)
    (s : Scene V M) (h : ∀ d ∈ c.members, d.is_match o ct → d.type.no_end_state)
    (hg : c.type = .PACKED ∨ (c.o = o ∧ c.type = ct)) : c.set_end o ct s = c := by
  cases c with
  | packed_command pack =>
    simp only [command.set_end]
    rw [set_end_pack_eq_self]
    intro d hd
    apply h
    simp only [command.members, List.mem_cons]
    right
    exact mem_members_pack_of_mem pack d hd
  | add_command o1 => rfl
  | remove_command o1 => rfl
  | select_command o1 => rfl
  | deselect_command o1 => rfl
  | translate_command o1 st e =>
    rcases hg with hg | hg
    · simp [command.type] at hg
    · have := h _ (mem_members_self _) ⟨hg.1, hg.2⟩
      simp [command_type.no_end_state, command.type] at this
  | rotate_command o1 st e =>
    rcases hg with hg | hg
    · simp [command.type] at hg
    · have := h _ (mem_members_self _) ⟨hg.1, hg.2⟩
      simp [command_type.no_end_state, command.type] at this
  | scale_command o1 st e =>
    rcases hg with hg | hg
    · simp [command.type] at hg
    · have := h _ (mem_members_self _) ⟨hg.1, hg.2⟩
      simp [command_type.no_end_state, command.type] at this

theorem list_set_eq_self {α : Type} (l : List α) (n : Nat) (a : α) (h : l[n]? = some a) :
    l.set n a = l := by
  induction l generalizing n with
  | nil => rfl
  | cons b l ih =>
    cases n with
    | zero =>
      simp only [List.getElem?_cons_zero, Option.some.injEq] at h
      simp [h]
    | succ n =>
      simp only [List.getElem?_cons_succ] at h
      simp [ih n h]

theorem set_end_loop_eq_self (cl : List (command V M)) (o : ObjId) (ct : command_type)
    (s : Scene V M) (h : ∀ d ∈ members_pack cl, d.is_match o ct → d.type.no_end_state)
    (n : Nat) : history.set_end_loop cl o ct s n = cl := by
  induction n with
  | zero => rfl
  | succ n ih =>
    simp only [history.set_end_loop]
    split
    · rename_i c hc
      split
      · rename_i hg
        have hmem : c ∈ cl := List.getElem?_mem hc
        rw [set_end_eq_self_of_guard c o ct s
          (fun d hd => h d (members_pack_subset_of_mem cl c d hmem hd)) hg]
        exact list_set_eq_self cl n c hc
      · exact ih
    · exact ih

/-- C10: when no command in any history entry matches `(o, ct)`, or when every
command that targets `o` is an Add, Remove, Select or Deselect command,
`history::set_end(o, ct)` changes nothing: commands, entries, cursor, live list
and object attributes are all as before. -/
theorem C10_set_end_no_match (x : Session V M) (o : ObjId) (ct : command_type)
    (h : x.his.no_match o ct ∨ x.his.only_stateless o) :
    history.set_end x o ct = x := by
  have H : ∀ d ∈ members_pack x.his.commandlist, d.is_match o ct → d.type.no_end_state := by
    intro d hd hm
    rcases h with h | h
    · exact absurd hm (h d hd)
    · exact h d hd hm.1
  simp only [history.set_end]
  split
  · rw [set_end_loop_eq_self _ _ _ _ H]
  · rfl

/-! ### Undoing and redoing transactions (C1, C2) -/

theorem execute_pack_append (a b : List (command V M)) (s : Scene V M) :
    execute_pack (a ++ b) s = execute_pack b (execute_pack a s) := by
  induction a generalizing s with
  | nil => rfl
  | cons c a ih => exact ih (c.execute s)

theorem unexecute_pack_append (a b : List (command V M)) (s : Scene V M) :
    unexecute_pack (a ++ b) s = unexecute_pack b (unexecute_pack a s) := by
  induction a generalizing s with
  | nil => rfl
  | cons c a ih => exact ih (c.unexecute s)

mutual
theorem execute_eq_leaves : ∀ (c : command V M) (s : Scene V M),
    c.execute s = execute_pack c.leaves s
  | .packed_command pack, s => by
    simp only [command.execute, command.leaves]
    exact execute_pack_eq_leaves pack s
  | .add_command _, _ => rfl
  | .remove_command _, _ => rfl
  | .select_command _, _ => rfl
  | .deselect_command _, _ => rfl
  | .translate_command _ _ _, _ => rfl
  | .rotate_command _ _ _, _ => rfl
  | .scale_command _ _ _, _ => rfl
theorem execute_pack_eq_leaves : ∀ (p : List (command V M)) (s : Scene V M),
    execute_pack p s = execute_pack (leaves_pack p) s
  | [], _ => rfl
  | c :: cs, s => by
    simp only [execute_pack, leaves_pack, execute_pack_append]
    rw [execute_eq_leaves c s]
    exact execute_pack_eq_leaves cs _
end

mutual
theorem unexecute_eq_leaves : ∀ (c : command V M) (s : Scene V M),
    c.unexecute s = unexecute_pack c.leaves s
  | .packed_command pack, s => by
    simp only [command.unexecute, command.leaves]
    exact unexecute_pack_eq_leaves pack s
  | .add_command _, _ => rfl
  | .remove_command _, _ => rfl
  | .select_command _, _ => rfl
  | .deselect_command _, _ => rfl
  | .translate_command _ _ _, _ => rfl
  | .rotate_command _ _ _, _ => rfl
  | .scale_command _ _ _, _ => rfl
theorem unexecute_pack_eq_leaves : ∀ (p : List (command V M)) (s : Scene V M),
    unexecute_pack p s = unexecute_pack (leaves_pack p) s
  | [], _ => rfl
  | c :: cs, s => by
    simp only [unexecute_pack, leaves_pack, unexecute_pack_append]
    rw [unexecute_eq_leaves c s]
    exact unexecute_pack_eq_leaves cs _
end

mutual
theorem leaves_not_packed : ∀ (c : command V M), ∀ d ∈ c.leaves, d.type ≠ .PACKED
  | .packed_command pack => by
    simp only [command.leaves]
    exact leaves_pack_not_packed pack
  | .add_command _ => by simp [command.leaves, command.type]
  | .remove_command _ => by simp [command.leaves, command.type]
  | .select_command _ => by simp [command.leaves, command.type]
  | .deselect_command _ => by simp [command.leaves, command.type]
  | .translate_command _ _ _ => by simp [command.leaves, command.type]
  | .rotate_command _ _ _ => by simp [command.leaves, command.type]
  | .scale_command _ _ _ => by simp [command.leaves, command.type]
theorem leaves_pack_not_packed : ∀ (p : List (command V M)), ∀ d ∈ leaves_pack p, d.type ≠ .PACKED
  | [] => by simp [leaves_pack]
  | c :: cs => by
    intro d hd
    simp only [leaves_pack, List.mem_append] at hd
    rcases hd with hd | hd
    · exact leaves_not_packed c d hd
    · exact leaves_pack_not_packed cs d hd
end

theorem heap_agree_off_mono {W W' : ObjId → attribute_name → Prop}
    {h h' : ObjId → selection_object V M} (hW : ∀ o a, W o a → W' o a)
    (H : heap_agree_off W h h') : heap_agree_off W' h h' := by
  intro o
  obtain ⟨h1, h2, h3, h4⟩ := H o
  exact ⟨fun n => h1 (fun w => n (hW _ _ w)), fun n => h2 (fun w => n (hW _ _ w)),
    fun n => h3 (fun w => n (hW _ _ w)), fun n => h4 (fun w => n (hW _ _ w))⟩

theorem heap_agree_off_trans {W : ObjId → attribute_name → Prop}
    {h1 h2 h3 : ObjId → selection_object V M}
    (A : heap_agree_off W h1 h2) (B : heap_agree_off W h2 h3) : heap_agree_off W h1 h3 := by
  intro o
  obtain ⟨a1, a2, a3, a4⟩ := A o
  obtain ⟨b1, b2, b3, b4⟩ := B o
  exact ⟨fun n => (a1 n).trans (b1 n), fun n => (a2 n).trans (b2 n),
    fun n => (a3 n).trans (b3 n), fun n => (a4 n).trans (b4 n)⟩

theorem heap_agree_off_refl (W : ObjId → attribute_name → Prop)
    (h : ObjId → selection_object V M) : heap_agree_off W h h :=
  fun _ => ⟨fun _ => rfl, fun _ => rfl, fun _ => rfl, fun _ => rfl⟩

theorem heap_eq_of_agree_off_nothing {h h' : ObjId → selection_object V M}
    (H : heap_agree_off (fun _ _ => False) h h') : h = h' := by
  funext o
  obtain ⟨h1, h2, h3, h4⟩ := H o
  have e1 := h1 (fun x => x)
  have e2 := h2 (fun x => x)
  have e3 := h3 (fun x => x)
  have e4 := h4 (fun x => x)
  cases hh : h o
  cases hh' : h' o
  simp_all

theorem modify_heap (s : Scene V M) (o o' : ObjId)
    (f : selection_object V M → selection_object V M) :
    (s.modify o f).heap o' = if o' = o then f (s.heap o) else s.heap o' := by
  simp [Scene.modify, Function.update_apply]

theorem leaf_execute_agree_step (c : command V M) (hc : c.type ≠ .PACKED)
    (W : ObjId → attribute_name → Prop) (m1 m2 : Scene V M)
    (H : heap_agree_off (fun o a => c.writes o a ∨ W o a) m1.heap m2.heap) :
    heap_agree_off W (c.execute m1).heap (c.execute m2).heap := by
  intro o
  have H' := H o
  by_cases e : o = c.o
  · cases c <;>
      simp_all [command.o, command.writes, command.execute, modify_heap, command.type]
  · have e' : ¬ c.o = o := fun h => e h.symm
    cases c <;>
      simp_all [command.o, command.writes, command.execute, modify_heap, command.type]

theorem leaf_unexecute_reset_step (c : command V M) (hc : c.type ≠ .PACKED)
    (W : ObjId → attribute_name → Prop) (s m : Scene V M) (hrec : c.records_state s)
    (H : heap_agree_off (fun o a => c.writes o a ∨ W o a) m.heap s.heap) :
    heap_agree_off W (c.unexecute m).heap s.heap := by
  intro o
  have H' := H o
  by_cases e : o = c.o
  · cases c <;>
      simp_all [command.o, command.writes, command.unexecute, modify_heap,
        command.records_state, command.type]
  · have e' : ¬ c.o = o := fun h => e h.symm
    cases c <;>
      simp_all [command.o, command.writes, command.unexecute, modify_heap,
        command.records_state, command.type]

theorem leaf_execute_preserves (c : command V M) (hc : c.type ≠ .PACKED) (m : Scene V M) :
    heap_agree_off c.writes (c.execute m).heap m.heap := by
  intro o
  by_cases e : o = c.o
  · cases c <;>
      simp_all [command.o, command.writes, command.execute, modify_heap, command.type]
  · have e' : ¬ c.o = o := fun h => e h.symm
    cases c <;>
      simp_all [command.o, command.writes, command.execute, modify_heap, command.type]

theorem leaf_unexecute_preserves (c : command V M) (hc : c.type ≠ .PACKED) (m : Scene V M) :
    heap_agree_off c.writes (c.unexecute m).heap m.heap := by
  intro o
  by_cases e : o = c.o
  · cases c <;>
      simp_all [command.o, command.writes, command.unexecute, modify_heap, command.type]
  · have e' : ¬ c.o = o := fun h => e h.symm
    cases c <;>
      simp_all [command.o, command.writes, command.unexecute, modify_heap, command.type]

theorem execute_pack_preserves (L : List (command V M)) (hL : ∀ c ∈ L, c.type ≠ .PACKED)
    (m : Scene V M) : heap_agree_off (writes_pack L) (execute_pack L m).heap m.heap := by
  induction L generalizing m with
  | nil => exact heap_agree_off_refl _ _
  | cons c L ih =>
    simp only [execute_pack]
    have A := ih (fun d hd => hL d (List.mem_cons_of_mem _ hd)) (c.execute m)
    have B := leaf_execute_preserves c (hL c (List.mem_cons_self _ _)) m
    exact heap_agree_off_trans
      (heap_agree_off_mono (fun o a ⟨d, hd, hw⟩ => ⟨d, List.mem_cons_of_mem _ hd, hw⟩) A)
      (heap_agree_off_mono (fun o a hw => ⟨c, List.mem_cons_self _ _, hw⟩) B)

theorem unexecute_pack_preserves (L : List (command V M)) (hL : ∀ c ∈ L, c.type ≠ .PACKED)
    (m : Scene V M) : heap_agree_off (writes_pack L) (unexecute_pack L m).heap m.heap := by
  induction L generalizing m with
  | nil => exact heap_agree_off_refl _ _
  | cons c L ih =>
    simp only [unexecute_pack]
    have A := ih (fun d hd => hL d (List.mem_cons_of_mem _ hd)) (c.unexecute m)
    have B := leaf_unexecute_preserves c (hL c (List.mem_cons_self _ _)) m
    exact heap_agree_off_trans
      (heap_agree_off_mono (fun o a ⟨d, hd, hw⟩ => ⟨d, List.mem_cons_of_mem _ hd, hw⟩) A)
      (heap_agree_off_mono (fun o a hw => ⟨c, List.mem_cons_self _ _, hw⟩) B)

theorem writes_pack_cons (c : command V M) (L : List (command V M)) (o : ObjId)
    (a : attribute_name) : writes_pack (c :: L) o a → c.writes o a ∨ writes_pack L o a := by
  rintro ⟨d, hd, hw⟩
  rcases List.mem_cons.mp hd with h | h
  · left
    rw [← h]
    exact hw
  · right
    exact ⟨d, h, hw⟩

theorem execute_pack_heap_congr (L : List (command V M)) (hL : ∀ c ∈ L, c.type ≠ .PACKED)
    (m1 m2 : Scene V M) (H : heap_agree_off (writes_pack L) m1.heap m2.heap) :
    (execute_pack L m1).heap = (execute_pack L m2).heap := by
  induction L generalizing m1 m2 with
  | nil =>
    apply heap_eq_of_agree_off_nothing
    exact heap_agree_off_mono (fun o a ⟨d, hd, _⟩ => by cases hd) H
  | cons c L ih =>
    simp only [execute_pack]
    apply ih (fun d hd => hL d (List.mem_cons_of_mem _ hd))
    apply leaf_execute_agree_step c (hL c (List.mem_cons_self _ _))
    exact heap_agree_off_mono (fun o a hw => writes_pack_cons c L o a hw) H

theorem unexecute_pack_resets (L : List (command V M)) (hL : ∀ c ∈ L, c.type ≠ .PACKED)
    (s m : Scene V M) (hrec : ∀ c ∈ L, c.records_state s)
    (H : heap_agree_off (writes_pack L) m.heap s.heap) :
    (unexecute_pack L m).heap = s.heap := by
  induction L generalizing m with
  | nil =>
    apply heap_eq_of_agree_off_nothing
    exact heap_agree_off_mono (fun o a ⟨d, hd, _⟩ => by cases hd) H
  | cons c L ih =>
    simp only [unexecute_pack]
    apply ih (fun d hd => hL d (List.mem_cons_of_mem _ hd))
      _ (fun d hd => hrec d (List.mem_cons_of_mem _ hd))
    apply leaf_unexecute_reset_step c (hL c (List.mem_cons_self _ _)) _ s m
      (hrec c (List.mem_cons_self _ _))
    exact heap_agree_off_mono (fun o a hw => writes_pack_cons c L o a hw) H

theorem count_erase_first (o a : ObjId) (l : List ObjId) :
    (erase_first a l).count o = if o = a then l.count o - 1 else l.count o := by
  rw [erase_first_eq_erase]
  by_cases h : o = a
  · subst h
    simp [List.count_erase_self]
  · simp [h, List.count_erase_of_ne h]

theorem leaf_execute_count_other (c : command V M) (hc : c.type ≠ .PACKED) (o : ObjId)
    (ho : c.live_target ≠ some o) (m : Scene V M) :
    (c.execute m).objects.count o = m.objects.count o := by
  cases c <;>
    simp_all [command.execute, command.live_target, command.type, Scene.modify,
      count_erase_first, List.count_singleton]
  all_goals
    intro h
    exact absurd h.symm ho

theorem leaf_unexecute_count_other (c : command V M) (hc : c.type ≠ .PACKED) (o : ObjId)
    (ho : c.live_target ≠ some o) (m : Scene V M) :
    (c.unexecute m).objects.count o = m.objects.count o := by
  cases c <;>
    simp_all [command.unexecute, command.live_target, command.type, Scene.modify,
      count_erase_first, List.count_singleton]
  all_goals
    intro h
    exact absurd h.symm ho

theorem execute_pack_count_other (L : List (command V M)) (hL : ∀ c ∈ L, c.type ≠ .PACKED)
    (o : ObjId) (ho : o ∉ L.filterMap command.live_target) (m : Scene V M) :
    (execute_pack L m).objects.count o = m.objects.count o := by
  induction L generalizing m with
  | nil => rfl
  | cons c L ih =>
    simp only [execute_pack]
    have hc : c.live_target ≠ some o := by
      intro h
      apply ho
      simp [List.filterMap_cons, h]
    have hL' : o ∉ L.filterMap command.live_target := by
      intro h
      apply ho
      rw [List.filterMap_cons]
      split
      · exact h
      · exact List.mem_cons_of_mem _ h
    rw [ih (fun d hd => hL d (List.mem_cons_of_mem _ hd)) hL',
      leaf_execute_count_other c (hL c (List.mem_cons_self _ _)) o hc]

theorem unexecute_pack_count_other (L : List (command V M)) (hL : ∀ c ∈ L, c.type ≠ .PACKED)
    (o : ObjId) (ho : o ∉ L.filterMap command.live_target) (m : Scene V M) :
    (unexecute_pack L m).objects.count o = m.objects.count o := by
  induction L generalizing m with
  | nil => rfl
  | cons c L ih =>
    simp only [unexecute_pack]
    have hc : c.live_target ≠ some o := by
      intro h
      apply ho
      simp [List.filterMap_cons, h]
    have hL' : o ∉ L.filterMap command.live_target := by
      intro h
      apply ho
      rw [List.filterMap_cons]
      split
      · exact h
      · exact List.mem_cons_of_mem _ h
    rw [ih (fun d hd => hL d (List.mem_cons_of_mem _ hd)) hL',
      leaf_unexecute_count_other c (hL c (List.mem_cons_self _ _)) o hc]

theorem nodup_filterMap_tail (c : command V M) (L : List (command V M))
    (h : ((c :: L).filterMap command.live_target).Nodup) :
    (L.filterMap command.live_target).Nodup := by
  rw [List.filterMap_cons] at h
  split at h
  · exact h
  · exact (List.nodup_cons.mp h).2

theorem not_mem_filterMap_tail (c : command V M) (L : List (command V M)) (o : ObjId)
    (hc : c.live_target = some o) (h : ((c :: L).filterMap command.live_target).Nodup) :
    o ∉ L.filterMap command.live_target := by
  rw [List.filterMap_cons, hc] at h
  exact (List.nodup_cons.mp h).1

theorem unexecute_pack_count_restore (L : List (command V M))
    (hL : ∀ c ∈ L, c.type ≠ .PACKED) (o : ObjId)
    (hnd : (L.filterMap command.live_target).Nodup) (s m : Scene V M)
    (hadd : command.add_command o ∈ L → s.objects.count o = 0)
    (hrem : command.remove_command o ∈ L → 0 < s.objects.count o)
    (hm : m.objects.count o = (execute_pack L s).objects.count o) :
    (unexecute_pack L m).objects.count o = s.objects.count o := by
  induction L generalizing s m with
  | nil => exact hm
  | cons c L ih =>
    have hL' : ∀ d ∈ L, d.type ≠ .PACKED := fun d hd => hL d (List.mem_cons_of_mem _ hd)
    simp only [unexecute_pack]
    simp only [execute_pack] at hm
    by_cases hc : c.live_target = some o
    · have hno := not_mem_filterMap_tail c L o hc hnd
      rw [unexecute_pack_count_other L hL' o hno]
      rw [execute_pack_count_other L hL' o hno] at hm
      cases c with
      | add_command t =>
        simp only [command.live_target, Option.some.injEq] at hc
        subst hc
        have h0 := hadd (List.mem_cons_self _ _)
        simp only [command.execute, List.count_append, List.count_singleton, beq_self_eq_true,
          if_true] at hm
        simp only [command.unexecute, count_erase_first, if_true]
        omega
      | remove_command t =>
        simp only [command.live_target, Option.some.injEq] at hc
        subst hc
        have h0 := hrem (List.mem_cons_self _ _)
        simp only [command.execute, count_erase_first, if_true] at hm
        simp only [command.unexecute, List.count_append, List.count_singleton, beq_self_eq_true,
          if_true]
        omega
      | packed_command p => simp [command.live_target] at hc
      | select_command t => simp [command.live_target] at hc
      | deselect_command t => simp [command.live_target] at hc
      | translate_command t a b => simp [command.live_target] at hc
      | rotate_command t a b => simp [command.live_target] at hc
      | scale_command t a b => simp [command.live_target] at hc
    · have hcs := leaf_execute_count_other c (hL c (List.mem_cons_self _ _)) o hc s
      have hcm := leaf_unexecute_count_other c (hL c (List.mem_cons_self _ _)) o hc m
      rw [ih hL' (nodup_filterMap_tail c L hnd) (c.execute s) (c.unexecute m)
        (fun h => by rw [hcs]; exact hadd (List.mem_cons_of_mem _ h))
        (fun h => by rw [hcs]; exact hrem (List.mem_cons_of_mem _ h))
        (by rw [hcm]; exact hm)]
      exact hcs

theorem unexecute_pack_restores (L : List (command V M)) (hL : ∀ c ∈ L, c.type ≠ .PACKED)
    (s m : Scene V M) (hrec : ∀ c ∈ L, c.records_state s)
    (hnd : (L.filterMap command.live_target).Nodup)
    (hheap : m.heap = (execute_pack L s).heap)
    (hobj : m.objects.Perm (execute_pack L s).objects) :
    (unexecute_pack L m).heap = s.heap ∧ (unexecute_pack L m).objects.Perm s.objects := by
  constructor
  · apply unexecute_pack_resets L hL s m hrec
    rw [hheap]
    exact execute_pack_preserves L hL s
  · rw [List.perm_iff_count]
    intro o
    apply unexecute_pack_count_restore L hL o hnd s m
    · intro h
      have := hrec _ h
      simp only [command.records_state] at this
      exact List.count_eq_zero_of_not_mem this
    · intro h
      have := hrec _ h
      simp only [command.records_state] at this
      exact List.count_pos_iff.mpr this
    · exact hobj.count_eq o

theorem unexecute_restores (t : command V M) (s m : Scene V M) (ht : t.well_recorded s)
    (hheap : m.heap = (t.execute s).heap) (hobj : m.objects.Perm (t.execute s).objects) :
    (t.unexecute m).heap = s.heap ∧ (t.unexecute m).objects.Perm s.objects := by
  rw [unexecute_eq_leaves]
  rw [execute_eq_leaves] at hheap hobj
  exact unexecute_pack_restores t.leaves (leaves_not_packed t) s m ht.1 ht.2 hheap hobj

theorem unexecute_all_rev_append (a : List (command V M)) (t : command V M) (m : Scene V M) :
    unexecute_all_rev (a ++ [t]) m = unexecute_all_rev a (t.unexecute m) := by
  induction a with
  | nil => rfl
  | cons c a ih =>
    show c.unexecute (unexecute_all_rev (a ++ [t]) m) = c.unexecute _
    rw [ih]

theorem unexecute_all_rev_restores (ts : List (command V M)) (s m : Scene V M)
    (hw : well_recorded_seq ts s)
    (hheap : m.heap = (execute_pack ts s).heap)
    (hobj : m.objects.Perm (execute_pack ts s).objects) :
    (unexecute_all_rev ts m).heap = s.heap ∧ (unexecute_all_rev ts m).objects.Perm s.objects := by
  induction ts generalizing s with
  | nil => exact ⟨hheap, hobj⟩
  | cons t ts ih =>
    obtain ⟨h1, h2⟩ := ih (t.execute s) hw.2 hheap hobj
    exact unexecute_restores t s _ hw.1 h1 h2

theorem execute_pack_put_scene (ts : List (command V M)) (x : Session V M) (t : command V M) :
    (execute_pack ts (history.put x t).scene).heap = (execute_pack (t :: ts) x.scene).heap ∧
    (execute_pack ts (history.put x t).scene).objects
      = (execute_pack (t :: ts) x.scene).objects := by
  exact ⟨rfl, rfl⟩

theorem put_all_spec (ts : List (command V M)) (x : Session V M) (hr : x.his.in_range) :
    (∃ rest, (put_all x ts).his.commandlist
        = x.his.commandlist.take (x.his.ptr + 1).toNat ++ ts ++ rest) ∧
    (put_all x ts).his.ptr = x.his.ptr + ts.length ∧
    (put_all x ts).scene.heap = (execute_pack ts x.scene).heap ∧
    (put_all x ts).scene.objects = (execute_pack ts x.scene).objects := by
  induction ts generalizing x with
  | nil =>
    refine ⟨⟨x.his.commandlist.drop (x.his.ptr + 1).toNat, ?_⟩, by simp [put_all], rfl, rfl⟩
    simp [put_all]
  | cons t ts ih =>
    obtain ⟨⟨rest, h1⟩, h2, h3, h4⟩ := ih (history.put x t) (put_in_range x t hr)
    obtain ⟨e1, e2⟩ := execute_pack_put_scene ts x t
    obtain ⟨r1, r2⟩ := hr
    have hlen : (x.his.commandlist.take (x.his.ptr + 1).toNat).length = (x.his.ptr + 1).toNat := by
      rw [List.length_take]
      omega
    refine ⟨⟨rest, ?_⟩, ?_, ?_, ?_⟩
    · simp only [put_all]
      rw [h1, put_commandlist x t ⟨r1, r2⟩, put_ptr]
      have e : (x.his.ptr + 1 + 1).toNat = (x.his.ptr + 1).toNat + 1 := by omega
      rw [e, List.take_of_length_le (by simp [hlen])]
      simp
    · simp only [put_all]
      rw [h2, put_ptr]
      simp only [List.length_cons]
      push_cast
      omega
    · simp only [put_all]
      rw [h3, e1]
    · simp only [put_all]
      rw [h4, e2]

theorem getElem?_append_mid {α : Type} (a b c : List α) (t : α) :
    (a ++ (b ++ [t]) ++ c)[a.length + b.length]? = some t := by
  rw [List.append_assoc, List.getElem?_append_right (by omega)]
  rw [List.append_assoc, List.getElem?_append_right (by omega)]
  simp

theorem undo_times_spec (ts : List (command V M)) (base rest : List (command V M))
    (y : Session V M) (hcl : y.his.commandlist = base ++ ts ++ rest)
    (hptr : y.his.ptr = (base.length : Int) + ts.length - 1) :
    (undo_times ts.length y).his.commandlist = y.his.commandlist ∧
    (undo_times ts.length y).his.ptr = (base.length : Int) - 1 ∧
    (undo_times ts.length y).scene = unexecute_all_rev ts y.scene := by
  induction ts using List.reverseRecOn generalizing rest y with
  | nil =>
    simp only [List.length_nil] at hptr
    refine ⟨rfl, ?_, rfl⟩
    show y.his.ptr = _
    rw [hptr]
    simp
  | append_singleton ts t ih =>
    simp only [List.length_append, List.length_singleton, undo_times]
    simp only [List.length_append, List.length_singleton] at hptr
    have hidx : y.his.ptr.toNat = base.length + ts.length := by omega
    have hget : y.his.commandlist[y.his.ptr.toNat]? = some t := by
      rw [hcl, hidx]
      exact getElem?_append_mid base ts rest t
    have hlen : y.his.commandlist.length = base.length + (ts.length + 1) + rest.length := by
      rw [hcl]
      simp only [List.length_append, List.length_singleton]
    have hu : history.undo y =
        { his := { commandlist := y.his.commandlist, ptr := y.his.ptr - 1 },
          scene := t.unexecute y.scene } := by
      simp only [history.undo, lt_size]
      rw [if_pos (by omega), if_pos, hget]
      refine ⟨by omega, ?_, by omega⟩
      simp only [Bool.and_eq_true, decide_eq_true_eq]
      omega
    rw [hu]
    obtain ⟨a1, a2, a3⟩ := ih ([t] ++ rest)
      { his := { commandlist := y.his.commandlist, ptr := y.his.ptr - 1 },
        scene := t.unexecute y.scene } (by simp [hcl]) (by simp only; push_cast at hptr ⊢; omega)
    refine ⟨a1, a2, ?_⟩
    rw [a3, unexecute_all_rev_append]

/-- C1 (amended): for a history whose cursor is in range and a sequence of N
transactions, each of whose commands records the state of the scene at the
start of its transaction and targets no object with two Add or Remove commands,
N calls of `put` followed by N calls of `undo` give every object its
translation, rotation, scale and selected flag back, the live list is a
permutation of the original one, and the cursor is where it was. -/
theorem C1_undo_all_restores (x : Session V M) (ts : List (command V M))
    (hr : x.his.in_range) (hw : well_recorded_seq ts x.scene) :
    (undo_times ts.length (put_all x ts)).scene.heap = x.scene.heap ∧
    (undo_times ts.length (put_all x ts)).scene.objects.Perm x.scene.objects ∧
    (undo_times ts.length (put_all x ts)).his.ptr = x.his.ptr := by
  obtain ⟨⟨rest, h1⟩, h2, h3, h4⟩ := put_all_spec ts x hr
  obtain ⟨r1, r2⟩ := hr
  have hlen : (x.his.commandlist.take (x.his.ptr + 1).toNat).length = (x.his.ptr + 1).toNat := by
    rw [List.length_take]
    omega
  obtain ⟨a1, a2, a3⟩ := undo_times_spec ts _ rest (put_all x ts) h1
    (by rw [h2, hlen]; omega)
  rw [a3]
  obtain ⟨b1, b2⟩ := unexecute_all_rev_restores ts x.scene (put_all x ts).scene hw h3
    (by rw [h4])
  refine ⟨b1, b2, ?_⟩
  rw [a2, hlen]
  omega

/-- C1 fails as stated: with object 1 selected, committing the transaction
`[Select 1]` (a shift-click on a selected object) and undoing it leaves
object 1 unselected. -/
theorem C1_counterexample :
    ((undo_times 1 (put_all C1_session [C1_transaction])).scene.heap 1).selected
      ≠ (C1_session.scene.heap 1).selected := by
  decide

mutual
theorem unexecute_freed : ∀ (c : command V M) (s : Scene V M), (c.unexecute s).freed = s.freed
  | .packed_command pack, s => by
    simp only [command.unexecute]; exact unexecute_pack_freed pack s
  | .add_command _, _ => rfl
  | .remove_command _, _ => rfl
  | .select_command _, _ => rfl
  | .deselect_command _, _ => rfl
  | .translate_command _ _ _, _ => rfl
  | .rotate_command _ _ _, _ => rfl
  | .scale_command _ _ _, _ => rfl
theorem unexecute_pack_freed : ∀ (p : List (command V M)) (s : Scene V M),
    (unexecute_pack p s).freed = s.freed
  | [], _ => rfl
  | c :: cs, s => by
    simp only [unexecute_pack]
    rw [unexecute_pack_freed cs _, unexecute_freed c s]
end

theorem erase_append_singleton_ne (l : List ObjId) (a r : ObjId) (h : r ≠ a) :
    (l ++ [a]).erase r = l.erase r ++ [a] := by
  by_cases hr : r ∈ l
  · exact List.erase_append_left _ hr
  · rw [List.erase_append_right _ hr, List.erase_of_not_mem hr,
      List.erase_of_not_mem (by simpa using h)]

theorem diff_append_singleton (R l : List ObjId) (a : ObjId) (h : a ∉ R) :
    (l ++ [a]).diff R = l.diff R ++ [a] := by
  induction R generalizing l with
  | nil => rfl
  | cons r R ih =>
    have hne : r ≠ a := fun e => h (by simp [e])
    rw [List.diff_cons, List.diff_cons, erase_append_singleton_ne l a r hne]
    exact ih _ (fun hm => h (List.mem_cons_of_mem _ hm))

theorem append_diff_self (A m : List ObjId) (h : ∀ a ∈ A, a ∉ m) : (m ++ A).diff A = m := by
  induction A with
  | nil => simp
  | cons a A ih =>
    rw [List.diff_cons, List.erase_append_right _ (h a (List.mem_cons_self _ _)),
      List.erase_cons_head]
    exact ih (fun b hb => h b (List.mem_cons_of_mem _ hb))

theorem execute_pack_objects (L : List (command V M)) (hL : ∀ c ∈ L, c.type ≠ .PACKED)
    (hdis : ∀ a ∈ L.filterMap command.add_target, a ∉ L.filterMap command.remove_target)
    (m : Scene V M) :
    (execute_pack L m).objects
      = m.objects.diff (L.filterMap command.remove_target) ++ L.filterMap command.add_target := by
  induction L generalizing m with
  | nil => simp [execute_pack]
  | cons c L ih =>
    have hL' : ∀ d ∈ L, d.type ≠ .PACKED := fun d hd => hL d (List.mem_cons_of_mem _ hd)
    simp only [execute_pack]
    cases c with
    | packed_command p => exact absurd rfl (hL _ (List.mem_cons_self _ _))
    | add_command a =>
      simp only [List.filterMap_cons, command.add_target, command.remove_target] at hdis ⊢
      rw [ih hL' (fun b hb => hdis b (List.mem_cons_of_mem _ hb))]
      simp only [command.execute]
      rw [diff_append_singleton _ _ _ (hdis a (List.mem_cons_self _ _))]
      simp
    | remove_command r =>
      simp only [List.filterMap_cons, command.add_target, command.remove_target] at hdis ⊢
      rw [ih hL' (fun b hb hm => hdis b hb (List.mem_cons_of_mem _ hm))]
      simp only [command.execute, erase_first_eq_erase, List.diff_cons]
    | select_command t =>
      simp only [List.filterMap_cons, command.add_target, command.remove_target] at hdis ⊢
      rw [ih hL' hdis]
      rfl
    | deselect_command t =>
      simp only [List.filterMap_cons, command.add_target, command.remove_target] at hdis ⊢
      rw [ih hL' hdis]
      rfl
    | translate_command t a b =>
      simp only [List.filterMap_cons, command.add_target, command.remove_target] at hdis ⊢
      rw [ih hL' hdis]
      rfl
    | rotate_command t a b =>
      simp only [List.filterMap_cons, command.add_target, command.remove_target] at hdis ⊢
      rw [ih hL' hdis]
      rfl
    | scale_command t a b =>
      simp only [List.filterMap_cons, command.add_target, command.remove_target] at hdis ⊢
      rw [ih hL' hdis]
      rfl

theorem unexecute_pack_objects (L : List (command V M)) (hL : ∀ c ∈ L, c.type ≠ .PACKED)
    (hdis : ∀ a ∈ L.filterMap command.add_target, a ∉ L.filterMap command.remove_target)
    (m : Scene V M) :
    (unexecute_pack L m).objects
      = m.objects.diff (L.filterMap command.add_target) ++ L.filterMap command.remove_target := by
  induction L generalizing m with
  | nil => simp [unexecute_pack]
  | cons c L ih =>
    have hL' : ∀ d ∈ L, d.type ≠ .PACKED := fun d hd => hL d (List.mem_cons_of_mem _ hd)
    simp only [unexecute_pack]
    cases c with
    | packed_command p => exact absurd rfl (hL _ (List.mem_cons_self _ _))
    | add_command a =>
      simp only [List.filterMap_cons, command.add_target, command.remove_target] at hdis ⊢
      rw [ih hL' (fun b hb => hdis b (List.mem_cons_of_mem _ hb))]
      simp only [command.unexecute, erase_first_eq_erase, List.diff_cons]
    | remove_command r =>
      simp only [List.filterMap_cons, command.add_target, command.remove_target] at hdis ⊢
      rw [ih hL' (fun b hb hm => hdis b hb (List.mem_cons_of_mem _ hm))]
      simp only [command.unexecute]
      rw [diff_append_singleton _ _ _ (fun hm => hdis r hm (List.mem_cons_self _ _))]
      simp
    | select_command t =>
      simp only [List.filterMap_cons, command.add_target, command.remove_target] at hdis ⊢
      rw [ih hL' hdis]
      rfl
    | deselect_command t =>
      simp only [List.filterMap_cons, command.add_target, command.remove_target] at hdis ⊢
      rw [ih hL' hdis]
      rfl
    | translate_command t a b =>
      simp only [List.filterMap_cons, command.add_target, command.remove_target] at hdis ⊢
      rw [ih hL' hdis]
      rfl
    | rotate_command t a b =>
      simp only [List.filterMap_cons, command.add_target, command.remove_target] at hdis ⊢
      rw [ih hL' hdis]
      rfl
    | scale_command t a b =>
      simp only [List.filterMap_cons, command.add_target, command.remove_target] at hdis ⊢
      rw [ih hL' hdis]
      rfl

theorem undo_step (y : Session V M) (c : command V M) (h0 : 0 ≤ y.his.ptr)
    (hget : y.his.commandlist[y.his.ptr.toNat]? = some c) :
    history.undo y =
      { his := { commandlist := y.his.commandlist, ptr := y.his.ptr - 1 },
        scene := c.unexecute y.scene } := by
  obtain ⟨hlt, _⟩ := List.getElem?_eq_some_iff.mp hget
  simp only [history.undo, lt_size]
  rw [if_pos (by omega), if_pos, hget]
  refine ⟨by omega, ?_, by omega⟩
  simp only [Bool.and_eq_true, decide_eq_true_eq]
  omega

theorem redo_step (y : Session V M) (c : command V M) (h0 : -1 ≤ y.his.ptr)
    (hget : y.his.commandlist[(y.his.ptr + 1).toNat]? = some c) :
    history.redo y =
      { his := { commandlist := y.his.commandlist, ptr := y.his.ptr + 1 },
        scene := c.execute y.scene } := by
  obtain ⟨hlt, _⟩ := List.getElem?_eq_some_iff.mp hget
  simp only [history.redo, lt_size]
  rw [if_pos (by omega), if_pos, hget]
  refine ⟨by omega, ?_, by omega⟩
  simp only [Bool.and_eq_true, decide_eq_true_eq]
  omega

theorem execute_unexecute_execute (t : command V M) (s : Scene V M)
    (hadd : ∀ a ∈ t.leaves.filterMap command.add_target, a ∉ s.objects)
    (hdis : ∀ a ∈ t.leaves.filterMap command.add_target,
      a ∉ t.leaves.filterMap command.remove_target)
    (hrem : ∀ r ∈ t.leaves.filterMap command.remove_target, r ∉ (t.execute s).objects) :
    t.execute (t.unexecute (t.execute s)) = t.execute s := by
  have hL := leaves_not_packed t
  have ho1 : (t.execute s).objects
      = s.objects.diff (t.leaves.filterMap command.remove_target)
        ++ t.leaves.filterMap command.add_target := by
    rw [execute_eq_leaves]
    exact execute_pack_objects _ hL hdis s
  have ho2 : (t.unexecute (t.execute s)).objects
      = s.objects.diff (t.leaves.filterMap command.remove_target)
        ++ t.leaves.filterMap command.remove_target := by
    rw [unexecute_eq_leaves, unexecute_pack_objects _ hL hdis, ho1, append_diff_self]
    intro a ha hm
    exact hadd a ha (List.diff_subset _ _ hm)
  have ho3 : (t.execute (t.unexecute (t.execute s))).objects = (t.execute s).objects := by
    rw [execute_eq_leaves t (t.unexecute (t.execute s)), execute_pack_objects _ hL hdis, ho2,
      append_diff_self, ho1]
    intro r hr hm
    apply hrem r hr
    rw [ho1]
    exact List.mem_append_left _ hm
  have hh : (t.execute (t.unexecute (t.execute s))).heap = (t.execute s).heap := by
    rw [execute_eq_leaves t (t.unexecute (t.execute s)), execute_eq_leaves t s]
    apply execute_pack_heap_congr _ hL
    rw [unexecute_eq_leaves]
    exact heap_agree_off_trans (unexecute_pack_preserves _ hL _) (execute_pack_preserves _ hL _)
  have hf : (t.execute (t.unexecute (t.execute s))).freed = (t.execute s).freed := by
    rw [execute_freed, unexecute_freed]
  cases h1 : t.execute (t.unexecute (t.execute s))
  cases h2 : t.execute s
  rw [h1, h2] at ho3 hh hf
  simp only at ho3 hh hf
  rw [ho3, hh, hf]

/-- C2 (amended): for a history whose cursor is in range and a transaction `t`
none of whose Add commands targets an object that is live before the `put` or
removed by `t`, and none of whose Remove targets is still live after the `put`,
the state after `put(t); undo(); redo()` (live list, object attributes,
released pointers, history entries and cursor) is the state after `put(t)`. -/
theorem C2_undo_redo_round_trip (x : Session V M) (t : command V M) (hr : x.his.in_range)
    (hadd : ∀ a ∈ t.leaves.filterMap command.add_target, a ∉ x.scene.objects)
    (hdis : ∀ a ∈ t.leaves.filterMap command.add_target,
      a ∉ t.leaves.filterMap command.remove_target)
    (hrem : ∀ r ∈ t.leaves.filterMap command.remove_target,
      r ∉ (history.put x t).scene.objects) :
    history.redo (history.undo (history.put x t)) = history.put x t := by
  have hget := put_getElem_ptr x t hr
  have hptr : (history.put x t).his.ptr = x.his.ptr + 1 := rfl
  obtain ⟨r1, r2⟩ := hr
  rw [undo_step (history.put x t) t (by rw [hptr]; omega) (by rw [hptr]; exact hget)]
  rw [redo_step _ t (by simp only [hptr]; omega)
    (by simp only [hptr]; rw [show x.his.ptr + 1 - 1 + 1 = x.his.ptr + 1 by omega]; exact hget)]
  have key := execute_unexecute_execute t x.scene hadd hdis hrem
  show ({ his := { commandlist := (history.put x t).his.commandlist,
                   ptr := x.his.ptr + 1 - 1 + 1 },
          scene := t.execute (t.unexecute (t.execute _)) } : Session V M)
      = { his := { commandlist := (history.put x t).his.commandlist, ptr := x.his.ptr + 1 },
          scene := t.execute _ }
  rw [key, show x.his.ptr + 1 - 1 + 1 = x.his.ptr + 1 by omega]

/-! ### The claims at concrete sessions -/

theorem sample_session_in_range : sample_session.his.in_range := by
  unfold history.in_range
  decide

/-- The amended C1 at a concrete session and two transactions. -/
theorem C1_undo_all_restores_witness :
    C1_good_session.his.in_range ∧
    well_recorded_seq [C1_transaction, sample_transaction] C1_good_session.scene ∧
    (undo_times 2 (put_all C1_good_session [C1_transaction, sample_transaction])).scene.heap
      = C1_good_session.scene.heap ∧
    (undo_times 2 (put_all C1_good_session [C1_transaction, sample_transaction])).scene.objects.Perm
      C1_good_session.scene.objects := by
  have hr : C1_good_session.his.in_range := by
    unfold history.in_range
    decide
  have hw : well_recorded_seq [C1_transaction, sample_transaction] C1_good_session.scene := by
    refine ⟨⟨?_, ?_⟩, ⟨?_, ?_⟩, trivial⟩
    · intro c hc
      simp only [C1_transaction, command.leaves, leaves_pack, List.append_nil,
        List.mem_singleton] at hc
      subst hc
      rfl
    · decide
    · intro c hc
      simp only [sample_transaction, command.leaves, leaves_pack, List.append_nil,
        List.singleton_append, List.mem_cons, List.mem_singleton, List.not_mem_nil,
        or_false] at hc
      rcases hc with hc | hc
      · subst hc
        show (2 : ObjId) ∉ [1]
        decide
      · subst hc
        rfl
    · decide
  have h := C1_undo_all_restores C1_good_session [C1_transaction, sample_transaction] hr hw
  exact ⟨hr, hw, h.1, h.2.1⟩

/-- C2 fails as stated: with live list `[1, 2]`, `put` of `[Add 1]` gives the
live list `[1, 2, 1]`, and `undo(); redo()` turns it into `[2, 1, 1]`. -/
theorem C2_counterexample :
    (history.redo (history.undo (history.put C2_session C2_transaction))).scene.objects
      ≠ (history.put C2_session C2_transaction).scene.objects := by
  decide

/-- The amended C2 at a concrete session and transaction. -/
theorem C2_undo_redo_round_trip_witness :
    sample_session.his.in_range ∧
    history.redo (history.undo (history.put sample_session sample_transaction))
      = history.put sample_session sample_transaction :=
  ⟨sample_session_in_range,
    C2_undo_redo_round_trip sample_session sample_transaction sample_session_in_range
      (by decide) (by decide) (by decide)⟩

/-- C3 at a concrete session: the history ends `..., A, C`. -/
theorem C3_redo_truncation_witness :
    sample_session.his.in_range ∧
    (history.put (history.undo (history.put (history.put sample_session
        (command.select_command 1)) sample_transaction)) (command.deselect_command 1)).his.commandlist
      = [.packed_command [.add_command 1], .select_command 1, .deselect_command 1] :=
  ⟨sample_session_in_range,
    (C3_redo_truncation sample_session (command.select_command 1) sample_transaction
      (command.deselect_command 1) sample_session_in_range).2.1⟩

/-- C5 at a concrete session: the undone entry is replaced by the new one. -/
theorem C5_put_witness :
    sample_session.his.in_range ∧
    (history.put sample_session sample_transaction).his.commandlist
      = [.packed_command [.add_command 1], sample_transaction] :=
  ⟨sample_session_in_range, (C5_put sample_session sample_transaction sample_session_in_range).1⟩

/-- C6 at a concrete session. -/
theorem C6_undo_witness :
    sample_session.his.in_range ∧
    (history.undo sample_session = sample_session ↔ sample_session.his.ptr = -1) :=
  ⟨sample_session_in_range, (C6_undo sample_session sample_session_in_range).1⟩

/-- C7 at a concrete session with one entry to redo. -/
theorem C7_redo_witness :
    sample_session.his.in_range ∧
    ∃ c, sample_session.his.commandlist[(sample_session.his.ptr + 1).toNat]? = some c ∧
      history.redo sample_session =
        { his := { commandlist := sample_session.his.commandlist,
                   ptr := sample_session.his.ptr + 1 },
          scene := c.execute sample_session.scene } :=
  ⟨sample_session_in_range,
    (C7_redo sample_session sample_session_in_range).2.2 (by decide)⟩

/-- C10 at a concrete session whose only command for object 1 is a Select. -/
theorem C10_set_end_no_match_witness :
    C10_session.his.only_stateless 1 ∧
    history.set_end C10_session 1 .TRANSLATE = C10_session := by
  have h : C10_session.his.only_stateless 1 := by
    intro c hc _
    simp only [C10_session, members_pack, command.members, List.append_nil, List.mem_cons,
      List.mem_singleton, List.not_mem_nil, or_false] at hc
    rcases hc with hc | hc
    · subst hc
      simp [command.o] at *
    · subst hc
      right; right; left
      rfl
  exact ⟨h, C10_set_end_no_match C10_session 1 .TRANSLATE (Or.inr h)⟩

/-! ### The Translate gesture over the frame loop (C4) -/

theorem with_heap_with_heap (e : editor V M P) (h1 h2 : ObjId → selection_object V M) :
    (e.with_heap h1).with_heap h2 = e.with_heap h2 := rfl

theorem with_heap_self (e : editor V M P) : e.with_heap e.ses.scene.heap = e := rfl

theorem set_obj_eq_with_heap (e : editor V M P) (c : ObjId) (v : selection_object V M) :
    e.set_obj c v = e.with_heap (Function.update e.ses.scene.heap c v) := rfl

theorem handle_events_mouse_moves (d0 : selection_object V M) (evs : List (event P))
    (e : editor V M P) (h : ∀ ev ∈ evs, ∃ p, ev = event.MouseMoved p) :
    ∃ p, handle_events d0 evs e = e.with_mouse_pos p := by
  induction evs generalizing e with
  | nil => exact ⟨e.mouse_pos, rfl⟩
  | cons ev evs ih =>
    obtain ⟨p, hp⟩ := h ev (List.mem_cons_self _ _)
    subst hp
    obtain ⟨q, hq⟩ := ih (e.with_mouse_pos p) (fun ev hev => h ev (List.mem_cons_of_mem _ hev))
    exact ⟨q, hq⟩

theorem object_step_eq (inp : frame_input V M P) (e : editor V M P) (c : ObjId) :
    object_step inp e c =
      if ((pick_step inp e c).obj c).selected then
        action_step inp (end_step (begin_step (pick_step inp e c) c)) c
      else pick_step inp e c := rfl

theorem pick_step_not_clicked (inp : frame_input V M P) (e : editor V M P) (c : ObjId)
    (h : e.clicked = false) : pick_step inp e c = e := by
  simp [pick_step, h]

theorem begin_step_none (e : editor V M P) (c : ObjId) (h2 : e.translate_begin = false)
    (h3 : e.rotate_begin = false) (h4 : e.scale_begin = false) : begin_step e c = e := by
  simp [begin_step, h2, h3, h4]

theorem end_step_none (e : editor V M P) (h5 : e.translate_end = false)
    (h6 : e.rotate_end = false) (h7 : e.scale_end = false) : end_step e = e := by
  cases e
  simp only at h5 h6 h7
  subst h5 h6 h7
  rfl

theorem action_step_heap (inp : frame_input V M P) (e : editor V M P) (c : ObjId) :
    ∃ h', action_step inp e c = e.with_heap h' ∧
      (∀ o, (h' o).selected = (e.obj o).selected) ∧
      (e.translate_action = false → ∀ o, (h' o).translate_vec = (e.obj o).translate_vec) := by
  unfold action_step
  simp only
  split
  · rename_i h
    refine ⟨_, set_obj_eq_with_heap _ _ _, ?_, ?_⟩
    · intro o
      by_cases ho : o = c
      · subst ho; simp [editor.obj]
      · simp [editor.obj, Function.update_noteq ho]
    · intro hf
      simp [hf] at h
  · split
    · refine ⟨_, set_obj_eq_with_heap _ _ _, ?_, ?_⟩
      · intro o
        by_cases ho : o = c
        · subst ho; simp [editor.obj]
        · simp [editor.obj, Function.update_noteq ho]
      · intro _ o
        by_cases ho : o = c
        · subst ho; simp [editor.obj]
        · simp [editor.obj, Function.update_noteq ho]
    · split
      · refine ⟨_, set_obj_eq_with_heap _ _ _, ?_, ?_⟩
        · intro o
          by_cases ho : o = c
          · subst ho; simp [editor.obj]
          · simp [editor.obj, Function.update_noteq ho]
        · intro _ o
          by_cases ho : o = c
          · subst ho; simp [editor.obj]
          · simp [editor.obj, Function.update_noteq ho]
      · exact ⟨_, (with_heap_self e).symm, fun _ => rfl, fun _ _ => rfl⟩

/-- In a frame without begin, end or click flags the loop over the objects only
writes object attributes, and no selected flag. -/
theorem objects_loop_quiet (inp : frame_input V M P) (cs : List ObjId) (e : editor V M P)
    (h1 : e.clicked = false) (h2 : e.translate_begin = false) (h3 : e.rotate_begin = false)
    (h4 : e.scale_begin = false) (h5 : e.translate_end = false) (h6 : e.rotate_end = false)
    (h7 : e.scale_end = false) :
    ∃ h', objects_loop inp cs e = e.with_heap h' ∧
      ∀ o, (h' o).selected = (e.obj o).selected := by
  induction cs generalizing e with
  | nil => exact ⟨e.ses.scene.heap, rfl, fun _ => rfl⟩
  | cons c cs ih =>
    have hstep : ∃ h', object_step inp e c = e.with_heap h' ∧
        ∀ o, (h' o).selected = (e.obj o).selected := by
      rw [object_step_eq, pick_step_not_clicked inp e c h1, begin_step_none e c h2 h3 h4,
        end_step_none e h5 h6 h7]
      split
      · obtain ⟨h', a, b, _⟩ := action_step_heap inp e c
        exact ⟨h', a, b⟩
      · exact ⟨_, (with_heap_self e).symm, fun _ => rfl⟩
    obtain ⟨h', a, b⟩ := hstep
    simp only [objects_loop]
    rw [a]
    obtain ⟨h'', a', b'⟩ := ih (e.with_heap h') h1 h2 h3 h4 h5 h6 h7
    refine ⟨h'', ?_, ?_⟩
    · rw [a', with_heap_with_heap]
    · intro o
      rw [b' o]
      exact b o

theorem translate_marks_congr (h h' : ObjId → selection_object V M) (cs : List ObjId)
    (hs : ∀ o, (h' o).selected = (h o).selected)
    (ht : ∀ o, (h' o).translate_vec = (h o).translate_vec) :
    translate_marks h' cs = translate_marks (V := V) (M := M) h cs := by
  unfold translate_marks
  have e : (fun c => (h' c).selected) = (fun c => (h c).selected) := funext hs
  rw [e]
  apply List.map_congr_left
  intro c _
  rw [ht c]

theorem translate_marks_cons (h : ObjId → selection_object V M) (c : ObjId) (cs : List ObjId) :
    translate_marks h (c :: cs) =
      if (h c).selected then
        command.translate_command c (h c).translate_vec (h c).translate_vec
          :: translate_marks h cs
      else translate_marks h cs := by
  unfold translate_marks
  by_cases hc : (h c).selected = true
  · simp [List.filter_cons, hc]
  · simp [List.filter_cons, hc]

theorem begin_step_translate (e : editor V M P) (c : ObjId) (h2 : e.translate_begin = true)
    (ha : e.translate_action = false) (h3 : e.rotate_begin = false)
    (h4 : e.scale_begin = false) :
    begin_step e c
      = e.with_pc (e.pc ++ [.translate_command c (e.obj c).translate_vec
          (e.obj c).translate_vec]) := by
  simp [begin_step, h2, ha, h3, h4, editor.pc_put, editor.with_pc]

/-- The loop over the objects in the frame in which a Translate gesture begins
queues one zero-delta Translate command per selected object and leaves every
selected flag and every translation as it was. -/
theorem objects_loop_press (inp : frame_input V M P) (cs : List ObjId) (e : editor V M P)
    (h1 : e.clicked = false) (h2 : e.translate_begin = true) (ha : e.translate_action = false)
    (h3 : e.rotate_begin = false) (h4 : e.scale_begin = false)
    (h5 : e.translate_end = false) (h6 : e.rotate_end = false) (h7 : e.scale_end = false) :
    ∃ h', objects_loop inp cs e
        = (e.with_heap h').with_pc (e.pc ++ translate_marks e.ses.scene.heap cs) ∧
      (∀ o, (h' o).selected = (e.obj o).selected) ∧
      (∀ o, (h' o).translate_vec = (e.obj o).translate_vec) := by
  induction cs generalizing e with
  | nil =>
    refine ⟨e.ses.scene.heap, ?_, fun _ => rfl, fun _ => rfl⟩
    simp [objects_loop, translate_marks, editor.with_heap, editor.with_pc]
  | cons c cs ih =>
    simp only [objects_loop]
    rw [object_step_eq, pick_step_not_clicked inp e c h1, translate_marks_cons]
    by_cases hc : (e.obj c).selected = true
    · have hc' : (e.ses.scene.heap c).selected = true := hc
      have hE := end_step_none (e.with_pc (e.pc ++ [command.translate_command c
        (e.obj c).translate_vec (e.obj c).translate_vec])) h5 h6 h7
      rw [if_pos hc, if_pos hc', begin_step_translate e c h2 ha h3 h4, hE]
      obtain ⟨h', a, b, d⟩ := action_step_heap inp
        (e.with_pc (e.pc ++ [.translate_command c (e.obj c).translate_vec
          (e.obj c).translate_vec])) c
      rw [a]
      obtain ⟨h'', a', b', d'⟩ := ih
        ((e.with_pc (e.pc ++ [.translate_command c (e.obj c).translate_vec
          (e.obj c).translate_vec])).with_heap h') h1 h2 ha h3 h4 h5 h6 h7
      refine ⟨h'', ?_, ?_, ?_⟩
      · rw [a']
        have hm : translate_marks ((e.with_pc (e.pc ++ [.translate_command c
            (e.obj c).translate_vec (e.obj c).translate_vec])).with_heap h').ses.scene.heap cs
            = translate_marks e.ses.scene.heap cs :=
          translate_marks_congr _ _ cs b (d ha)
        rw [hm]
        simp [editor.with_heap, editor.with_pc, editor.obj]
      · intro o
        rw [b' o]
        exact b o
      · intro o
        rw [d' o]
        exact d ha o
    · have hc' : ¬ (e.ses.scene.heap c).selected = true := hc
      rw [if_neg hc, if_neg hc']
      exact ih e h1 h2 ha h3 h4 h5 h6 h7

theorem end_step_translate (e : editor V M P) (h5 : e.translate_end = true)
    (h6 : e.rotate_end = false) (h7 : e.scale_end = false) :
    end_step e = e.with_translate_action false := by
  cases e
  simp only at h5 h6 h7
  subst h5 h6 h7
  rfl

/-- The loop over the objects in the frame in which the Translate key is
released changes no selected flag and no translation. -/
theorem objects_loop_release (inp : frame_input V M P) (cs : List ObjId) (e : editor V M P)
    (h1 : e.clicked = false) (h2 : e.translate_begin = false) (h3 : e.rotate_begin = false)
    (h4 : e.scale_begin = false) (h5 : e.translate_end = true) (h6 : e.rotate_end = false)
    (h7 : e.scale_end = false) :
    ∃ h' ta, objects_loop inp cs e = (e.with_heap h').with_translate_action ta ∧
      (∀ o, (h' o).selected = (e.obj o).selected) ∧
      (∀ o, (h' o).translate_vec = (e.obj o).translate_vec) := by
  induction cs generalizing e with
  | nil => exact ⟨e.ses.scene.heap, e.translate_action, rfl, fun _ => rfl, fun _ => rfl⟩
  | cons c cs ih =>
    simp only [objects_loop]
    rw [object_step_eq, pick_step_not_clicked inp e c h1, begin_step_none e c h2 h3 h4]
    by_cases hc : (e.obj c).selected = true
    · rw [if_pos hc, end_step_translate e h5 h6 h7]
      obtain ⟨h', a, b, d⟩ := action_step_heap inp (e.with_translate_action false) c
      rw [a]
      obtain ⟨h'', ta, a', b', d'⟩ := ih ((e.with_translate_action false).with_heap h')
        h1 h2 h3 h4 h5 h6 h7
      refine ⟨h'', ta, ?_, ?_, ?_⟩
      · rw [a']
        rfl
      · intro o
        rw [b' o]
        exact b o
      · intro o
        rw [d' o]
        exact d rfl o
    · rw [if_neg hc]
      exact ih e h1 h2 h3 h4 h5 h6 h7

theorem frame_eq (d0 : selection_object V M) (inp : frame_input V M P) (e : editor V M P) :
    frame d0 inp e =
      reset_step (stamp_step (activate_step (commit_step (warp_step
        (objects_loop inp (click_step inp (handle_events d0 inp.events e)).ses.scene.objects
          (click_step inp (handle_events d0 inp.events e))))))) := rfl

theorem click_step_not_clicked (inp : frame_input V M P) (e : editor V M P)
    (h : e.clicked = false) : click_step inp e = e := by
  simp [click_step, h]

/-- A frame of cursor movement between two frames leaves the history, the live
list, every selected flag and the Translate state as they were. -/
theorem frame_mouse_moves (d0 : selection_object V M) (inp : frame_input V M P)
    (e : editor V M P) (hm : only_mouse_moves inp) (hb : e.between_frames) :
    (frame d0 inp e).between_frames ∧
    (frame d0 inp e).ses.his = e.ses.his ∧
    (frame d0 inp e).ses.scene.objects = e.ses.scene.objects ∧
    (∀ o, ((frame d0 inp e).obj o).selected = (e.obj o).selected) ∧
    (frame d0 inp e).translate_action = e.translate_action := by
  obtain ⟨hpc, b1, b2, b3, e1, e2, e3, hc⟩ := hb
  obtain ⟨p, hp⟩ := handle_events_mouse_moves d0 inp.events e hm
  obtain ⟨h', a, b⟩ := objects_loop_quiet inp e.ses.scene.objects (e.with_mouse_pos p)
    hc b1 b2 b3 e1 e2 e3
  rw [frame_eq, hp, click_step_not_clicked inp (e.with_mouse_pos p) hc]
  have a' : objects_loop inp (e.with_mouse_pos p).ses.scene.objects (e.with_mouse_pos p)
      = (e.with_mouse_pos p).with_heap h' := a
  rw [a']
  have hcommit : commit_step (warp_step ((e.with_mouse_pos p).with_heap h'))
      = warp_step ((e.with_mouse_pos p).with_heap h') := by
    simp [commit_step, warp_step, editor.with_heap, editor.with_mouse_pos, hpc]
  rw [hcommit]
  refine ⟨?_, ?_, ?_, ?_, ?_⟩
  · simp [editor.between_frames, reset_step, stamp_step, activate_step, warp_step,
      editor.with_heap, editor.with_mouse_pos, hpc, e1, e2, e3]
  · simp [reset_step, stamp_step, activate_step, warp_step,
      editor.with_heap, editor.with_mouse_pos, e1, e2, e3]
  · simp [reset_step, stamp_step, activate_step, warp_step,
      editor.with_heap, editor.with_mouse_pos, e1, e2, e3]
  · intro o
    have hb' : (h' o).selected = (e.obj o).selected := b o
    rw [← hb']
    simp [reset_step, stamp_step, activate_step, warp_step,
      editor.with_heap, editor.with_mouse_pos, e1, e2, e3, editor.obj]
  · simp [reset_step, stamp_step, activate_step, warp_step,
      editor.with_heap, editor.with_mouse_pos, b1]

theorem modify_eq_self (s : Scene V M) (c : ObjId)
    (f : selection_object V M → selection_object V M) (h : f (s.heap c) = s.heap c) :
    s.modify c f = s := by
  unfold Scene.modify
  rw [h, Function.update_eq_self]

theorem execute_pack_translate_marks (h : ObjId → selection_object V M) (cs : List ObjId)
    (s : Scene V M) (ht : ∀ o, (s.heap o).translate_vec = (h o).translate_vec) :
    execute_pack (translate_marks h cs) s = s := by
  induction cs with
  | nil => rfl
  | cons c cs ih =>
    rw [translate_marks_cons]
    split
    · simp only [execute_pack, command.execute]
      rw [modify_eq_self]
      · exact ih
      · rw [← ht c]
    · exact ih

theorem translate_marks_eq_nil_iff (e : editor V M P) :
    translate_marks e.ses.scene.heap e.ses.scene.objects = [] ↔ e.selected_objects = [] := by
  simp [translate_marks, editor.selected_objects, editor.obj]

/-- The frame in which the Translate key is pressed while the gesture is Idle:
the gesture becomes Active, and when some object is selected one transaction
with the zero-delta Translate commands is committed. -/
theorem frame_press (d0 : selection_object V M) (inp : frame_input V M P)
    (e : editor V M P) (ctrl shift : Bool)
    (hp : inp.events = [event.KeyPressed key_code.T ctrl shift])
    (hb : e.between_frames) (hidle : e.translate_action = false)
    (hr : e.ses.his.in_range) :
    (frame d0 inp e).between_frames ∧
    (frame d0 inp e).translate_action = true ∧
    (frame d0 inp e).ses.scene.objects = e.ses.scene.objects ∧
    (∀ o, ((frame d0 inp e).obj o).selected = (e.obj o).selected) ∧
    (∀ o, ((frame d0 inp e).obj o).translate_vec = (e.obj o).translate_vec) ∧
    (frame d0 inp e).ses.his =
      if e.selected_objects = [] then e.ses.his
      else { commandlist := e.ses.his.commandlist.take (e.ses.his.ptr + 1).toNat
               ++ [command.packed_command (translate_marks e.ses.scene.heap e.ses.scene.objects)],
             ptr := e.ses.his.ptr + 1 } := by
  obtain ⟨hpc, b1, b2, b3, e1, e2, e3, hc⟩ := hb
  have hev : handle_events d0 inp.events e = e.with_translate_begin true := by
    rw [hp]
    simp [handle_events, event_handler, key_pressed, hidle, editor.with_translate_begin]
  obtain ⟨h', a, b, d⟩ := objects_loop_press inp e.ses.scene.objects
    (e.with_translate_begin true) hc rfl hidle b2 b3 e1 e2 e3
  rw [frame_eq, hev, click_step_not_clicked inp (e.with_translate_begin true) hc]
  have a' : objects_loop inp (e.with_translate_begin true).ses.scene.objects
      (e.with_translate_begin true)
      = ((e.with_translate_begin true).with_heap h').with_pc
          (translate_marks e.ses.scene.heap e.ses.scene.objects) := by
    rw [show (e.with_translate_begin true).ses.scene.objects = e.ses.scene.objects from rfl, a]
    simp [editor.with_translate_begin, hpc]
  rw [a']
  have hb' : ∀ o, (h' o).selected = (e.obj o).selected := b
  have hd' : ∀ o, (h' o).translate_vec = (e.obj o).translate_vec := d
  by_cases hs : e.selected_objects = []
  · have hm := (translate_marks_eq_nil_iff e).mpr hs
    rw [hm, if_pos hs]
    refine ⟨?_, ?_, ?_, ?_, ?_, ?_⟩
    · simp [editor.between_frames, reset_step, stamp_step, activate_step, commit_step,
        warp_step, editor.with_heap, editor.with_pc, editor.with_translate_begin, e1, e2, e3]
    · simp [reset_step, stamp_step, activate_step, commit_step,
        warp_step, editor.with_heap, editor.with_pc, editor.with_translate_begin]
    · simp [reset_step, stamp_step, activate_step, commit_step,
        warp_step, editor.with_heap, editor.with_pc, editor.with_translate_begin, e1, e2, e3]
    · intro o
      rw [← hb' o]
      simp [reset_step, stamp_step, activate_step, commit_step, editor.obj,
        warp_step, editor.with_heap, editor.with_pc, editor.with_translate_begin, e1, e2, e3]
    · intro o
      rw [← hd' o]
      simp [reset_step, stamp_step, activate_step, commit_step, editor.obj,
        warp_step, editor.with_heap, editor.with_pc, editor.with_translate_begin, e1, e2, e3]
    · simp [reset_step, stamp_step, activate_step, commit_step,
        warp_step, editor.with_heap, editor.with_pc, editor.with_translate_begin, e1, e2, e3]
  · have hm : translate_marks e.ses.scene.heap e.ses.scene.objects ≠ [] :=
      fun h => hs ((translate_marks_eq_nil_iff e).mp h)
    have hemp : (translate_marks e.ses.scene.heap e.ses.scene.objects).isEmpty = false := by
      cases hl : translate_marks e.ses.scene.heap e.ses.scene.objects with
      | nil => exact absurd hl hm
      | cons _ _ => rfl
    rw [if_neg hs]
    have hexec : ∀ f, execute_pack (translate_marks e.ses.scene.heap e.ses.scene.objects)
        { objects := e.ses.scene.objects, heap := h', freed := f }
        = { objects := e.ses.scene.objects, heap := h', freed := f } := by
      intro f
      apply execute_pack_translate_marks
      intro o
      exact hd' o
    refine ⟨?_, ?_, ?_, ?_, ?_, ?_⟩
    · simp [editor.between_frames, reset_step, stamp_step, activate_step, commit_step,
        warp_step, editor.with_heap, editor.with_pc, editor.with_translate_begin, e1, e2, e3,
        hemp]
    · simp [reset_step, stamp_step, activate_step, commit_step,
        warp_step, editor.with_heap, editor.with_pc, editor.with_translate_begin, hemp]
    · simp [reset_step, stamp_step, activate_step, commit_step, history.put, command.execute,
        warp_step, editor.with_heap, editor.with_pc, editor.with_translate_begin, e1, e2, e3,
        hemp, hexec]
    · intro o
      rw [← hb' o]
      simp [reset_step, stamp_step, activate_step, commit_step, history.put, command.execute,
        warp_step, editor.with_heap, editor.with_pc, editor.with_translate_begin, e1, e2, e3,
        hemp, hexec, editor.obj]
    · intro o
      rw [← hd' o]
      simp [reset_step, stamp_step, activate_step, commit_step, history.put, command.execute,
        warp_step, editor.with_heap, editor.with_pc, editor.with_translate_begin, e1, e2, e3,
        hemp, hexec, editor.obj]
    · simp [reset_step, stamp_step, activate_step, commit_step, history.put,
        warp_step, editor.with_heap, editor.with_pc, editor.with_translate_begin, e1, e2, e3,
        hemp]
      exact resize_and_store_eq _ _ _ (by obtain ⟨r1, r2⟩ := hr; omega)

theorem set_end_pack_translate_map (L : List ObjId) (a b : ObjId → V) (c : ObjId)
    (s : Scene V M) :
    set_end_pack (L.map (fun c' => command.translate_command c' (a c') (b c'))) c
        command_type.TRANSLATE s
      = L.map (fun c' => command.translate_command c' (a c')
          (if c' = c then (s.heap c).translate_vec else b c')) := by
  induction L with
  | nil => rfl
  | cons x L ih =>
    simp only [List.map_cons, set_end_pack, ih]
    by_cases hx : x = c
    · subst hx
      simp [command.type, command.o, command.set_end]
    · simp [command.type, command.o, hx]

theorem set_end_last_packed (x : Session V M) (base pack : List (command V M))
    (hcl : x.his.commandlist = base ++ [command.packed_command pack]) (c : ObjId)
    (ct : command_type) :
    history.set_end x c ct
      = x.with_commandlist (base ++ [command.packed_command (set_end_pack pack c ct x.scene)]) := by
  have hlen : x.his.commandlist.length = base.length + 1 := by
    rw [hcl]
    simp
  have hget : x.his.commandlist[base.length]? = some (command.packed_command pack) := by
    rw [hcl]
    simp
  simp only [history.set_end]
  rw [if_pos (by omega), hlen]
  simp only [history.set_end_loop, hget, command.type, true_or, if_true]
  rw [hcl]
  simp [Session.with_commandlist, command.set_end]

theorem set_end_loop_selected_scene (ct : command_type) (cs : List ObjId) (x : Session V M) :
    (set_end_loop_selected ct cs x).scene = x.scene := by
  induction cs generalizing x with
  | nil => rfl
  | cons c cs ih =>
    simp only [set_end_loop_selected]
    split
    · rw [ih, set_end_scene]
    · exact ih x

theorem set_end_loop_selected_none (ct : command_type) (cs : List ObjId) (x : Session V M)
    (h : ∀ c ∈ cs, (x.scene.heap c).selected = false) :
    set_end_loop_selected ct cs x = x := by
  induction cs with
  | nil => rfl
  | cons c cs ih =>
    simp only [set_end_loop_selected]
    rw [if_neg (by simp [h c (List.mem_cons_self _ _)])]
    exact ih (fun d hd => h d (List.mem_cons_of_mem _ hd))

/-- Stamping every selected object of `cs` into a history whose last entry is a
transaction of Translate commands sets the end-state of the commands of those
objects to the objects' current translation. -/
theorem set_end_loop_selected_marks (cs L : List ObjId) (base : List (command V M))
    (a b : ObjId → V) (x : Session V M)
    (hcl : x.his.commandlist = base ++ [command.packed_command
      (L.map (fun c => command.translate_command c (a c) (b c)))]) :
    set_end_loop_selected command_type.TRANSLATE cs x
      = x.with_commandlist (base ++ [command.packed_command
          (L.map (fun c => command.translate_command c (a c)
            (if c ∈ cs ∧ (x.scene.heap c).selected = true then (x.scene.heap c).translate_vec
             else b c)))]) := by
  induction cs generalizing b x with
  | nil =>
    simp only [set_end_loop_selected, List.not_mem_nil, false_and, if_false]
    rw [← hcl]
    rfl
  | cons c0 cs ih =>
    simp only [set_end_loop_selected]
    by_cases hsel : (x.scene.heap c0).selected = true
    · rw [if_pos hsel, set_end_last_packed x base _ hcl c0, set_end_pack_translate_map]
      rw [ih (fun c' => if c' = c0 then (x.scene.heap c0).translate_vec else b c')
        (x.with_commandlist _) rfl]
      have hmap : L.map (fun c => command.translate_command (M := M) c (a c)
            (if c ∈ cs ∧ (x.scene.heap c).selected = true then (x.scene.heap c).translate_vec
             else if c = c0 then (x.scene.heap c0).translate_vec else b c))
          = L.map (fun c => command.translate_command c (a c)
            (if c ∈ c0 :: cs ∧ (x.scene.heap c).selected = true
             then (x.scene.heap c).translate_vec else b c)) := by
        apply List.map_congr_left
        intro c _
        by_cases hc : c = c0
        · subst hc
          simp [hsel]
        · simp [hc]
      simp only [Session.with_commandlist]
      rw [hmap]
    · rw [if_neg hsel, ih b x hcl]
      have hmap : L.map (fun c => command.translate_command (M := M) c (a c)
            (if c ∈ cs ∧ (x.scene.heap c).selected = true then (x.scene.heap c).translate_vec
             else b c))
          = L.map (fun c => command.translate_command c (a c)
            (if c ∈ c0 :: cs ∧ (x.scene.heap c).selected = true
             then (x.scene.heap c).translate_vec else b c)) := by
        apply List.map_congr_left
        intro c _
        by_cases hc : c = c0
        · subst hc
          simp [hsel]
        · simp [hc]
      rw [hmap]

/-- The frame in which the Translate key is released, started between two
frames: no selected flag and no translation changes, and every selected object
is stamped into the history. -/
theorem frame_release (d0 : selection_object V M) (inp : frame_input V M P)
    (e : editor V M P) (hrel : inp.events = [event.KeyReleased key_code.T])
    (hb : e.between_frames) :
    ∃ h', (∀ o, (h' o).selected = (e.obj o).selected) ∧
      (∀ o, (h' o).translate_vec = (e.obj o).translate_vec) ∧
      (frame d0 inp e).ses
        = set_end_loop_selected command_type.TRANSLATE e.ses.scene.objects
            (e.ses.with_heap h') := by
  obtain ⟨hpc, b1, b2, b3, e1, e2, e3, hc⟩ := hb
  have hev : handle_events d0 inp.events e = e.with_translate_end true := by
    rw [hrel]
    simp [handle_events, event_handler, editor.with_translate_end]
  obtain ⟨h', ta, a, b, d⟩ := objects_loop_release inp e.ses.scene.objects
    (e.with_translate_end true) hc b1 b2 b3 rfl e2 e3
  refine ⟨h', b, d, ?_⟩
  rw [frame_eq, hev, click_step_not_clicked inp (e.with_translate_end true) hc]
  have a' : objects_loop inp (e.with_translate_end true).ses.scene.objects
      (e.with_translate_end true)
      = ((e.with_translate_end true).with_heap h').with_translate_action ta := a
  rw [a']
  simp [reset_step, stamp_step, activate_step, commit_step, warp_step, editor.with_heap,
    editor.with_translate_action, editor.with_translate_end, hpc, e2, e3, Session.with_heap]

theorem run_frames_append (d0 : selection_object V M) (a b : List (frame_input V M P))
    (e : editor V M P) :
    run_frames d0 (a ++ b) e = run_frames d0 b (run_frames d0 a e) := by
  induction a generalizing e with
  | nil => rfl
  | cons i a ih => exact ih (frame d0 i e)

theorem run_frames_mouse_moves (d0 : selection_object V M) (moves : List (frame_input V M P))
    (e : editor V M P) (hm : ∀ i ∈ moves, only_mouse_moves i) (hb : e.between_frames) :
    (run_frames d0 moves e).between_frames ∧
    (run_frames d0 moves e).ses.his = e.ses.his ∧
    (run_frames d0 moves e).ses.scene.objects = e.ses.scene.objects ∧
    (∀ o, ((run_frames d0 moves e).obj o).selected = (e.obj o).selected) ∧
    (run_frames d0 moves e).translate_action = e.translate_action := by
  induction moves generalizing e with
  | nil => exact ⟨hb, rfl, rfl, fun _ => rfl, rfl⟩
  | cons i moves ih =>
    obtain ⟨f1, f2, f3, f4, f5⟩ := frame_mouse_moves d0 i e (hm i (List.mem_cons_self _ _)) hb
    obtain ⟨g1, g2, g3, g4, g5⟩ := ih (frame d0 i e)
      (fun j hj => hm j (List.mem_cons_of_mem _ hj)) f1
    refine ⟨g1, g2.trans f2, g3.trans f3, fun o => (g4 o).trans (f4 o), g5.trans f5⟩

/-- Gesture coalescing from an Idle state: start between two frames with the
Translate gesture Idle, a cursor in range and a duplicate-free live list.
After the frame of the key press, any number of frames of cursor movement and
the frame of the key release, the history is unchanged when nothing was selected, and otherwise holds the old
entries up to the cursor followed by one transaction with exactly one
Translate command per selected object, whose start-state is the translation
before the gesture and whose end-state is the translation at release; the
number of entries and the cursor do not depend on the frames in between. -/
theorem translate_gesture_coalesces_from_idle (d0 : selection_object V M) (e : editor V M P)
    (press release : frame_input V M P) (moves : List (frame_input V M P))
    (ctrl shift : Bool)
    (hb : e.between_frames) (hidle : e.translate_action = false)
    (hr : e.ses.his.in_range) (hnd : e.ses.scene.objects.Nodup)
    (hp : press.events = [event.KeyPressed key_code.T ctrl shift])
    (hm : ∀ i ∈ moves, only_mouse_moves i)
    (hrel : release.events = [event.KeyReleased key_code.T]) :
    (run_frames d0 (press :: moves ++ [release]) e).ses.his.commandlist =
      (if e.selected_objects = [] then e.ses.his.commandlist
       else e.ses.his.commandlist.take (e.ses.his.ptr + 1).toNat ++
         [command.packed_command (e.selected_objects.map (fun c =>
            command.translate_command c (e.obj c).translate_vec
              ((run_frames d0 (press :: moves ++ [release]) e).obj c).translate_vec))]) ∧
    e.selected_objects.Nodup ∧
    (∀ c, ((run_frames d0 (press :: moves ++ [release]) e).obj c).translate_vec
        = ((run_frames d0 (press :: moves) e).obj c).translate_vec) ∧
    (run_frames d0 (press :: moves ++ [release]) e).ses.his.commandlist.length
      = (if e.selected_objects = [] then e.ses.his.commandlist.length
         else (e.ses.his.ptr + 1).toNat + 1) ∧
    (run_frames d0 (press :: moves ++ [release]) e).ses.his.ptr
      = (if e.selected_objects = [] then e.ses.his.ptr else e.ses.his.ptr + 1) := by
  have hrun : run_frames d0 (press :: moves ++ [release]) e
      = frame d0 release (run_frames d0 moves (frame d0 press e)) := by
    rw [show press :: moves ++ [release] = (press :: moves) ++ [release] from rfl,
      run_frames_append]
    rfl
  have hrun' : run_frames d0 (press :: moves) e = run_frames d0 moves (frame d0 press e) := rfl
  obtain ⟨p1, p2, p3, p4, p5, p6⟩ := frame_press d0 press e ctrl shift hp hb hidle hr
  obtain ⟨m1, m2, m3, m4, m5⟩ := run_frames_mouse_moves d0 moves (frame d0 press e) hm p1
  obtain ⟨h', r1, r2, r3⟩ := frame_release d0 release
    (run_frames d0 moves (frame d0 press e)) hrel m1
  rw [hrun, hrun']
  have hobj : ∀ c, (frame d0 release (run_frames d0 moves (frame d0 press e))).obj c = h' c := by
    intro c
    show (frame d0 release (run_frames d0 moves (frame d0 press e))).ses.scene.heap c = h' c
    rw [r3, set_end_loop_selected_scene]
    rfl
  have hsel : ∀ o, (h' o).selected = (e.obj o).selected := fun o =>
    (r1 o).trans ((m4 o).trans (p4 o))
  have hnd' : e.selected_objects.Nodup := hnd.filter _
  have htv : ∀ c, ((frame d0 release (run_frames d0 moves (frame d0 press e))).obj c).translate_vec
      = ((run_frames d0 moves (frame d0 press e)).obj c).translate_vec := by
    intro c
    rw [hobj c]
    exact r2 c
  obtain ⟨hr1, hr2⟩ := hr
  have hlen : (e.ses.his.commandlist.take (e.ses.his.ptr + 1).toNat).length
      = (e.ses.his.ptr + 1).toNat := by
    rw [List.length_take]
    omega
  by_cases hs : e.selected_objects = []
  · simp only [if_pos hs]
    rw [if_pos hs] at p6
    have hnone : ∀ c ∈ (run_frames d0 moves (frame d0 press e)).ses.scene.objects,
        (((run_frames d0 moves (frame d0 press e)).ses.with_heap h').scene.heap c).selected
          = false := by
      intro c hc
      rw [m3, p3] at hc
      show (h' c).selected = false
      rw [hsel c]
      have : c ∉ e.selected_objects := by rw [hs]; exact List.not_mem_nil c
      simp only [editor.selected_objects, List.mem_filter, not_and] at this
      simpa using this hc
    have hses : (frame d0 release (run_frames d0 moves (frame d0 press e))).ses
        = (run_frames d0 moves (frame d0 press e)).ses.with_heap h' := by
      rw [r3]
      exact set_end_loop_selected_none _ _ _ hnone
    have hhis : (frame d0 release (run_frames d0 moves (frame d0 press e))).ses.his
        = e.ses.his := by
      rw [hses]
      show (run_frames d0 moves (frame d0 press e)).ses.his = e.ses.his
      rw [m2, p6]
    rw [hhis]
    exact ⟨rfl, hnd', htv, rfl, rfl⟩
  · simp only [if_neg hs]
    rw [if_neg hs] at p6
    have hcl : ((run_frames d0 moves (frame d0 press e)).ses.with_heap h').his.commandlist
        = e.ses.his.commandlist.take (e.ses.his.ptr + 1).toNat ++
          [command.packed_command (e.selected_objects.map (fun c =>
            command.translate_command c (e.obj c).translate_vec (e.obj c).translate_vec))] := by
      show (run_frames d0 moves (frame d0 press e)).ses.his.commandlist = _
      rw [m2, p6]
      rfl
    have hstamp := set_end_loop_selected_marks
      (run_frames d0 moves (frame d0 press e)).ses.scene.objects e.selected_objects
      (e.ses.his.commandlist.take (e.ses.his.ptr + 1).toNat)
      (fun c => (e.obj c).translate_vec) (fun c => (e.obj c).translate_vec)
      ((run_frames d0 moves (frame d0 press e)).ses.with_heap h') hcl
    rw [← r3] at hstamp
    have hmap : e.selected_objects.map (fun c => command.translate_command (M := M) c
          (e.obj c).translate_vec
          (if c ∈ (run_frames d0 moves (frame d0 press e)).ses.scene.objects ∧
              ((((run_frames d0 moves (frame d0 press e)).ses.with_heap h').scene.heap c).selected
                = true)
           then (((run_frames d0 moves (frame d0 press e)).ses.with_heap h').scene.heap
              c).translate_vec
           else (e.obj c).translate_vec))
        = e.selected_objects.map (fun c => command.translate_command c (e.obj c).translate_vec
          ((frame d0 release (run_frames d0 moves (frame d0 press e))).obj c).translate_vec) := by
      apply List.map_congr_left
      intro c hc
      have hc' := hc
      simp only [editor.selected_objects, List.mem_filter, decide_eq_true_eq] at hc'
      have h1 : c ∈ (run_frames d0 moves (frame d0 press e)).ses.scene.objects := by
        rw [m3, p3]
        exact hc'.1
      have h2 : (((run_frames d0 moves (frame d0 press e)).ses.with_heap h').scene.heap
          c).selected = true := by
        show (h' c).selected = true
        rw [hsel c]
        exact hc'.2
      rw [if_pos ⟨h1, h2⟩, hobj c]
      rfl
    rw [hmap] at hstamp
    have hcl' : (frame d0 release (run_frames d0 moves (frame d0 press e))).ses.his.commandlist
        = e.ses.his.commandlist.take (e.ses.his.ptr + 1).toNat ++
          [command.packed_command (e.selected_objects.map (fun c =>
            command.translate_command c (e.obj c).translate_vec
              ((frame d0 release (run_frames d0 moves
                (frame d0 press e))).obj c).translate_vec))] := by
      rw [hstamp]
      rfl
    have hptr : (frame d0 release (run_frames d0 moves (frame d0 press e))).ses.his.ptr
        = e.ses.his.ptr + 1 := by
      rw [hstamp]
      show (run_frames d0 moves (frame d0 press e)).ses.his.ptr = _
      rw [m2, p6]
    refine ⟨hcl', hnd', htv, ?_, hptr⟩
    rw [hcl']
    simp [hlen]

/-- Gesture coalescing at a concrete editor: three frames of movement, one
history entry. -/
theorem translate_gesture_coalesces_from_idle_witness :
    C4_editor.between_frames ∧ C4_editor.ses.his.in_range ∧
    C4_editor.ses.scene.objects.Nodup ∧
    (run_frames C4_new_object
        (C4_frame [event.KeyPressed key_code.T false false]
          :: [C4_frame [event.MouseMoved 1], C4_frame [event.MouseMoved 2],
              C4_frame [event.MouseMoved 3]]
          ++ [C4_frame [event.KeyReleased key_code.T]]) C4_editor).ses.his.commandlist
      = [command.packed_command
          [command.translate_command 1 10 15, command.translate_command 3 30 35]] := by
  have hb : C4_editor.between_frames := by
    simp [editor.between_frames, C4_editor]
  have hr : C4_editor.ses.his.in_range := by
    unfold history.in_range
    decide
  have hnd : C4_editor.ses.scene.objects.Nodup := by
    decide
  have hm : ∀ i ∈ [C4_frame [event.MouseMoved 1], C4_frame [event.MouseMoved 2],
      C4_frame [event.MouseMoved 3]], only_mouse_moves i := by
    intro i hi ev hev
    simp only [List.mem_cons, List.mem_singleton, List.not_mem_nil, or_false] at hi
    rcases hi with hi | hi | hi <;> subst hi <;>
      simp only [C4_frame, List.mem_singleton] at hev <;> exact ⟨_, hev⟩
  have h := (translate_gesture_coalesces_from_idle C4_new_object C4_editor
    (C4_frame [event.KeyPressed key_code.T false false])
    (C4_frame [event.KeyReleased key_code.T])
    [C4_frame [event.MouseMoved 1], C4_frame [event.MouseMoved 2],
      C4_frame [event.MouseMoved 3]] false false hb rfl hr hnd rfl hm rfl).1
  exact ⟨hb, hr, hnd, h.trans (by rfl)⟩

/-- After every frame, from any state, the editor is between two frames: the
per-frame pack is empty and the begin, end and click flags are down. -/
theorem frame_between_frames (d0 : selection_object V M) (inp : frame_input V M P)
    (e : editor V M P) : (frame d0 inp e).between_frames := by
  rw [frame_eq]
  generalize objects_loop inp (click_step inp (handle_events d0 inp.events e)).ses.scene.objects
    (click_step inp (handle_events d0 inp.events e)) = e2
  unfold editor.between_frames
  refine ⟨?_, rfl, rfl, rfl, rfl, rfl, rfl, rfl⟩
  show (commit_step (warp_step e2)).pc = []
  unfold commit_step
  split
  · rename_i h
    exact List.isEmpty_iff.mp h
  · rfl

/-- Why the amended C1 asks for distinct Add/Remove targets: both Remove
commands of `double_remove_transaction` find object 1 in the live list `[1]`,
and after `put` and `undo` the live list is `[1, 1]`. -/
theorem undo_double_remove_duplicates :
    (∀ c ∈ double_remove_transaction.leaves, c.records_state C1_good_session.scene) ∧
    (undo_times 1 (put_all C1_good_session [double_remove_transaction])).scene.objects
      = [1, 1] := by
  refine ⟨?_, by decide⟩
  intro c hc
  simp only [double_remove_transaction, command.leaves, leaves_pack, List.append_nil,
    List.singleton_append, List.mem_cons, List.mem_singleton, List.not_mem_nil, or_false,
    or_self] at hc
  subst hc
  show (1 : ObjId) ∈ [1]
  decide

/-- Why the amended C2 keeps the Add targets apart from the Remove targets:
for `[Add 3, Remove 3]` on the live list `[1, 2]` the state after `put` has
live list `[1, 2]` and the state after `undo(); redo()` has `[1, 2, 3]`. -/
theorem round_trip_add_remove_same_object :
    (history.put C2_session add_remove_transaction).scene.objects = [1, 2] ∧
    (history.redo (history.undo (history.put C2_session
      add_remove_transaction))).scene.objects = [1, 2, 3] := by
  decide

/-- Why the amended C2 asks that no Remove target stays live: with object 1
twice in the live list `[1, 1, 2]`, `put` of `[Remove 1]` gives `[1, 2]` and
`undo(); redo()` gives `[2, 1]`. -/
theorem round_trip_remove_of_duplicate :
    (history.put duplicate_session (command.remove_command 1)).scene.objects = [1, 2] ∧
    (history.redo (history.undo (history.put duplicate_session
      (command.remove_command 1)))).scene.objects = [2, 1] := by
  decide

/-! ### The gesture steps (C15, C20) -/

section
variable {F : Type} [LinearOrder F] [Zero F]

theorem scale_gesture_positive (env : gesture_env F M) (h001 : 0 < env.fp.c001) (p : vec2 F)
    (s : vec3 F) : (scale_gesture env p s).positive := by
  refine ⟨?_, ?_, ?_⟩ <;>
  · simp only [scale_gesture, vec3.max, vec3.splat]
    exact lt_max_of_lt_right h001

theorem action_step_scale (inp : frame_input V M P) (e : editor V M P) (c : ObjId)
    (ht : e.translate_action = false) (hr : e.rotate_action = false)
    (hs : e.scale_action = true) (hw : e.warped = true) :
    action_step inp e c =
      e.set_obj c { e.obj c with scale_vec := inp.scale_step e.mouse_pos (e.obj c).scale_vec } := by
  simp [action_step, ht, hr, hs, hw]

theorem set_obj_obj (e : editor V M P) (c : ObjId) (v : selection_object V M) :
    (e.set_obj c v).obj c = v := by
  simp [editor.set_obj, editor.obj]

/-- The Translate branch of the gesture step (line 1009): the object gets the
translation the step computes from the cursor, the locks and its old
translation. -/
theorem action_step_translate (inp : frame_input V M P) (e : editor V M P) (c : ObjId)
    (ht : e.translate_action = true) (hw : e.warped = true) :
    action_step inp e c =
      e.set_obj c { e.obj c with translate_vec := (inp.translate_step e.mouse_pos
        e.lock_to_x e.lock_to_y e.lock_to_z (e.obj c).translate_vec) } := by
  simp [action_step, ht, hw]

/-- The Rotate branch of the gesture step (line 1051), taken when Translate is
not Active. -/
theorem action_step_rotate (inp : frame_input V M P) (e : editor V M P) (c : ObjId)
    (ht : e.translate_action = false) (hr : e.rotate_action = true) (hw : e.warped = true) :
    action_step inp e c =
      e.set_obj c { e.obj c with rotation_mat := (inp.rotate_step e.mouse_pos
        e.lock_to_x e.lock_to_y e.lock_to_z (e.obj c).rotation_mat) } := by
  simp [action_step, ht, hr, hw]

/-- C15: in a frame in which the Scale gesture is Active (and the cursor was
warped), with any `float` arithmetic in which `0 < 0.01`, the step of a
selected object `c` replaces each component `s` of `c->scale_vec` by
`max (s + |delta| * sign) 0.01`, where `delta = mouse_pos - 0.5`, `|delta|` is
the library's `length( delta )` and `sign` is `1` when `delta.y > 0` and `-1`
otherwise, the same amount for the three components; a component the sum
drives to 0 or below becomes exactly 0.01, and every component is strictly
positive after the step. -/
theorem C15_scale_step_clamps (env : gesture_env F M)
    (inp : frame_input (vec3 F) M (vec2 F)) (e : editor (vec3 F) M (vec2 F)) (c : ObjId)
    (h001 : 0 < env.fp.c001) (hstep : inp.scale_step = scale_gesture env)
    (ht : e.translate_action = false) (hr : e.rotate_action = false)
    (hs : e.scale_action = true) (hw : e.warped = true) :
    let delta := e.mouse_pos.sub_scalar env.fp env.fp.half
    let sign : F := if delta.y > 0 then env.fp.one else env.fp.neg env.fp.one
    let amount : F := env.fp.mul (env.length2 delta) sign
    let s := (e.obj c).scale_vec
    let s' := ((action_step inp e c).obj c).scale_vec
    (s'.x = max (env.fp.add s.x amount) env.fp.c001 ∧
      s'.y = max (env.fp.add s.y amount) env.fp.c001 ∧
      s'.z = max (env.fp.add s.z amount) env.fp.c001) ∧
    ((env.fp.add s.x amount ≤ 0 → s'.x = env.fp.c001) ∧
      (env.fp.add s.y amount ≤ 0 → s'.y = env.fp.c001) ∧
      (env.fp.add s.z amount ≤ 0 → s'.z = env.fp.c001)) ∧
    (0 < s'.x ∧ 0 < s'.y ∧ 0 < s'.z) := by
  intro delta sign amount s s'
  have hs' : s' = scale_gesture env e.mouse_pos s := by
    show ((action_step inp e c).obj c).scale_vec = _
    rw [action_step_scale inp e c ht hr hs hw, set_obj_obj, hstep]
  have hx : s'.x = max (env.fp.add s.x amount) env.fp.c001 := by rw [hs']; rfl
  have hy : s'.y = max (env.fp.add s.y amount) env.fp.c001 := by rw [hs']; rfl
  have hz : s'.z = max (env.fp.add s.z amount) env.fp.c001 := by rw [hs']; rfl
  refine ⟨⟨hx, hy, hz⟩, ⟨?_, ?_, ?_⟩, ?_, ?_, ?_⟩
  · intro h; rw [hx]; exact max_eq_right (h.trans h001.le)
  · intro h; rw [hy]; exact max_eq_right (h.trans h001.le)
  · intro h; rw [hz]; exact max_eq_right (h.trans h001.le)
  · rw [hx]; exact lt_max_of_lt_right h001
  · rw [hy]; exact lt_max_of_lt_right h001
  · rw [hz]; exact lt_max_of_lt_right h001

end

/-- C15 at a concrete step: with `delta = (0, -1/2)` and `|delta| = 1` the
scale (1/2, 2, 1) becomes (1/100, 1, 1/100). -/
theorem C15_scale_step_clamps_witness :
    ((action_step ((sample_env false).input [] false (fun _ _ => false)) scale_editor 1).obj
      1).scale_vec = ⟨1 / 100, 1, 1 / 100⟩ := by
  have h001 : (0 : ℚ) < (sample_env false).fp.c001 := by
    simp [sample_env, float_ops.exact]
  have h := C15_scale_step_clamps (sample_env false)
    ((sample_env false).input [] false (fun _ _ => false)) scale_editor 1 h001 rfl rfl rfl
    rfl rfl
  obtain ⟨⟨hx, hy, hz⟩, -, -⟩ := h
  have e1 : ∀ v : vec3 ℚ, v = ⟨v.x, v.y, v.z⟩ := fun v => rfl
  rw [e1 ((action_step _ scale_editor 1).obj 1).scale_vec, hx, hy, hz]
  simp only [scale_editor, editor.obj, sample_env, vec2.sub_scalar, float_ops.exact]
  norm_num

section
variable {F : Type} [LinearOrderedField F]

/-- The locked steps in exact arithmetic: with the X lock on, or with the lock
of the second axis the gesture maps the cursor to (Z for global-space
Translate, Y for camera-relative Translate and for Rotate in both modes), the
step is restricted to one axis: the Translate displacement is a scalar multiple
of world X or Z (global space) or of camera right or up (camera relative), and
the Rotate step left-multiplies one rotation about world X or Y (global space)
or about camera right or up.  With the remaining lock on alone (Y in
global-space Translate, Z in camera-relative Translate and in Rotate) the step
is the two-axis step of no lock at all. -/
theorem locked_step_scalar_multiple_exact (env : gesture_env F M)
    (hfp : env.fp = float_ops.exact) (p : vec2 F)
    (lock_to_x lock_to_y lock_to_z : Bool) (t : vec3 F) (r : M) :
    ((env.ctrl = true → lock_to_x = true →
        ∃ k, translate_gesture env p lock_to_x lock_to_y lock_to_z t
          = t.add env.fp (vec3.smul env.fp k ⟨1, 0, 0⟩)) ∧
      (env.ctrl = true → lock_to_x = false → lock_to_z = true →
        ∃ k, translate_gesture env p lock_to_x lock_to_y lock_to_z t
          = t.add env.fp (vec3.smul env.fp k ⟨0, 0, 1⟩)) ∧
      (env.ctrl = false → lock_to_x = true →
        ∃ k, translate_gesture env p lock_to_x lock_to_y lock_to_z t
          = t.add env.fp (vec3.smul env.fp k env.right_vec)) ∧
      (env.ctrl = false → lock_to_x = false → lock_to_y = true →
        ∃ k, translate_gesture env p lock_to_x lock_to_y lock_to_z t
          = t.add env.fp (vec3.smul env.fp k env.up_vec))) ∧
    ((lock_to_x = true →
        ∃ a, rotate_gesture env p lock_to_x lock_to_y lock_to_z r
          = env.mat_mul
              (env.create_rotation a (if env.ctrl then ⟨1, 0, 0⟩ else env.right_vec)) r) ∧
      (lock_to_x = false → lock_to_y = true →
        ∃ a, rotate_gesture env p lock_to_x lock_to_y lock_to_z r
          = env.mat_mul
              (env.create_rotation a (if env.ctrl then ⟨0, 1, 0⟩ else env.up_vec)) r)) ∧
    ((env.ctrl = true →
        translate_gesture env p false true false t = translate_gesture env p false false false t) ∧
      (env.ctrl = false →
        translate_gesture env p false false true t = translate_gesture env p false false false t) ∧
      rotate_gesture env p false false true r = rotate_gesture env p false false false r) := by
  refine ⟨⟨?_, ?_, ?_, ?_⟩, ⟨?_, ?_⟩, ?_, ?_, ?_⟩
  · intro hc hx
    refine ⟨(p.sub_scalar env.fp env.fp.half).x * 2
      * (env.length3 (t.sub env.fp env.cam_pos) * env.tan_half_fov), ?_⟩
    simp only [translate_gesture, hc, hx, if_true, vec3.smul, vec3.mul_scalar, vec3.add, hfp,
      float_ops.exact]
    congr 1 <;> ring
  · intro hc hx hz
    refine ⟨-(p.sub_scalar env.fp env.fp.half).y * 2
      * (env.length3 (t.sub env.fp env.cam_pos) * env.tan_half_fov * env.aspect), ?_⟩
    simp only [translate_gesture, hc, hx, hz, if_true, vec3.smul, vec3.mul_scalar, vec3.add,
      hfp, float_ops.exact, Bool.false_eq_true, if_false]
    congr 1 <;> ring
  · intro hc hx
    refine ⟨(p.sub_scalar env.fp env.fp.half).x * 2
      * (env.length3 (t.sub env.fp env.cam_pos) * env.tan_half_fov), ?_⟩
    simp only [translate_gesture, hc, hx, if_true, vec3.smul, vec3.mul_scalar, vec3.add, hfp,
      float_ops.exact, Bool.false_eq_true, if_false]
    congr 1 <;> ring
  · intro hc hx hy
    refine ⟨(p.sub_scalar env.fp env.fp.half).y * 2
      * (env.length3 (t.sub env.fp env.cam_pos) * env.tan_half_fov * env.aspect), ?_⟩
    simp only [translate_gesture, hc, hx, hy, if_true, vec3.smul, vec3.mul_scalar, vec3.add,
      hfp, float_ops.exact, Bool.false_eq_true, if_false]
    congr 1 <;> ring
  · intro hx
    refine ⟨env.radians (-(p.sub_scalar env.fp env.fp.half).y * 40), ?_⟩
    cases hc : env.ctrl <;> simp [rotate_gesture, hc, hx, hfp, float_ops.exact]
  · intro hx hy
    refine ⟨env.radians ((p.sub_scalar env.fp env.fp.half).x * 40), ?_⟩
    cases hc : env.ctrl <;> simp [rotate_gesture, hc, hx, hy, hfp, float_ops.exact]
  · intro hc
    simp [translate_gesture, hc]
  · intro hc
    simp [translate_gesture, hc]
  · cases hc : env.ctrl <;> simp [rotate_gesture, hc]

end

/-- C20 refuted: in global-space mode with only the Y lock on, a cursor delta
of (1, 1) moves the object at (5, 6, 7) to (7, 6, 5): the displacement
(2, 0, -2) is not a scalar multiple of world X, of world Z, or of the camera's
right or up vector. -/
theorem C20_counterexample :
    translate_gesture (sample_env true) ⟨3 / 2, 3 / 2⟩ false true false ⟨5, 6, 7⟩
      = (⟨7, 6, 5⟩ : vec3 ℚ) ∧
    ¬ ∃ (k : ℚ) (axis : vec3 ℚ),
        axis ∈ [⟨1, 0, 0⟩, ⟨0, 0, 1⟩, (sample_env true).right_vec, (sample_env true).up_vec] ∧
        translate_gesture (sample_env true) ⟨3 / 2, 3 / 2⟩ false true false ⟨5, 6, 7⟩
          = vec3.add float_ops.exact ⟨5, 6, 7⟩ (vec3.smul float_ops.exact k axis) := by
  have h : translate_gesture (sample_env true) ⟨3 / 2, 3 / 2⟩ false true false ⟨5, 6, 7⟩
      = (⟨7, 6, 5⟩ : vec3 ℚ) := by
    simp only [translate_gesture, sample_env, vec2.sub_scalar, vec3.smul, vec3.mul_scalar,
      vec3.add, vec3.sub, if_true, Bool.false_eq_true, if_false, float_ops.exact]
    norm_num
  refine ⟨h, ?_⟩
  rintro ⟨k, axis, hax, hk⟩
  rw [h] at hk
  simp only [sample_env, List.mem_cons, List.mem_singleton, List.not_mem_nil, or_false] at hax
  rcases hax with rfl | rfl | rfl | rfl
  · have := congrArg vec3.z hk
    simp [vec3.add, vec3.smul, float_ops.exact] at this
  · have := congrArg vec3.x hk
    simp [vec3.add, vec3.smul, float_ops.exact] at this
  · have := congrArg vec3.z hk
    simp [vec3.add, vec3.smul, float_ops.exact] at this
  · have := congrArg vec3.x hk
    simp [vec3.add, vec3.smul, float_ops.exact] at this

/-- The locked step in exact arithmetic at a concrete step: in global-space
mode with the Z lock on, a cursor delta of (1, 1) moves the object at (5, 6, 7)
along world Z only. -/
theorem locked_step_scalar_multiple_exact_witness :
    ∃ k : ℚ, translate_gesture (sample_env true) ⟨3 / 2, 3 / 2⟩ false false true ⟨5, 6, 7⟩
      = vec3.add float_ops.exact ⟨5, 6, 7⟩ (vec3.smul float_ops.exact k ⟨0, 0, 1⟩) :=
  (locked_step_scalar_multiple_exact (sample_env true) rfl ⟨3 / 2, 3 / 2⟩ false false true
    ⟨5, 6, 7⟩ (0 : Int)).1.2.1 rfl rfl rfl

/-! ### The gesture flags at concrete frames (C18) -/

/-- C18 refuted: in the empty scene a press of the mode key in one frame and
its release in the next leave the gesture Active, for each of the three kinds,
and the handler ignores a later press of the key
(`translate_begin` stays false); with objects selected,
a press and a release handled in the same frame leave the gesture Active as
well. -/
theorem C18_release_leaves_gesture_active :
    (run_frames C4_new_object
      [C4_frame [event.KeyPressed key_code.T false false], C4_frame [event.KeyReleased key_code.T]]
      empty_editor).translate_action = true ∧
    (run_frames C4_new_object
      [C4_frame [event.KeyPressed key_code.R false false], C4_frame [event.KeyReleased key_code.R]]
      empty_editor).rotate_action = true ∧
    (run_frames C4_new_object
      [C4_frame [event.KeyPressed key_code.Y false false], C4_frame [event.KeyReleased key_code.Y]]
      empty_editor).scale_action = true ∧
    (handle_events C4_new_object [event.KeyPressed key_code.T false false]
      (run_frames C4_new_object
        [C4_frame [event.KeyPressed key_code.T false false],
         C4_frame [event.KeyReleased key_code.T]]
        empty_editor)).translate_begin = false ∧
    (frame C4_new_object
      (C4_frame [event.KeyPressed key_code.T false false, event.KeyReleased key_code.T])
      C4_editor).translate_action = true := by
  refine ⟨by decide, by decide, by decide, by decide, by decide⟩

/-! ### Picking (C11, C12, C19) -/

theorem pick_step_mouse_pos (inp : frame_input V M P) (e : editor V M P) (c : ObjId) :
    (pick_step inp e c).mouse_pos = e.mouse_pos := by
  unfold pick_step; split_ifs <;> rfl

theorem pick_step_ses (inp : frame_input V M P) (e : editor V M P) (c : ObjId) :
    (pick_step inp e c).ses = e.ses := by
  unfold pick_step; split_ifs <;> rfl

theorem pick_step_clicked (inp : frame_input V M P) (e : editor V M P) (c : ObjId) :
    (pick_step inp e c).clicked = (e.clicked && !inp.intersects e.mouse_pos (e.obj c)) := by
  unfold pick_step; split_ifs <;> simp_all

theorem pick_step_pc (inp : frame_input V M P) (e : editor V M P) (c : ObjId) :
    (pick_step inp e c).pc = e.pc ++
      (if e.clicked && inp.intersects e.mouse_pos (e.obj c) then [.select_command c] else []) := by
  unfold pick_step; split_ifs <;> simp_all [editor.pc_put]

theorem begin_step_mouse_pos (e : editor V M P) (c : ObjId) :
    (begin_step e c).mouse_pos = e.mouse_pos := by
  unfold begin_step; simp only [editor.pc_put]; split_ifs <;> rfl

theorem begin_step_ses (e : editor V M P) (c : ObjId) : (begin_step e c).ses = e.ses := by
  unfold begin_step; simp only [editor.pc_put]; split_ifs <;> rfl

theorem begin_step_clicked (e : editor V M P) (c : ObjId) :
    (begin_step e c).clicked = e.clicked := by
  unfold begin_step; simp only [editor.pc_put]; split_ifs <;> rfl

theorem begin_step_select_commands (e : editor V M P) (c : ObjId) :
    select_commands (begin_step e c).pc = select_commands e.pc := by
  unfold begin_step; simp only [editor.pc_put, select_commands]
  split_ifs <;> simp [command.type]

theorem action_step_mouse_pos (inp : frame_input V M P) (e : editor V M P) (c : ObjId) :
    (action_step inp e c).mouse_pos = e.mouse_pos := by
  unfold action_step; simp only [editor.set_obj]; split_ifs <;> rfl

theorem action_step_clicked (inp : frame_input V M P) (e : editor V M P) (c : ObjId) :
    (action_step inp e c).clicked = e.clicked := by
  unfold action_step; simp only [editor.set_obj]; split_ifs <;> rfl

theorem action_step_pc (inp : frame_input V M P) (e : editor V M P) (c : ObjId) :
    (action_step inp e c).pc = e.pc := by
  unfold action_step; simp only [editor.set_obj]; split_ifs <;> rfl

theorem action_step_obj_other (inp : frame_input V M P) (e : editor V M P) (c d : ObjId)
    (h : d ≠ c) : (action_step inp e c).obj d = e.obj d := by
  unfold action_step; simp only [editor.set_obj, editor.obj]
  split_ifs <;> simp [Function.update_noteq h]

theorem action_step_objects (inp : frame_input V M P) (e : editor V M P) (c : ObjId) :
    (action_step inp e c).ses.scene.objects = e.ses.scene.objects := by
  unfold action_step; simp only [editor.set_obj]; split_ifs <;> rfl

theorem object_step_mouse_pos (inp : frame_input V M P) (e : editor V M P) (c : ObjId) :
    (object_step inp e c).mouse_pos = e.mouse_pos := by
  rw [object_step_eq]
  split_ifs
  · rw [action_step_mouse_pos]
    show (begin_step (pick_step inp e c) c).mouse_pos = _
    rw [begin_step_mouse_pos, pick_step_mouse_pos]
  · exact pick_step_mouse_pos inp e c

theorem object_step_clicked (inp : frame_input V M P) (e : editor V M P) (c : ObjId) :
    (object_step inp e c).clicked = (e.clicked && !inp.intersects e.mouse_pos (e.obj c)) := by
  rw [object_step_eq]
  split_ifs
  · rw [action_step_clicked]
    show (begin_step (pick_step inp e c) c).clicked = _
    rw [begin_step_clicked, pick_step_clicked]
  · exact pick_step_clicked inp e c

theorem object_step_obj_other (inp : frame_input V M P) (e : editor V M P) (c d : ObjId)
    (h : d ≠ c) : (object_step inp e c).obj d = e.obj d := by
  rw [object_step_eq]
  split_ifs
  · rw [action_step_obj_other inp _ c d h]
    show (begin_step (pick_step inp e c) c).ses.scene.heap d = _
    rw [begin_step_ses, pick_step_ses]; rfl
  · show (pick_step inp e c).ses.scene.heap d = _
    rw [pick_step_ses]; rfl

theorem object_step_select_commands (inp : frame_input V M P) (e : editor V M P) (c : ObjId) :
    select_commands (object_step inp e c).pc =
      select_commands e.pc ++
        (if e.clicked && inp.intersects e.mouse_pos (e.obj c) then [.select_command c]
         else []) := by
  have hp : select_commands (pick_step inp e c).pc = select_commands e.pc ++
      (if e.clicked && inp.intersects e.mouse_pos (e.obj c) then [.select_command c]
       else []) := by
    rw [pick_step_pc]
    simp only [select_commands, List.filter_append]
    split_ifs <;> simp [command.type]
  rw [object_step_eq]
  by_cases hsel : ((pick_step inp e c).obj c).selected = true
  · rw [if_pos hsel, action_step_pc]
    show select_commands (begin_step (pick_step inp e c) c).pc = _
    rw [begin_step_select_commands, hp]
  · rw [if_neg hsel]
    exact hp

/-- Without a pending click the loop over the objects queues no Select. -/
theorem objects_loop_no_click (inp : frame_input V M P) (cs : List ObjId) (e : editor V M P)
    (h : e.clicked = false) :
    select_commands (objects_loop inp cs e).pc = select_commands e.pc := by
  induction cs generalizing e with
  | nil => rfl
  | cons c cs ih =>
    simp only [objects_loop]
    rw [ih _ (by rw [object_step_clicked, h]; rfl), object_step_select_commands, h]
    simp

theorem first_hit_congr (inp : frame_input V M P) (e e' : editor V M P) (cs : List ObjId)
    (hm : e'.mouse_pos = e.mouse_pos) (ho : ∀ d ∈ cs, e'.obj d = e.obj d) :
    first_hit inp e' cs = first_hit inp e cs := by
  induction cs with
  | nil => rfl
  | cons c cs ih =>
    have ih' := ih (fun d hd => ho d (List.mem_cons_of_mem _ hd))
    unfold first_hit at ih' ⊢
    rw [List.find?_cons, List.find?_cons, ho c (List.mem_cons_self _ _)]
    rw [hm] at ih' ⊢
    cases inp.intersects e.mouse_pos (e.obj c)
    · exact ih'
    · rfl

/-- C11: in the loop over the objects of a frame with a pending click
(`clicked` is true when the loop starts), over any duplicate-free list of
objects and with any ray/box test, object attributes and gesture flags: the
Select commands the loop appends to the frame's pack are exactly one Select for
the first object in list order whose test succeeds, whatever the later objects
do, and none at all when no test succeeds. -/
theorem C11_pick_first_hit (inp : frame_input V M P) (cs : List ObjId) (e : editor V M P)
    (hc : e.clicked = true) (hnd : cs.Nodup) :
    select_commands (objects_loop inp cs e).pc =
      select_commands e.pc ++
        (match first_hit inp e cs with
         | some c => [.select_command c]
         | none => []) := by
  induction cs generalizing e with
  | nil => simp [objects_loop, first_hit]
  | cons c cs ih =>
    simp only [objects_loop]
    cases hh : inp.intersects e.mouse_pos (e.obj c)
    · have hc' : (object_step inp e c).clicked = true := by
        rw [object_step_clicked, hc, hh]; rfl
      have hfh : first_hit inp (object_step inp e c) cs = first_hit inp e cs :=
        first_hit_congr inp e _ cs (object_step_mouse_pos inp e c)
          (fun d hd => object_step_obj_other inp e c d
            (fun hdc => (List.nodup_cons.mp hnd).1 (hdc ▸ hd)))
      rw [ih _ hc' (List.nodup_cons.mp hnd).2, object_step_select_commands, hc, hh, hfh]
      have : first_hit inp e (c :: cs) = first_hit inp e cs := by
        simp [first_hit, List.find?_cons, hh]
      rw [this]
      simp
    · have hc' : (object_step inp e c).clicked = false := by
        rw [object_step_clicked, hc, hh]; rfl
      rw [objects_loop_no_click inp cs _ hc', object_step_select_commands, hc, hh]
      have : first_hit inp e (c :: cs) = some c := by
        simp [first_hit, List.find?_cons, hh]
      rw [this]
      simp

/-- C11 at a concrete loop: objects 2 and 3 are both hit and only object 2, the
first of them in list order, gets a Select. -/
theorem C11_pick_first_hit_witness :
    click_editor.clicked = true ∧ [1, 2, 3].Nodup ∧
    select_commands (objects_loop (hit_frame [] false 20) [1, 2, 3] click_editor).pc
      = [.select_command 2] :=
  ⟨rfl, by decide,
    (C11_pick_first_hit (hit_frame [] false 20) [1, 2, 3] click_editor rfl (by decide)).trans
      (by rfl)⟩

theorem deselect_loop_eq (ds : List ObjId) (e : editor V M P) :
    deselect_loop ds e =
      e.with_pc (e.pc ++ (ds.filter (fun c => (e.obj c).selected)).map
        command.deselect_command) := by
  induction ds generalizing e with
  | nil => simp [deselect_loop, editor.with_pc]
  | cons d ds ih =>
    by_cases h : (e.obj d).selected = true
    · have h1 : deselect_loop (d :: ds) e = deselect_loop ds (e.pc_put (.deselect_command d)) := by
        simp [deselect_loop, h]
      rw [h1, ih]
      have ho : ∀ c, (e.pc_put (.deselect_command d)).obj c = e.obj c := fun _ => rfl
      simp only [ho, List.filter_cons, h, if_true, List.map_cons]
      simp [editor.with_pc, editor.pc_put]
    · have h1 : deselect_loop (d :: ds) e = deselect_loop ds e := by
        simp [deselect_loop, h]
      rw [h1, ih]
      simp [List.filter_cons, h]

theorem pick_step_flat (inp : frame_input V M P) (e : editor V M P) (c : ObjId) :
    pick_step inp e c =
      (e.with_pc (e.pc ++ (if e.clicked && inp.intersects e.mouse_pos (e.obj c)
          then [.select_command c] else []))).with_clicked
        (e.clicked && !inp.intersects e.mouse_pos (e.obj c)) := by
  unfold pick_step editor.with_pc editor.with_clicked editor.pc_put
  cases hc : e.clicked <;> cases hh : inp.intersects e.mouse_pos (e.obj c) <;>
    simp <;> cases e <;> simp_all

theorem action_step_heap_other (inp : frame_input V M P) (e : editor V M P) (c : ObjId) :
    ∃ h', action_step inp e c = e.with_heap h' ∧
      (∀ o, (h' o).selected = (e.obj o).selected) ∧
      (∀ o, o ≠ c → h' o = e.obj o) ∧
      (e.translate_action = false → e.rotate_action = false → e.scale_action = false →
        h' = e.ses.scene.heap) := by
  obtain ⟨h', a, b, -⟩ := action_step_heap inp e c
  by_cases hidle : e.translate_action = false ∧ e.rotate_action = false ∧ e.scale_action = false
  · refine ⟨e.ses.scene.heap, ?_, fun _ => rfl, fun _ _ => rfl, fun _ _ _ => rfl⟩
    obtain ⟨i1, i2, i3⟩ := hidle
    rw [with_heap_self]
    simp [action_step, i1, i2, i3]
  · refine ⟨h', a, b, ?_, fun i1 i2 i3 => absurd ⟨i1, i2, i3⟩ hidle⟩
    intro o ho
    have := action_step_obj_other inp e c o ho
    rw [a] at this
    exact this

theorem object_branch_flat (inp : frame_input V M P) (p : editor V M P) (c : ObjId)
    (h2 : p.translate_begin = false) (h3 : p.rotate_begin = false)
    (h4 : p.scale_begin = false) (h5 : p.translate_end = false) (h6 : p.rotate_end = false)
    (h7 : p.scale_end = false) :
    ∃ h', (if (p.obj c).selected then action_step inp (end_step (begin_step p c)) c else p)
        = p.with_heap h' ∧
      (∀ o, (h' o).selected = (p.obj o).selected) ∧
      (∀ o, o ≠ c → h' o = p.obj o) ∧
      (p.translate_action = false → p.rotate_action = false → p.scale_action = false →
        h' = p.ses.scene.heap) := by
  by_cases hsel : (p.obj c).selected = true
  · rw [if_pos hsel, begin_step_none p c h2 h3 h4, end_step_none p h5 h6 h7]
    exact action_step_heap_other inp p c
  · rw [if_neg hsel]
    exact ⟨p.ses.scene.heap, rfl, fun _ => rfl, fun _ _ => rfl, fun _ _ _ => rfl⟩

/-- The body of the loop for one object in a frame without begin or end
flags. -/
theorem object_step_flat (inp : frame_input V M P) (e : editor V M P) (c : ObjId)
    (h2 : e.translate_begin = false) (h3 : e.rotate_begin = false)
    (h4 : e.scale_begin = false) (h5 : e.translate_end = false) (h6 : e.rotate_end = false)
    (h7 : e.scale_end = false) :
    ∃ h', object_step inp e c =
        ((e.with_heap h').with_pc (e.pc ++ (if e.clicked && inp.intersects e.mouse_pos (e.obj c)
            then [.select_command c] else []))).with_clicked
          (e.clicked && !inp.intersects e.mouse_pos (e.obj c)) ∧
      (∀ o, (h' o).selected = (e.obj o).selected) ∧
      (∀ o, o ≠ c → h' o = e.obj o) ∧
      (e.translate_action = false → e.rotate_action = false → e.scale_action = false →
        h' = e.ses.scene.heap) := by
  rw [object_step_eq, pick_step_flat]
  exact object_branch_flat inp _ c h2 h3 h4 h5 h6 h7

theorem select_of_first_hit_cons (inp : frame_input V M P) (e : editor V M P) (c : ObjId)
    (cs : List ObjId) :
    (select_of (first_hit inp e (c :: cs)) : List (command V M)) =
      if inp.intersects e.mouse_pos (e.obj c) then [.select_command c]
      else select_of (first_hit inp e cs) := by
  unfold first_hit
  rw [List.find?_cons]
  cases inp.intersects e.mouse_pos (e.obj c) <;> rfl

/-- The loop over the objects in a frame without begin or end flags: it queues
the Select of the first hit when a click is pending, and writes attributes (no
selected flag) of objects of the list only. -/
theorem objects_loop_flat (inp : frame_input V M P) (cs : List ObjId) (e : editor V M P)
    (hnd : cs.Nodup)
    (h2 : e.translate_begin = false) (h3 : e.rotate_begin = false)
    (h4 : e.scale_begin = false) (h5 : e.translate_end = false) (h6 : e.rotate_end = false)
    (h7 : e.scale_end = false) :
    ∃ h' b, objects_loop inp cs e =
        ((e.with_heap h').with_pc
          (e.pc ++ (if e.clicked then select_of (first_hit inp e cs) else []))).with_clicked b ∧
      (∀ o, (h' o).selected = (e.obj o).selected) ∧
      (∀ o, o ∉ cs → h' o = e.obj o) ∧
      (e.translate_action = false → e.rotate_action = false → e.scale_action = false →
        h' = e.ses.scene.heap) := by
  induction cs generalizing e with
  | nil =>
    refine ⟨e.ses.scene.heap, e.clicked, ?_, fun _ => rfl, fun _ _ => rfl, fun _ _ _ => rfl⟩
    cases e
    simp [objects_loop, editor.with_heap, editor.with_pc, editor.with_clicked, first_hit,
      select_of]
  | cons c cs ih =>
    obtain ⟨h', a, b, d, i⟩ := object_step_flat inp e c h2 h3 h4 h5 h6 h7
    simp only [objects_loop]
    rw [a]
    obtain ⟨h'', b'', a', b', d', i'⟩ := ih
      (((e.with_heap h').with_pc (e.pc ++ (if e.clicked && inp.intersects e.mouse_pos (e.obj c)
          then [.select_command c] else []))).with_clicked
        (e.clicked && !inp.intersects e.mouse_pos (e.obj c)))
      (List.nodup_cons.mp hnd).2 h2 h3 h4 h5 h6 h7
    rw [a']
    have hfh : first_hit inp
        (((e.with_heap h').with_pc (e.pc ++ (if e.clicked && inp.intersects e.mouse_pos (e.obj c)
            then [.select_command c] else []))).with_clicked
          (e.clicked && !inp.intersects e.mouse_pos (e.obj c))) cs = first_hit inp e cs :=
      first_hit_congr inp e _ cs rfl
        (fun o ho => d o (fun hoc => (List.nodup_cons.mp hnd).1 (hoc ▸ ho)))
    refine ⟨h'', b'', ?_, ?_, ?_, ?_⟩
    · rw [hfh, select_of_first_hit_cons]
      cases hc : e.clicked <;> cases hh : inp.intersects e.mouse_pos (e.obj c) <;>
        simp [editor.with_heap, editor.with_pc, editor.with_clicked]
    · intro o
      rw [b' o]
      exact b o
    · intro o ho
      rw [d' o (fun h => ho (List.mem_cons_of_mem _ h))]
      exact d o (fun h => ho (h ▸ List.mem_cons_self _ _))
    · intro i1 i2 i3
      rw [i' i1 i2 i3]
      show h' = _
      exact i i1 i2 i3

theorem execute_pack_flag (mk : ObjId → command V M) (b : Bool)
    (hmk : ∀ o (s : Scene V M), (mk o).execute s = s.modify o (fun x => { x with selected := b }))
    (ds : List ObjId) (s : Scene V M) :
    (execute_pack (ds.map mk) s).objects = s.objects ∧
    (execute_pack (ds.map mk) s).freed = s.freed ∧
    ∀ o, (execute_pack (ds.map mk) s).heap o =
      if o ∈ ds then { s.heap o with selected := b } else s.heap o := by
  induction ds generalizing s with
  | nil => exact ⟨rfl, rfl, fun o => by simp [execute_pack]⟩
  | cons d ds ih =>
    obtain ⟨a1, a2, a3⟩ := ih ((mk d).execute s)
    simp only [List.map_cons, execute_pack]
    refine ⟨by rw [a1, hmk]; rfl, by rw [a2, hmk]; rfl, ?_⟩
    intro o
    rw [a3 o, hmk, modify_heap]
    by_cases h1 : o ∈ ds <;> by_cases h2 : o = d <;> simp [h1, h2]

theorem execute_pack_removes (rs : List ObjId) (s : Scene V M) :
    execute_pack (rs.map command.remove_command) s = { s with objects := s.objects.diff rs } := by
  induction rs generalizing s with
  | nil => rfl
  | cons r rs ih =>
    simp only [List.map_cons, execute_pack, command.execute]
    rw [ih, erase_first_eq_erase, List.diff_cons]

theorem diff_filter_self (p : ObjId → Bool) (l : List ObjId) :
    l.diff (l.filter p) = l.filter (fun c => !p c) := by
  induction l with
  | nil => rfl
  | cons a l ih =>
    cases h : p a
    · have hn : a ∉ l.filter p := by
        intro hm
        have := (List.mem_filter.mp hm).2
        rw [h] at this
        exact Bool.false_ne_true this
      simp only [List.filter_cons, h, Bool.not_false, if_true, Bool.false_eq_true, if_false]
      rw [List.cons_diff_of_not_mem hn, ih]
    · simp only [List.filter_cons, h, Bool.not_true, if_true, Bool.false_eq_true, if_false]
      rw [List.diff_cons, List.erase_cons_head, ih]

/-- The part of the frame after the loop over the objects, in a frame without
end flags: the session is the committed one. -/
theorem frame_tail_ses (e : editor V M P) (h5 : e.translate_end = false)
    (h6 : e.rotate_end = false) (h7 : e.scale_end = false) :
    (reset_step (stamp_step (activate_step (commit_step (warp_step e))))).ses =
      if e.pc.isEmpty then e.ses else history.put e.ses (.packed_command e.pc) := by
  simp only [reset_step, stamp_step, activate_step, commit_step, warp_step]
  split_ifs <;> simp_all

theorem put_with_heap_his (x : Session V M) (h : ObjId → selection_object V M)
    (c : command V M) : (history.put (x.with_heap h) c).his = (history.put x c).his := rfl

theorem put_scene_objects (x : Session V M) (L : List (command V M)) :
    (history.put x (.packed_command L)).scene.objects = (execute_pack L x.scene).objects ∧
    (history.put x (.packed_command L)).scene.heap = (execute_pack L x.scene).heap := by
  exact ⟨rfl, rfl⟩

/-- The session after a frame with a pending click and no begin or end flag,
from the state in which the events have been handled: the pack of the events,
the Deselects of the selected objects unless shift is held and the Select of
the first hit are committed as one transaction, after the loop over the
objects. -/
theorem click_frame_ses (inp : frame_input V M P) (e : editor V M P)
    (hnd : e.ses.scene.objects.Nodup) (hc : e.clicked = true)
    (h2 : e.translate_begin = false) (h3 : e.rotate_begin = false)
    (h4 : e.scale_begin = false) (h5 : e.translate_end = false) (h6 : e.rotate_end = false)
    (h7 : e.scale_end = false) :
    ∃ h', (∀ o, (h' o).selected = (e.obj o).selected) ∧
      (e.translate_action = false → e.rotate_action = false → e.scale_action = false →
        h' = e.ses.scene.heap) ∧
      (reset_step (stamp_step (activate_step (commit_step (warp_step
        (objects_loop inp (click_step inp e).ses.scene.objects (click_step inp e))))))).ses =
        if (e.pc ++ (if inp.shift then []
              else e.selected_objects.map command.deselect_command)
            ++ select_of (first_hit inp e e.ses.scene.objects)).isEmpty
        then e.ses.with_heap h'
        else history.put (e.ses.with_heap h') (.packed_command
          (e.pc ++ (if inp.shift then []
              else e.selected_objects.map command.deselect_command)
            ++ select_of (first_hit inp e e.ses.scene.objects))) := by
  have hcl : click_step inp e = e.with_pc (e.pc ++ (if inp.shift then []
      else e.selected_objects.map command.deselect_command)) := by
    unfold click_step
    cases hs : inp.shift
    · simp only [hc, Bool.not_false, Bool.and_self, if_true, Bool.false_eq_true, if_false]
      rw [deselect_loop_eq]
      rfl
    · simp only [hc, Bool.not_true, Bool.and_false, Bool.false_eq_true, if_false, if_true,
        List.append_nil]
      rfl
  rw [hcl]
  obtain ⟨h', b, a, bsel, -, i⟩ := objects_loop_flat inp e.ses.scene.objects
    (e.with_pc (e.pc ++ (if inp.shift then []
      else e.selected_objects.map command.deselect_command))) hnd h2 h3 h4 h5 h6 h7
  refine ⟨h', bsel, i, ?_⟩
  have a' : objects_loop inp (e.with_pc (e.pc ++ (if inp.shift then []
      else e.selected_objects.map command.deselect_command))).ses.scene.objects
      (e.with_pc (e.pc ++ (if inp.shift then []
        else e.selected_objects.map command.deselect_command))) = _ := a
  rw [a']
  refine (frame_tail_ses _ ?_ ?_ ?_).trans ?_
  · exact h5
  · exact h6
  · exact h7
  have hc' : (e.with_pc (e.pc ++ (if inp.shift then []
      else e.selected_objects.map command.deselect_command))).clicked = true := hc
  simp only [hc', if_true]
  rfl

theorem select_of_eq_map (hit : Option ObjId) :
    (select_of hit : List (command V M)) = hit.toList.map command.select_command := by
  cases hit <;> rfl

/-- The selected flags after the Deselects of `ds` and the Select of `hit`
have been executed in this order. -/
theorem execute_deselects_select (ds : List ObjId) (hit : Option ObjId) (s : Scene V M) :
    (execute_pack (ds.map command.deselect_command ++ select_of hit) s).objects = s.objects ∧
    ∀ o, ((execute_pack (ds.map command.deselect_command ++ select_of hit) s).heap o).selected
      = (decide (hit = some o) || (!decide (o ∈ ds) && (s.heap o).selected)) := by
  rw [execute_pack_append, select_of_eq_map]
  obtain ⟨a1, -, a3⟩ := execute_pack_flag (V := V) (M := M) command.deselect_command false
    (fun _ _ => rfl) ds s
  obtain ⟨b1, -, b3⟩ := execute_pack_flag (V := V) (M := M) command.select_command true
    (fun _ _ => rfl) hit.toList (execute_pack (ds.map command.deselect_command) s)
  refine ⟨by rw [b1, a1], ?_⟩
  intro o
  rw [b3 o, a3 o]
  cases hit with
  | none => by_cases h : o ∈ ds <;> simp [h]
  | some c =>
    by_cases hc : c = o
    · subst hc; simp
    · have hc' : ¬ o = c := fun h => hc h.symm
      by_cases h : o ∈ ds <;> simp [h, hc, hc']

/-- C12: in a frame whose only event is a left click, with no shift key held,
from a state between two frames with a duplicate-free live list: the
transaction the frame commits is the Deselects of the objects selected at the
start of the frame, in list order, followed by the Select of the first hit (if
any), and nothing is committed when that list is empty; the live list is
unchanged, and after the frame a live object is selected exactly when it is
the first hit (so none is when the click misses every object). -/
theorem C12_click_without_shift (d0 : selection_object V M) (inp : frame_input V M P)
    (e : editor V M P) (hb : e.between_frames)
    (hev : inp.events = [event.MouseButtonPressed mouse_button.Left])
    (hsh : inp.shift = false) (hnd : e.ses.scene.objects.Nodup) :
    (frame d0 inp e).ses.his =
      (if (e.selected_objects.map command.deselect_command
            ++ (select_of (first_hit inp e e.ses.scene.objects) : List (command V M))).isEmpty
       then e.ses.his
       else (history.put e.ses (.packed_command
          (e.selected_objects.map command.deselect_command
            ++ select_of (first_hit inp e e.ses.scene.objects)))).his) ∧
    (frame d0 inp e).ses.scene.objects = e.ses.scene.objects ∧
    ∀ o ∈ e.ses.scene.objects,
      (((frame d0 inp e).obj o).selected = true ↔
        first_hit inp e e.ses.scene.objects = some o) := by
  obtain ⟨hpc, b1, b2, b3, e1, e2, e3, -⟩ := hb
  have hh : handle_events d0 inp.events e = e.with_clicked true := by rw [hev]; rfl
  obtain ⟨h', bsel, -, hs⟩ := click_frame_ses inp (e.with_clicked true) hnd rfl b1 b2 b3 e1 e2 e3
  have hpc' : (e.with_clicked true).pc = [] := hpc
  simp only [hpc', hsh, List.nil_append, Bool.false_eq_true, if_false] at hs
  have hF : (frame d0 inp e).ses =
      if (e.selected_objects.map command.deselect_command
            ++ (select_of (first_hit inp e e.ses.scene.objects) : List (command V M))).isEmpty
      then e.ses.with_heap h'
      else history.put (e.ses.with_heap h') (.packed_command
          (e.selected_objects.map command.deselect_command
            ++ select_of (first_hit inp e e.ses.scene.objects))) := by
    rw [frame_eq, hh]
    exact hs
  have hobj : ∀ o, (frame d0 inp e).obj o = (frame d0 inp e).ses.scene.heap o := fun _ => rfl
  by_cases hT : (e.selected_objects.map command.deselect_command
      ++ (select_of (first_hit inp e e.ses.scene.objects) : List (command V M))).isEmpty = true
  · rw [if_pos hT] at hF
    rw [if_pos hT]
    have hnil := List.isEmpty_iff.mp hT
    obtain ⟨hD, hS⟩ := List.append_eq_nil.mp hnil
    have hsel : e.selected_objects = [] := List.map_eq_nil_iff.mp hD
    have hhit : first_hit inp e e.ses.scene.objects = none := by
      cases hf : first_hit inp e e.ses.scene.objects with
      | none => rfl
      | some c => rw [hf] at hS; exact absurd hS (by simp [select_of])
    refine ⟨by rw [hF]; rfl, by rw [hF]; rfl, ?_⟩
    intro o ho
    rw [hobj, hF, hhit]
    show (h' o).selected = true ↔ _
    rw [bsel o]
    constructor
    · intro h
      have : o ∈ e.selected_objects := List.mem_filter.mpr ⟨ho, h⟩
      rw [hsel] at this
      exact absurd this (List.not_mem_nil _)
    · intro h; exact absurd h (by simp)
  · rw [if_neg hT] at hF
    rw [if_neg hT]
    obtain ⟨c1, c2⟩ := put_scene_objects (e.ses.with_heap h')
      (e.selected_objects.map command.deselect_command
        ++ select_of (first_hit inp e e.ses.scene.objects))
    obtain ⟨d1, d2⟩ := execute_deselects_select e.selected_objects
      (first_hit inp e e.ses.scene.objects) (e.ses.with_heap h').scene
    refine ⟨by rw [hF, put_with_heap_his], by rw [hF, c1, d1]; rfl, ?_⟩
    intro o ho
    rw [hobj, hF, c2, d2 o]
    have hmem : o ∈ e.selected_objects ↔ (h' o).selected = true := by
      rw [bsel o]
      exact ⟨fun h => (List.mem_filter.mp h).2, fun h => List.mem_filter.mpr ⟨ho, h⟩⟩
    have hh' : ((e.ses.with_heap h').scene.heap o).selected = (h' o).selected := rfl
    rw [hh']
    by_cases hf : first_hit inp e e.ses.scene.objects = some o
    · simp [hf]
    · by_cases hm : o ∈ e.selected_objects
      · simp [hf, hm]
      · have : (h' o).selected = false := by
          cases hv : (h' o).selected
          · rfl
          · exact absurd (hmem.mpr hv) hm
        simp [hf, this]

/-- C12 at a concrete frame: objects 1 and 3 are selected, the click hits
objects 2 and 3; after the frame exactly object 2 is selected. -/
theorem C12_click_without_shift_witness :
    C4_editor.between_frames ∧ C4_editor.ses.scene.objects.Nodup ∧
    (frame C4_new_object (hit_frame [event.MouseButtonPressed mouse_button.Left] false 20)
        C4_editor).ses.his.commandlist
      = [.packed_command [.deselect_command 1, .deselect_command 3, .select_command 2]] ∧
    ∀ o ∈ C4_editor.ses.scene.objects,
      (((frame C4_new_object (hit_frame [event.MouseButtonPressed mouse_button.Left] false 20)
          C4_editor).obj o).selected = true ↔
        first_hit (hit_frame [event.MouseButtonPressed mouse_button.Left] false 20) C4_editor
          C4_editor.ses.scene.objects = some o) := by
  have hb : C4_editor.between_frames := by
    simp [editor.between_frames, C4_editor]
  have hnd : C4_editor.ses.scene.objects.Nodup := by decide
  have h := C12_click_without_shift C4_new_object
    (hit_frame [event.MouseButtonPressed mouse_button.Left] false 20) C4_editor hb rfl rfl hnd
  exact ⟨hb, hnd, by rw [h.1]; rfl, h.2.2⟩

theorem delete_loop_eq (ds : List ObjId) (e : editor V M P) :
    delete_loop ds e =
      e.with_pc (e.pc ++ (ds.filter (fun c => (e.obj c).selected)).map
        command.remove_command) := by
  induction ds generalizing e with
  | nil => simp [delete_loop, editor.with_pc]
  | cons d ds ih =>
    by_cases h : (e.obj d).selected = true
    · have h1 : delete_loop (d :: ds) e = delete_loop ds (e.pc_put (.remove_command d)) := by
        simp [delete_loop, h]
      rw [h1, ih]
      have ho : ∀ c, (e.pc_put (.remove_command d)).obj c = e.obj c := fun _ => rfl
      simp only [ho, List.filter_cons, h, if_true, List.map_cons]
      simp [editor.with_pc, editor.pc_put]
    · have h1 : delete_loop (d :: ds) e = delete_loop ds e := by
        simp [delete_loop, h]
      rw [h1, ih]
      simp [List.filter_cons, h]

/-- C19 (amended): commands queued into the per-frame transaction are not
applied when they are queued; `history::put` executes them, in generation
order, at the commit of the frame, after the loop over the objects.  In a frame
whose events are a Delete and then a left click, from a state between two
frames with a duplicate-free live list: handling the events leaves the session
(live list, attributes, history) as it was; the picking loop tests every
object of the live list of the start of the frame, the deleted ones included,
and the committed transaction is the Removes of the selected objects, their
Deselects unless shift is held, and the Select of the first hit among all of
them; the selected objects leave the live list at the commit, and the hit
object ends selected whether it was deleted or not. -/
theorem C19_queued_commands_execute_at_commit (d0 : selection_object V M)
    (inp : frame_input V M P) (e : editor V M P) (ctrl shift : Bool) (hb : e.between_frames)
    (hev : inp.events = [event.KeyPressed key_code.Delete ctrl shift,
      event.MouseButtonPressed mouse_button.Left])
    (hnd : e.ses.scene.objects.Nodup) :
    (handle_events d0 inp.events e).ses = e.ses ∧
    (frame d0 inp e).ses.his =
      (if (e.selected_objects.map command.remove_command
            ++ (if inp.shift then [] else e.selected_objects.map command.deselect_command)
            ++ (select_of (first_hit inp e e.ses.scene.objects) : List (command V M))).isEmpty
       then e.ses.his
       else (history.put e.ses (.packed_command
          (e.selected_objects.map command.remove_command
            ++ (if inp.shift then [] else e.selected_objects.map command.deselect_command)
            ++ select_of (first_hit inp e e.ses.scene.objects)))).his) ∧
    (frame d0 inp e).ses.scene.objects
      = e.ses.scene.objects.filter (fun c => !(e.obj c).selected) ∧
    ∀ c, first_hit inp e e.ses.scene.objects = some c →
      ((frame d0 inp e).obj c).selected = true := by
  obtain ⟨hpc, b1, b2, b3, e1, e2, e3, -⟩ := hb
  have hh : handle_events d0 inp.events e =
      (e.with_pc (e.selected_objects.map command.remove_command)).with_clicked true := by
    rw [hev]
    simp only [handle_events, event_handler, key_pressed]
    rw [delete_loop_eq, hpc]
    rfl
  obtain ⟨h', bsel, -, hs⟩ := click_frame_ses inp
    ((e.with_pc (e.selected_objects.map command.remove_command)).with_clicked true)
    hnd rfl b1 b2 b3 e1 e2 e3
  have hF : (frame d0 inp e).ses =
      if (e.selected_objects.map command.remove_command
            ++ (if inp.shift then [] else e.selected_objects.map command.deselect_command)
            ++ (select_of (first_hit inp e e.ses.scene.objects) : List (command V M))).isEmpty
      then e.ses.with_heap h'
      else history.put (e.ses.with_heap h') (.packed_command
          (e.selected_objects.map command.remove_command
            ++ (if inp.shift then [] else e.selected_objects.map command.deselect_command)
            ++ select_of (first_hit inp e e.ses.scene.objects))) := by
    rw [frame_eq, hh]
    exact hs
  have hobj : ∀ o, (frame d0 inp e).obj o = (frame d0 inp e).ses.scene.heap o := fun _ => rfl
  have hD : (if inp.shift then [] else e.selected_objects.map command.deselect_command)
      = ((if inp.shift then [] else e.selected_objects).map command.deselect_command :
          List (command V M)) := by
    cases inp.shift <;> rfl
  refine ⟨by rw [hh]; rfl, ?_⟩
  by_cases hT : (e.selected_objects.map command.remove_command
      ++ (if inp.shift then [] else e.selected_objects.map command.deselect_command)
      ++ (select_of (first_hit inp e e.ses.scene.objects) : List (command V M))).isEmpty = true
  · rw [if_pos hT] at hF
    rw [if_pos hT]
    have hnil := List.isEmpty_iff.mp hT
    obtain ⟨hRD, hS⟩ := List.append_eq_nil.mp hnil
    obtain ⟨hR, -⟩ := List.append_eq_nil.mp hRD
    have hsel : e.selected_objects = [] := List.map_eq_nil_iff.mp hR
    have hhit : first_hit inp e e.ses.scene.objects = none := by
      cases hf : first_hit inp e e.ses.scene.objects with
      | none => rfl
      | some c => rw [hf] at hS; exact absurd hS (by simp [select_of])
    refine ⟨by rw [hF]; rfl, ?_, ?_⟩
    · rw [hF]
      show e.ses.scene.objects = _
      symm
      rw [List.filter_eq_self]
      intro a ha
      cases hv : (e.obj a).selected
      · rfl
      · have : a ∈ e.selected_objects := List.mem_filter.mpr ⟨ha, hv⟩
        rw [hsel] at this
        exact absurd this (List.not_mem_nil _)
    · intro c hc
      rw [hhit] at hc
      exact absurd hc (by simp)
  · rw [if_neg hT] at hF
    rw [if_neg hT]
    have hL : e.selected_objects.map command.remove_command
        ++ (if inp.shift then [] else e.selected_objects.map command.deselect_command)
        ++ (select_of (first_hit inp e e.ses.scene.objects) : List (command V M))
        = e.selected_objects.map command.remove_command
          ++ ((if inp.shift then [] else e.selected_objects).map command.deselect_command
            ++ select_of (first_hit inp e e.ses.scene.objects)) := by
      rw [List.append_assoc, hD]
    obtain ⟨c1, c2⟩ := put_scene_objects (e.ses.with_heap h')
      (e.selected_objects.map command.remove_command
        ++ ((if inp.shift then [] else e.selected_objects).map command.deselect_command
          ++ select_of (first_hit inp e e.ses.scene.objects)))
    rw [execute_pack_append, execute_pack_removes] at c1 c2
    obtain ⟨d1, d2⟩ := execute_deselects_select (if inp.shift then [] else e.selected_objects)
      (first_hit inp e e.ses.scene.objects)
      { (e.ses.with_heap h').scene with
        objects := (e.ses.with_heap h').scene.objects.diff e.selected_objects }
    refine ⟨by rw [hF, put_with_heap_his], ?_, ?_⟩
    · rw [hF, hL, c1, d1]
      exact diff_filter_self (fun c => (e.obj c).selected) e.ses.scene.objects
    · intro c hc
      rw [hobj, hF, hL, c2, d2 c, hc]
      simp

/-- C19 refuted: objects 1 and 3 are selected and the ray hits object 1 only.
In a frame whose events are Delete and then a left click, the picking loop
tests the deleted object 1 and queues a Select for it: the committed
transaction ends with that Select, and object 1, no longer in the live list,
is selected. -/
theorem C19_counterexample :
    (frame C4_new_object
      ({ hit_frame [event.KeyPressed key_code.Delete false false,
            event.MouseButtonPressed mouse_button.Left] false 0 with
          intersects := fun _ o => decide (o.translate_vec = 10) })
      C4_editor).ses.his.commandlist
      = [.packed_command [.remove_command 1, .remove_command 3, .deselect_command 1,
          .deselect_command 3, .select_command 1]] ∧
    (frame C4_new_object
      ({ hit_frame [event.KeyPressed key_code.Delete false false,
            event.MouseButtonPressed mouse_button.Left] false 0 with
          intersects := fun _ o => decide (o.translate_vec = 10) })
      C4_editor).ses.scene.objects = [2] ∧
    ((frame C4_new_object
      ({ hit_frame [event.KeyPressed key_code.Delete false false,
            event.MouseButtonPressed mouse_button.Left] false 0 with
          intersects := fun _ o => decide (o.translate_vec = 10) })
      C4_editor).obj 1).selected = true := by
  refine ⟨by rfl, by decide, by decide⟩

/-- C19 (amended) at a concrete frame: Delete and a click that hits objects 2
and 3 while 1 and 3 are selected; the Select is queued for object 2 and the
live list after the commit is [2]. -/
theorem C19_queued_commands_execute_at_commit_witness :
    C4_editor.between_frames ∧ C4_editor.ses.scene.objects.Nodup ∧
    (frame C4_new_object
      (hit_frame [event.KeyPressed key_code.Delete false false,
        event.MouseButtonPressed mouse_button.Left] false 20)
      C4_editor).ses.his.commandlist
      = [.packed_command [.remove_command 1, .remove_command 3, .deselect_command 1,
          .deselect_command 3, .select_command 2]] ∧
    (frame C4_new_object
      (hit_frame [event.KeyPressed key_code.Delete false false,
        event.MouseButtonPressed mouse_button.Left] false 20)
      C4_editor).ses.scene.objects = [2] := by
  have hb : C4_editor.between_frames := by
    simp [editor.between_frames, C4_editor]
  have hnd : C4_editor.ses.scene.objects.Nodup := by decide
  have h := C19_queued_commands_execute_at_commit C4_new_object
    (hit_frame [event.KeyPressed key_code.Delete false false,
      event.MouseButtonPressed mouse_button.Left] false 20) C4_editor false false hb rfl hnd
  exact ⟨hb, hnd, by rw [h.2.1]; rfl, by rw [h.2.2.1]; rfl⟩

/-! ### Cut and paste (C13, C14) -/

/-- In a frame without begin, end or click flags the loop over the objects
only writes attributes of selected objects of the list, never a selected flag,
and nothing at all when no gesture is Active. -/
theorem objects_loop_quiet_frame (inp : frame_input V M P) (cs : List ObjId)
    (e : editor V M P) (h1 : e.clicked = false) (h2 : e.translate_begin = false)
    (h3 : e.rotate_begin = false) (h4 : e.scale_begin = false)
    (h5 : e.translate_end = false) (h6 : e.rotate_end = false) (h7 : e.scale_end = false) :
    ∃ h', objects_loop inp cs e = e.with_heap h' ∧
      (∀ o, (h' o).selected = (e.obj o).selected) ∧
      (∀ o, o ∉ cs → h' o = e.obj o) ∧
      (∀ o, (e.obj o).selected = false → h' o = e.obj o) ∧
      (e.idle → h' = e.ses.scene.heap) := by
  induction cs generalizing e with
  | nil =>
    exact ⟨e.ses.scene.heap, rfl, fun _ => rfl, fun _ _ => rfl, fun _ _ => rfl, fun _ => rfl⟩
  | cons c cs ih =>
    have hstep : object_step inp e c =
        if (e.obj c).selected then action_step inp (end_step (begin_step e c)) c else e := by
      rw [object_step_eq, pick_step_not_clicked inp e c h1]
    obtain ⟨g, a, b, d, i⟩ := object_branch_flat inp e c h2 h3 h4 h5 h6 h7
    rw [← hstep] at a
    have dsel : ∀ o, (e.obj o).selected = false → g o = e.obj o := by
      intro o ho
      by_cases hoc : o = c
      · subst hoc
        have hs : object_step inp e o = e := by
          rw [hstep, if_neg (by rw [ho]; exact Bool.false_ne_true)]
        rw [hs] at a
        have := congrArg (fun x : editor V M P => x.ses.scene.heap o) a
        exact this.symm
      · exact d o hoc
    obtain ⟨g', a', b', d', s', i'⟩ := ih (e.with_heap g) h1 h2 h3 h4 h5 h6 h7
    refine ⟨g', ?_, ?_, ?_, ?_, ?_⟩
    · simp only [objects_loop]
      rw [a, a']
      rfl
    · intro o
      rw [b' o]
      exact b o
    · intro o ho
      rw [d' o (fun h => ho (List.mem_cons_of_mem _ h))]
      exact d o (fun h => ho (h ▸ List.mem_cons_self _ _))
    · intro o ho
      rw [s' o (by show (g o).selected = false; rw [b o]; exact ho)]
      exact dsel o ho
    · intro hi
      rw [i' hi]
      exact i hi.1 hi.2.1 hi.2.2

/-- The loop of Ctrl+X when every listed object was allocated before: it
queues a Remove per selected object, in list order, and only writes fresh
store cells. -/
theorem cut_loop_flat (cs : List ObjId) (e : editor V M P) (hf : ∀ c ∈ cs, c < e.next_ptr) :
    ∃ h' n buf, cut_loop cs e =
        ((e.with_heap h').with_pc (e.pc ++ (cs.filter (fun c => (e.obj c).selected)).map
          command.remove_command)).with_buffer n buf ∧
      ∀ o, o < e.next_ptr → h' o = e.obj o := by
  induction cs generalizing e with
  | nil =>
    refine ⟨e.ses.scene.heap, e.next_ptr, e.selection_buffer, ?_, fun _ _ => rfl⟩
    simp [cut_loop, editor.with_heap, editor.with_pc, editor.with_buffer]
  | cons c cs ih =>
    have hf' : ∀ d ∈ cs, d < e.next_ptr := fun d hd => hf d (List.mem_cons_of_mem _ hd)
    by_cases h : (e.obj c).selected = true
    · have h1 : cut_loop (c :: cs) e = cut_loop cs
          (((e.with_heap (Function.update e.ses.scene.heap e.next_ptr (e.obj c))).with_pc
            (e.pc ++ [.remove_command c])).with_buffer (e.next_ptr + 1)
              (e.selection_buffer ++ [e.next_ptr])) := by
        simp only [cut_loop, h, if_true]
        rfl
      obtain ⟨h'', n, buf, a, b⟩ := ih
        (((e.with_heap (Function.update e.ses.scene.heap e.next_ptr (e.obj c))).with_pc
            (e.pc ++ [.remove_command c])).with_buffer (e.next_ptr + 1)
              (e.selection_buffer ++ [e.next_ptr]))
        (fun d hd => Nat.lt_succ_of_lt (hf' d hd))
      have hobj : ∀ d, d < e.next_ptr →
          (((e.with_heap (Function.update e.ses.scene.heap e.next_ptr (e.obj c))).with_pc
            (e.pc ++ [.remove_command c])).with_buffer (e.next_ptr + 1)
              (e.selection_buffer ++ [e.next_ptr])).obj d = e.obj d := by
        intro d hd
        show Function.update e.ses.scene.heap e.next_ptr (e.obj c) d = _
        rw [Function.update_noteq (Nat.ne_of_lt hd)]
        rfl
      have hfil : cs.filter (fun d =>
          ((((e.with_heap (Function.update e.ses.scene.heap e.next_ptr (e.obj c))).with_pc
            (e.pc ++ [.remove_command c])).with_buffer (e.next_ptr + 1)
              (e.selection_buffer ++ [e.next_ptr])).obj d).selected)
          = cs.filter (fun d => (e.obj d).selected) :=
        List.filter_congr (fun d hd => by rw [hobj d (hf' d hd)])
      rw [hfil] at a
      refine ⟨h'', n, buf, ?_, ?_⟩
      · rw [h1, a]
        simp [editor.with_heap, editor.with_pc, editor.with_buffer, List.filter_cons, h]
      · intro o ho
        rw [b o (Nat.lt_succ_of_lt ho)]
        exact hobj o ho
    · have h1 : cut_loop (c :: cs) e = cut_loop cs e := by
        simp [cut_loop, h]
      obtain ⟨h'', n, buf, a, b⟩ := ih e hf'
      refine ⟨h'', n, buf, ?_, b⟩
      rw [h1, a]
      simp [List.filter_cons, h]

theorem unexecute_pack_removes (rs : List ObjId) (s : Scene V M) :
    unexecute_pack (rs.map command.remove_command) s = { s with objects := s.objects ++ rs } := by
  induction rs generalizing s with
  | nil => simp [unexecute_pack]
  | cons r rs ih =>
    simp only [List.map_cons, unexecute_pack, command.unexecute]
    rw [ih]
    simp

/-- Undoing a transaction right after it was put unexecutes it on the scene
the put left. -/
theorem undo_put_scene (x : Session V M) (t : command V M) (hr : x.his.in_range) :
    (history.undo (history.put x t)).scene = t.unexecute (history.put x t).scene := by
  have hget := put_getElem_ptr x t hr
  have h0 : 0 ≤ (history.put x t).his.ptr := by
    rw [put_ptr]
    have := hr.1
    omega
  rw [undo_step (history.put x t) t h0 (by rw [put_ptr]; exact hget)]

theorem filter_not_selected_of_none (p : ObjId → Bool) (l : List ObjId)
    (h : l.filter p = []) : l.filter (fun c => !p c) = l := by
  rw [List.filter_eq_self]
  intro a ha
  cases hv : p a
  · rfl
  · have : a ∈ l.filter p := List.mem_filter.mpr ⟨ha, hv⟩
    rw [h] at this
    exact absurd this (List.not_mem_nil _)

/-- C14 (amended): in a frame whose only event is Ctrl+X, from a state between
two frames in which the history cursor is in range and every live object was
allocated before (its pointer is below the next pointer of `new`): after the
frame the live list is the old one without the selected objects, the
unselected ones in their order; and when at least one object was selected, a
following `history.undo` appends the cut objects to that list, every object of
the old live list then has the selected flag it had before the frame, the
translation, rotation and scale it had at the commit of the frame, and, when
no gesture is Active in the frame, those it had before the frame. -/
theorem C14_cut_then_undo (d0 : selection_object V M) (inp : frame_input V M P)
    (e : editor V M P) (shift : Bool) (hb : e.between_frames)
    (hev : inp.events = [event.KeyPressed key_code.X true shift])
    (hr : e.ses.his.in_range) (hf : ∀ c ∈ e.ses.scene.objects, c < e.next_ptr) :
    (frame d0 inp e).ses.scene.objects
      = e.ses.scene.objects.filter (fun c => !(e.obj c).selected) ∧
    (e.selected_objects ≠ [] →
      (history.undo (frame d0 inp e).ses).scene.objects
        = e.ses.scene.objects.filter (fun c => !(e.obj c).selected) ++ e.selected_objects ∧
      ∀ o ∈ e.ses.scene.objects,
        ((history.undo (frame d0 inp e).ses).scene.heap o).selected = (e.obj o).selected ∧
        (history.undo (frame d0 inp e).ses).scene.heap o = (frame d0 inp e).obj o ∧
        (e.idle → (history.undo (frame d0 inp e).ses).scene.heap o = e.obj o)) := by
  obtain ⟨hpc, b1, b2, b3, e1, e2, e3, hc⟩ := hb
  obtain ⟨h', n, buf, a, b⟩ := cut_loop_flat e.ses.scene.objects e.clear_buffer hf
  have hpc' : e.clear_buffer.pc = [] := hpc
  rw [hpc', List.nil_append] at a
  have hh : handle_events d0 inp.events e =
      ((e.clear_buffer.with_heap h').with_pc
        (e.selected_objects.map command.remove_command)).with_buffer n buf := by
    rw [hev]
    exact a
  obtain ⟨e0, he0⟩ : ∃ e0, e0 = ((e.clear_buffer.with_heap h').with_pc
      (e.selected_objects.map command.remove_command)).with_buffer n buf := ⟨_, rfl⟩
  rw [← he0] at hh
  have g1 : e0.clicked = false := by rw [he0]; exact hc
  have g2 : e0.translate_begin = false := by rw [he0]; exact b1
  have g3 : e0.rotate_begin = false := by rw [he0]; exact b2
  have g4 : e0.scale_begin = false := by rw [he0]; exact b3
  have g5 : e0.translate_end = false := by rw [he0]; exact e1
  have g6 : e0.rotate_end = false := by rw [he0]; exact e2
  have g7 : e0.scale_end = false := by rw [he0]; exact e3
  have gi : e.idle → e0.idle := by rw [he0]; exact fun h => h
  have gpc : e0.pc = e.selected_objects.map command.remove_command := by rw [he0]; rfl
  have gses : e0.ses = e.clear_buffer.ses.with_heap h' := by rw [he0]; rfl
  obtain ⟨g, la, lb, -, -, li⟩ := objects_loop_quiet_frame inp e0.ses.scene.objects e0
    g1 g2 g3 g4 g5 g6 g7
  have hF : (frame d0 inp e).ses =
      if (e.selected_objects.map (command.remove_command (V := V) (M := M))).isEmpty
      then e.clear_buffer.ses.with_heap g
      else history.put (e.clear_buffer.ses.with_heap g)
        (.packed_command (e.selected_objects.map command.remove_command)) := by
    rw [frame_eq, hh, click_step_not_clicked inp e0 g1, la,
      frame_tail_ses (e0.with_heap g) g5 g6 g7]
    show (if e0.pc.isEmpty then e0.ses.with_heap g
      else history.put (e0.ses.with_heap g) (.packed_command e0.pc)) = _
    rw [gpc, gses]
    rfl
  have hgsel : ∀ o ∈ e.ses.scene.objects, (g o).selected = (e.obj o).selected := by
    intro o ho
    rw [lb o]
    show ((e0.ses).scene.heap o).selected = _
    rw [gses]
    show (h' o).selected = _
    rw [b o (hf o ho)]
    rfl
  have hgidle : e.idle → ∀ o ∈ e.ses.scene.objects, g o = e.obj o := by
    intro hi o ho
    rw [li (gi hi), gses]
    show h' o = _
    rw [b o (hf o ho)]
    rfl
  by_cases hT : (e.selected_objects.map (command.remove_command (V := V) (M := M))).isEmpty
      = true
  · rw [if_pos hT] at hF
    have hsel : e.selected_objects = [] := List.map_eq_nil_iff.mp (List.isEmpty_iff.mp hT)
    refine ⟨?_, fun h => absurd hsel h⟩
    rw [hF]
    show e.ses.scene.objects = _
    exact (filter_not_selected_of_none (fun c => (e.obj c).selected) _ hsel).symm
  · rw [if_neg hT] at hF
    have hr' : (e.clear_buffer.ses.with_heap g).his.in_range := hr
    obtain ⟨c1, c2⟩ := put_scene_objects (e.clear_buffer.ses.with_heap g)
      (e.selected_objects.map command.remove_command)
    rw [execute_pack_removes] at c1 c2
    have hobjs : (frame d0 inp e).ses.scene.objects
        = e.ses.scene.objects.filter (fun c => !(e.obj c).selected) := by
      rw [hF, c1]
      exact diff_filter_self (fun c => (e.obj c).selected) e.ses.scene.objects
    refine ⟨hobjs, fun _ => ?_⟩
    have hu : (history.undo (frame d0 inp e).ses).scene
        = { (frame d0 inp e).ses.scene with
            objects := (frame d0 inp e).ses.scene.objects ++ e.selected_objects } := by
      rw [hF, undo_put_scene _ _ hr']
      simp only [command.unexecute]
      rw [unexecute_pack_removes]
    rw [hu]
    refine ⟨by rw [hobjs], ?_⟩
    intro o ho
    have hheap : (frame d0 inp e).ses.scene.heap o = g o := by
      rw [hF, c2]
      rfl
    refine ⟨?_, rfl, fun hi => ?_⟩
    · show ((frame d0 inp e).ses.scene.heap o).selected = _
      rw [hheap]
      exact hgsel o ho
    · show (frame d0 inp e).ses.scene.heap o = _
      rw [hheap]
      exact hgidle hi o ho

/-- C14 at a concrete frame: objects 1 and 3 are cut; undo puts them back
behind object 2, with their translations 10 and 30 and still selected. -/
theorem C14_cut_then_undo_witness :
    C4_editor.between_frames ∧ C4_editor.ses.his.in_range ∧
    (∀ c ∈ C4_editor.ses.scene.objects, c < C4_editor.next_ptr) ∧
    (frame C4_new_object (C4_frame [event.KeyPressed key_code.X true false])
      C4_editor).ses.scene.objects = [2] ∧
    (history.undo (frame C4_new_object (C4_frame [event.KeyPressed key_code.X true false])
      C4_editor).ses).scene.objects = [2, 1, 3] ∧
    ∀ o ∈ C4_editor.ses.scene.objects,
      (history.undo (frame C4_new_object (C4_frame [event.KeyPressed key_code.X true false])
        C4_editor).ses).scene.heap o = C4_editor.obj o := by
  have hb : C4_editor.between_frames := by
    simp [editor.between_frames, C4_editor]
  have hi : C4_editor.idle := ⟨rfl, rfl, rfl⟩
  have hr : C4_editor.ses.his.in_range := by
    unfold history.in_range
    decide
  have hf : ∀ c ∈ C4_editor.ses.scene.objects, c < C4_editor.next_ptr := by decide
  have h := C14_cut_then_undo C4_new_object (C4_frame [event.KeyPressed key_code.X true false])
    C4_editor false hb rfl hr hf
  have hs : C4_editor.selected_objects ≠ [] := by decide
  exact ⟨hb, hr, hf, by rw [h.1]; rfl, by rw [(h.2 hs).1]; rfl,
    fun o ho => ((h.2 hs).2 o ho).2.2 hi⟩

/-- The loop of Ctrl+C when every listed object was allocated before: the
buffer gains one fresh pointer per selected object, in list order, each
holding a copy of its source. -/
theorem copy_loop_flat (cs : List ObjId) (e : editor V M P) (hf : ∀ c ∈ cs, c < e.next_ptr) :
    ∃ h', copy_loop cs e =
        (e.with_heap h').with_buffer
          (e.next_ptr + (cs.filter (fun c => (e.obj c).selected)).length)
          (e.selection_buffer ++ List.range' e.next_ptr
            (cs.filter (fun c => (e.obj c).selected)).length) ∧
      (∀ o, o < e.next_ptr → h' o = e.obj o) ∧
      (∀ i s, (cs.filter (fun c => (e.obj c).selected))[i]? = some s →
        h' (e.next_ptr + i) = e.obj s) := by
  induction cs generalizing e with
  | nil =>
    refine ⟨e.ses.scene.heap, ?_, fun _ _ => rfl, ?_⟩
    · simp [copy_loop, editor.with_heap, editor.with_buffer]
    · intro i s h
      simp at h
  | cons c cs ih =>
    have hf' : ∀ d ∈ cs, d < e.next_ptr := fun d hd => hf d (List.mem_cons_of_mem _ hd)
    by_cases h : (e.obj c).selected = true
    · obtain ⟨e', he'⟩ : ∃ e', e' =
          (e.with_heap (Function.update e.ses.scene.heap e.next_ptr (e.obj c))).with_buffer
            (e.next_ptr + 1) (e.selection_buffer ++ [e.next_ptr]) := ⟨_, rfl⟩
      have h1 : copy_loop (c :: cs) e = copy_loop cs e' := by
        rw [he']
        simp only [copy_loop, h, if_true]
        rfl
      have hn : e'.next_ptr = e.next_ptr + 1 := by rw [he']; rfl
      have hb : e'.selection_buffer = e.selection_buffer ++ [e.next_ptr] := by rw [he']; rfl
      have hobj : ∀ d, d < e.next_ptr → e'.obj d = e.obj d := by
        intro d hd
        rw [he']
        show Function.update e.ses.scene.heap e.next_ptr (e.obj c) d = _
        rw [Function.update_noteq (Nat.ne_of_lt hd)]
        rfl
      have hnew : e'.obj e.next_ptr = e.obj c := by
        rw [he']
        show Function.update e.ses.scene.heap e.next_ptr (e.obj c) e.next_ptr = _
        rw [Function.update_same]
      have hfil : cs.filter (fun d => (e'.obj d).selected)
          = cs.filter (fun d => (e.obj d).selected) :=
        List.filter_congr (fun d hd => by rw [hobj d (hf' d hd)])
      obtain ⟨h'', a, b, g⟩ := ih e' (fun d hd => by rw [hn]; exact Nat.lt_succ_of_lt (hf' d hd))
      rw [hfil, hn, hb] at a
      rw [hfil, hn] at g
      rw [hn] at b
      refine ⟨h'', ?_, ?_, ?_⟩
      · rw [h1, a, he']
        simp only [List.filter_cons, h, if_true, List.length_cons, List.range'_succ,
          List.append_assoc, List.singleton_append]
        have : e.next_ptr + 1 + (cs.filter (fun c => (e.obj c).selected)).length
            = e.next_ptr + ((cs.filter (fun c => (e.obj c).selected)).length + 1) := by
          rw [Nat.add_assoc, Nat.add_comm 1 _]
        rw [this]
        rfl
      · intro o ho
        rw [b o (Nat.lt_succ_of_lt ho)]
        exact hobj o ho
      · intro i s hs
        simp only [List.filter_cons, h, if_true] at hs
        cases i with
        | zero =>
          simp only [List.getElem?_cons_zero, Option.some.injEq] at hs
          subst hs
          rw [Nat.add_zero, b _ (Nat.lt_succ_self _)]
          exact hnew
        | succ i =>
          simp only [List.getElem?_cons_succ] at hs
          have := g i s hs
          rw [show e.next_ptr + (i + 1) = e.next_ptr + 1 + i by
            rw [Nat.add_assoc, Nat.add_comm 1 i], this]
          have hs' : s ∈ cs.filter (fun d => (e.obj d).selected) := List.getElem?_mem hs
          exact hobj s (hf' s (List.mem_filter.mp hs').1)
    · have h1 : copy_loop (c :: cs) e = copy_loop cs e := by
        simp [copy_loop, h]
      obtain ⟨h'', a, b, g⟩ := ih e hf'
      refine ⟨h'', ?_, b, ?_⟩
      · rw [h1, a]
        simp [List.filter_cons, h]
      · intro i s hs
        simp only [List.filter_cons, h, if_false] at hs
        exact g i s hs

/-- The loop of Ctrl+V when every buffer entry was allocated before: one fresh
pointer per entry, in buffer order, holding a copy of the entry with the
selected flag cleared, and an Add queued for it; the buffer is not written. -/
theorem paste_loop_flat (bs : List ObjId) (e : editor V M P) (hf : ∀ b ∈ bs, b < e.next_ptr) :
    ∃ h', paste_loop bs e =
        ((e.with_heap h').with_pc
          (e.pc ++ (List.range' e.next_ptr bs.length).map command.add_command)).with_buffer
          (e.next_ptr + bs.length) e.selection_buffer ∧
      (∀ o, o < e.next_ptr → h' o = e.obj o) ∧
      (∀ i b, bs[i]? = some b →
        h' (e.next_ptr + i) = { e.obj b with selected := false }) := by
  induction bs generalizing e with
  | nil =>
    refine ⟨e.ses.scene.heap, ?_, fun _ _ => rfl, ?_⟩
    · simp [paste_loop, editor.with_heap, editor.with_pc, editor.with_buffer]
    · intro i s h
      simp at h
  | cons c cs ih =>
    have hf' : ∀ d ∈ cs, d < e.next_ptr := fun d hd => hf d (List.mem_cons_of_mem _ hd)
    obtain ⟨e', he'⟩ : ∃ e', e' =
        ((e.with_heap (Function.update e.ses.scene.heap e.next_ptr
            { e.obj c with selected := false })).with_pc
          (e.pc ++ [.add_command e.next_ptr])).with_buffer
          (e.next_ptr + 1) e.selection_buffer := ⟨_, rfl⟩
    have h1 : paste_loop (c :: cs) e = paste_loop cs e' := by
      rw [he']
      simp only [paste_loop, editor.alloc, editor.set_obj, editor.pc_put, editor.obj,
        editor.with_heap, editor.with_pc, editor.with_buffer, Function.update_same,
        Function.update_idem]
    have hn : e'.next_ptr = e.next_ptr + 1 := by rw [he']; rfl
    have hb : e'.selection_buffer = e.selection_buffer := by rw [he']; rfl
    have hp : e'.pc = e.pc ++ [.add_command e.next_ptr] := by rw [he']; rfl
    have hobj : ∀ d, d < e.next_ptr → e'.obj d = e.obj d := by
      intro d hd
      rw [he']
      show Function.update e.ses.scene.heap e.next_ptr _ d = _
      rw [Function.update_noteq (Nat.ne_of_lt hd)]
      rfl
    have hnew : e'.obj e.next_ptr = { e.obj c with selected := false } := by
      rw [he']
      show Function.update e.ses.scene.heap e.next_ptr _ e.next_ptr = _
      rw [Function.update_same]
    obtain ⟨h'', a, b, g⟩ := ih e' (fun d hd => by rw [hn]; exact Nat.lt_succ_of_lt (hf' d hd))
    rw [hn, hb, hp] at a
    rw [hn] at g b
    refine ⟨h'', ?_, ?_, ?_⟩
    · rw [h1, a, he']
      simp only [List.length_cons, List.range'_succ, List.map_cons, List.append_assoc,
        List.singleton_append]
      have : e.next_ptr + 1 + cs.length = e.next_ptr + (cs.length + 1) := by
        rw [Nat.add_assoc, Nat.add_comm 1 _]
      rw [this]
      rfl
    · intro o ho
      rw [b o (Nat.lt_succ_of_lt ho)]
      exact hobj o ho
    · intro i s hs
      cases i with
      | zero =>
        simp only [List.getElem?_cons_zero, Option.some.injEq] at hs
        subst hs
        rw [Nat.add_zero, b _ (Nat.lt_succ_self _)]
        exact hnew
      | succ i =>
        simp only [List.getElem?_cons_succ] at hs
        have := g i s hs
        rw [show e.next_ptr + (i + 1) = e.next_ptr + 1 + i by
          rw [Nat.add_assoc, Nat.add_comm 1 i], this]
        rw [hobj s (hf' s (List.getElem?_mem hs))]

theorem execute_pack_adds (ns : List ObjId) (s : Scene V M) :
    execute_pack (ns.map command.add_command) s = { s with objects := s.objects ++ ns } := by
  induction ns generalizing s with
  | nil => simp [execute_pack]
  | cons r rs ih =>
    simp only [List.map_cons, execute_pack, command.execute]
    rw [ih]
    simp

/-- The fields the part of the frame after the loop over the objects leaves
alone. -/
theorem frame_tail_fields (e : editor V M P) :
    (reset_step (stamp_step (activate_step (commit_step (warp_step e))))).selection_buffer
      = e.selection_buffer ∧
    (reset_step (stamp_step (activate_step (commit_step (warp_step e))))).next_ptr
      = e.next_ptr ∧
    (e.translate_begin = false → e.rotate_begin = false → e.scale_begin = false → e.idle →
      (reset_step (stamp_step (activate_step (commit_step (warp_step e))))).idle) := by
  refine ⟨?_, ?_, ?_⟩
  · simp only [reset_step, stamp_step, activate_step, commit_step, warp_step]
    split_ifs <;> rfl
  · simp only [reset_step, stamp_step, activate_step, commit_step, warp_step]
    split_ifs <;> rfl
  · intro b1 b2 b3 hi
    obtain ⟨i1, i2, i3⟩ := hi
    simp only [editor.idle, reset_step, stamp_step, activate_step, commit_step, warp_step]
    split_ifs <;> simp_all

theorem frame_tail_between (e : editor V M P) :
    (reset_step (stamp_step (activate_step (commit_step (warp_step e))))).between_frames := by
  unfold editor.between_frames
  refine ⟨?_, rfl, rfl, rfl, rfl, rfl, rfl, rfl⟩
  show (commit_step (warp_step e)).pc = []
  unfold commit_step
  split
  · rename_i h
    exact List.isEmpty_iff.mp h
  · rfl

/-- The frame of a Ctrl+C, from a state between two frames: the clipboard is
replaced by fresh copies of the selected objects; the frame writes no selected
flag and, apart from the copies, only attributes of selected live objects when
a gesture is Active. -/
theorem copy_frame_spec (d0 : selection_object V M) (inp : frame_input V M P)
    (e : editor V M P) (shift : Bool) (hb : e.between_frames)
    (hev : inp.events = [event.KeyPressed key_code.C true shift])
    (hf : ∀ c ∈ e.ses.scene.objects, c < e.next_ptr) :
    (frame d0 inp e).ses.scene.objects = e.ses.scene.objects ∧
    (frame d0 inp e).selection_buffer = List.range' e.next_ptr e.selected_objects.length ∧
    (frame d0 inp e).next_ptr = e.next_ptr + e.selected_objects.length ∧
    (frame d0 inp e).between_frames ∧ (e.idle → (frame d0 inp e).idle) ∧
    (∀ o, o < e.next_ptr → ((frame d0 inp e).obj o).selected = (e.obj o).selected) ∧
    (∀ o, o < e.next_ptr → ((e.obj o).selected = false ∨ e.idle) →
      (frame d0 inp e).obj o = e.obj o) ∧
    (∀ i s, e.selected_objects[i]? = some s → (frame d0 inp e).obj (e.next_ptr + i) = e.obj s) := by
  obtain ⟨hpc, b1, b2, b3, e1, e2, e3, hc⟩ := hb
  obtain ⟨h', a, b, g⟩ := copy_loop_flat e.ses.scene.objects e.clear_buffer hf
  obtain ⟨e0, he0⟩ : ∃ e0, e0 = (e.clear_buffer.with_heap h').with_buffer
      (e.next_ptr + e.selected_objects.length)
      (List.range' e.next_ptr e.selected_objects.length) := ⟨_, rfl⟩
  have hh : handle_events d0 inp.events e = e0 := by
    rw [hev, he0]
    refine a.trans ?_
    show (e.clear_buffer.with_heap h').with_buffer _ ([] ++ _) = _
    rw [List.nil_append]
    rfl
  have g1 : e0.clicked = false := by rw [he0]; exact hc
  have g2 : e0.translate_begin = false := by rw [he0]; exact b1
  have g3 : e0.rotate_begin = false := by rw [he0]; exact b2
  have g4 : e0.scale_begin = false := by rw [he0]; exact b3
  have g5 : e0.translate_end = false := by rw [he0]; exact e1
  have g6 : e0.rotate_end = false := by rw [he0]; exact e2
  have g7 : e0.scale_end = false := by rw [he0]; exact e3
  have gi : e.idle → e0.idle := by rw [he0]; exact fun h => h
  have gpc : e0.pc = [] := by rw [he0]; exact hpc
  have gheap : e0.ses.scene.heap = h' := by rw [he0]; rfl
  have gobjs : e0.ses.scene.objects = e.ses.scene.objects := by rw [he0]; rfl
  obtain ⟨k, la, lb, ld, ls, li⟩ := objects_loop_quiet_frame inp e0.ses.scene.objects e0
    g1 g2 g3 g4 g5 g6 g7
  have hfr : frame d0 inp e
      = reset_step (stamp_step (activate_step (commit_step (warp_step (e0.with_heap k))))) := by
    rw [frame_eq, hh, click_step_not_clicked inp e0 g1, la]
  have hF : (frame d0 inp e).ses = e0.ses.with_heap k := by
    rw [hfr, frame_tail_ses (e0.with_heap k) g5 g6 g7]
    show (if e0.pc.isEmpty then e0.ses.with_heap k
      else history.put (e0.ses.with_heap k) (.packed_command e0.pc)) = _
    rw [gpc]
    rfl
  obtain ⟨t1, t2, t3⟩ := frame_tail_fields (e0.with_heap k)
  have hobj : ∀ o, (frame d0 inp e).obj o = k o := by
    intro o
    show (frame d0 inp e).ses.scene.heap o = _
    rw [hF]
    rfl
  have hk0 : ∀ o, e0.obj o = h' o := fun o => by
    show e0.ses.scene.heap o = _
    rw [gheap]
  refine ⟨by rw [hF]; exact gobjs, by rw [hfr, t1, he0]; rfl, by rw [hfr, t2, he0]; rfl,
    by rw [hfr]; exact frame_tail_between _, ?_, ?_, ?_, ?_⟩
  · intro hi
    rw [hfr]
    exact t3 g2 g3 g4 (gi hi)
  · intro o ho
    rw [hobj, lb o, hk0, b o ho]
    rfl
  · intro o ho hsel
    rw [hobj]
    rcases hsel with hsel | hsel
    · rw [ls o (by rw [hk0, b o ho]; exact hsel), hk0, b o ho]
      rfl
    · rw [li (gi hsel), gheap, b o ho]
      rfl
  · intro i s hs
    rw [hobj, ld _ (fun hm => ?_), hk0]
    · exact g i s hs
    · rw [gobjs] at hm
      exact absurd (hf _ hm) (Nat.not_lt.mpr (Nat.le_add_right _ _))

/-- The frame of a Ctrl+V, from a state between two frames in which every
buffer entry and every live object was allocated before and no buffer entry is
live: one fresh object per buffer entry joins the live list at the commit; the
frame writes no selected flag of an older object and, apart from the new
objects, only attributes of selected live objects when a gesture is Active. -/
theorem paste_frame_spec (d0 : selection_object V M) (inp : frame_input V M P)
    (e : editor V M P) (shift : Bool) (hb : e.between_frames)
    (hev : inp.events = [event.KeyPressed key_code.V true shift])
    (hf : ∀ c ∈ e.selection_buffer, c < e.next_ptr)
    (hfo : ∀ c ∈ e.ses.scene.objects, c < e.next_ptr) :
    (frame d0 inp e).ses.scene.objects
      = e.ses.scene.objects ++ List.range' e.next_ptr e.selection_buffer.length ∧
    (frame d0 inp e).selection_buffer = e.selection_buffer ∧
    (∀ o, o < e.next_ptr → ((frame d0 inp e).obj o).selected = (e.obj o).selected) ∧
    (∀ o, o < e.next_ptr →
      (o ∉ e.ses.scene.objects ∨ (e.obj o).selected = false ∨ e.idle) →
      (frame d0 inp e).obj o = e.obj o) ∧
    (∀ i b, e.selection_buffer[i]? = some b →
      (frame d0 inp e).obj (e.next_ptr + i) = { e.obj b with selected := false }) := by
  obtain ⟨hpc, b1, b2, b3, e1, e2, e3, hc⟩ := hb
  obtain ⟨h', a, b, g⟩ := paste_loop_flat e.selection_buffer e hf
  obtain ⟨e0, he0⟩ : ∃ e0, e0 = ((e.with_heap h').with_pc
      ((List.range' e.next_ptr e.selection_buffer.length).map command.add_command)).with_buffer
      (e.next_ptr + e.selection_buffer.length) e.selection_buffer := ⟨_, rfl⟩
  have hh : handle_events d0 inp.events e = e0 := by
    rw [hev, he0]
    refine a.trans ?_
    rw [hpc, List.nil_append]
  have g1 : e0.clicked = false := by rw [he0]; exact hc
  have g2 : e0.translate_begin = false := by rw [he0]; exact b1
  have g3 : e0.rotate_begin = false := by rw [he0]; exact b2
  have g4 : e0.scale_begin = false := by rw [he0]; exact b3
  have g5 : e0.translate_end = false := by rw [he0]; exact e1
  have g6 : e0.rotate_end = false := by rw [he0]; exact e2
  have g7 : e0.scale_end = false := by rw [he0]; exact e3
  have gi : e.idle → e0.idle := by rw [he0]; exact fun h => h
  have gpc : e0.pc = (List.range' e.next_ptr e.selection_buffer.length).map
      command.add_command := by rw [he0]; rfl
  have gses : e0.ses = e.ses.with_heap h' := by rw [he0]; rfl
  have gheap : e0.ses.scene.heap = h' := by rw [he0]; rfl
  have gobjs : e0.ses.scene.objects = e.ses.scene.objects := by rw [he0]; rfl
  obtain ⟨k, la, lb, ld, ls, li⟩ := objects_loop_quiet_frame inp e0.ses.scene.objects e0
    g1 g2 g3 g4 g5 g6 g7
  have hfr : frame d0 inp e
      = reset_step (stamp_step (activate_step (commit_step (warp_step (e0.with_heap k))))) := by
    rw [frame_eq, hh, click_step_not_clicked inp e0 g1, la]
  have hF : (frame d0 inp e).ses =
      if ((List.range' e.next_ptr e.selection_buffer.length).map
          (command.add_command (V := V) (M := M))).isEmpty
      then e.ses.with_heap k
      else history.put (e.ses.with_heap k) (.packed_command
        ((List.range' e.next_ptr e.selection_buffer.length).map command.add_command)) := by
    rw [hfr, frame_tail_ses (e0.with_heap k) g5 g6 g7]
    show (if e0.pc.isEmpty then e0.ses.with_heap k
      else history.put (e0.ses.with_heap k) (.packed_command e0.pc)) = _
    rw [gpc, gses]
    rfl
  obtain ⟨t1, -, -⟩ := frame_tail_fields (e0.with_heap k)
  have hscene : (frame d0 inp e).ses.scene.objects
        = e.ses.scene.objects ++ List.range' e.next_ptr e.selection_buffer.length ∧
      (frame d0 inp e).ses.scene.heap = k := by
    by_cases hT : ((List.range' e.next_ptr e.selection_buffer.length).map
        (command.add_command (V := V) (M := M))).isEmpty = true
    · rw [if_pos hT] at hF
      have hnil : List.range' e.next_ptr e.selection_buffer.length = [] :=
        List.map_eq_nil_iff.mp (List.isEmpty_iff.mp hT)
      rw [hF, hnil, List.append_nil]
      exact ⟨rfl, rfl⟩
    · rw [if_neg hT] at hF
      obtain ⟨c1, c2⟩ := put_scene_objects (e.ses.with_heap k)
        ((List.range' e.next_ptr e.selection_buffer.length).map command.add_command)
      rw [execute_pack_adds] at c1 c2
      rw [hF, c1, c2]
      exact ⟨rfl, rfl⟩
  have hobj : ∀ o, (frame d0 inp e).obj o = k o := by
    intro o
    show (frame d0 inp e).ses.scene.heap o = _
    rw [hscene.2]
  have hk0 : ∀ o, e0.obj o = h' o := fun o => by
    show e0.ses.scene.heap o = _
    rw [gheap]
  refine ⟨hscene.1, by rw [hfr, t1, he0]; rfl, ?_, ?_, ?_⟩
  · intro o ho
    rw [hobj, lb o, hk0, b o ho]
  · intro o ho hsel
    rw [hobj]
    rcases hsel with hsel | hsel | hsel
    · rw [ld o (by rw [gobjs]; exact hsel), hk0, b o ho]
    · rw [ls o (by rw [hk0, b o ho]; exact hsel), hk0, b o ho]
    · rw [li (gi hsel), gheap, b o ho]
  · intro i s hs
    rw [hobj, ld _ (fun hm => ?_), hk0]
    · exact g i s hs
    · rw [gobjs] at hm
      exact absurd (hfo _ hm) (Nat.not_lt.mpr (Nat.le_add_right _ _))

/-- Copy then paste: a frame whose only event is Ctrl+C followed by a frame
whose only event is Ctrl+V, from a state between two frames in which every
live object was allocated before (its pointer is below the next pointer of
`new`).  After the commit of the paste frame the live list is the old one followed by one new
pointer per selected entry of the live list at the copy, in list order; the
object behind the `i`-th new pointer has the translation, rotation and scale
the `i`-th selected object had at the copy and its selected flag is false; the
new pointers are pairwise distinct and none is in the old live list or in the
clipboard; every object of the old live list keeps its selected flag, and
keeps all its attributes when it is unselected or no gesture is Active (an
Active gesture moves the selected objects in these frames); every clipboard
entry (a copy of its source made by the copy frame) holds after the paste what
it held before it. -/
theorem copy_then_paste_per_entry (d0 : selection_object V M) (cp pa : frame_input V M P)
    (e : editor V M P) (s1 s2 : Bool) (hb : e.between_frames)
    (hcp : cp.events = [event.KeyPressed key_code.C true s1])
    (hpa : pa.events = [event.KeyPressed key_code.V true s2])
    (hf : ∀ c ∈ e.ses.scene.objects, c < e.next_ptr) :
    (frame d0 pa (frame d0 cp e)).ses.scene.objects
      = e.ses.scene.objects
        ++ List.range' (e.next_ptr + e.selected_objects.length) e.selected_objects.length ∧
    (∀ i s, e.selected_objects[i]? = some s →
      (frame d0 pa (frame d0 cp e)).obj (e.next_ptr + e.selected_objects.length + i)
        = { e.obj s with selected := false }) ∧
    ((List.range' (e.next_ptr + e.selected_objects.length) e.selected_objects.length).Nodup ∧
      ∀ p ∈ List.range' (e.next_ptr + e.selected_objects.length) e.selected_objects.length,
        p ∉ e.ses.scene.objects ∧ p ∉ (frame d0 cp e).selection_buffer) ∧
    (∀ o ∈ e.ses.scene.objects,
      ((frame d0 pa (frame d0 cp e)).obj o).selected = (e.obj o).selected ∧
      (((e.obj o).selected = false ∨ e.idle) → (frame d0 pa (frame d0 cp e)).obj o = e.obj o)) ∧
    ((frame d0 cp e).selection_buffer = List.range' e.next_ptr e.selected_objects.length ∧
      (∀ i s, e.selected_objects[i]? = some s → (frame d0 cp e).obj (e.next_ptr + i) = e.obj s) ∧
      (frame d0 pa (frame d0 cp e)).selection_buffer = (frame d0 cp e).selection_buffer ∧
      ∀ b ∈ (frame d0 cp e).selection_buffer,
        (frame d0 pa (frame d0 cp e)).obj b = (frame d0 cp e).obj b) := by
  obtain ⟨c1, c2, c3, c4, c5, c6, c7, c8⟩ := copy_frame_spec d0 cp e s1 hb hcp hf
  have hbuf : ∀ b ∈ (frame d0 cp e).selection_buffer, b < (frame d0 cp e).next_ptr := by
    intro b hb'
    rw [c2] at hb'
    rw [c3]
    exact (List.mem_range'_1.mp hb').2
  have hfo : ∀ c ∈ (frame d0 cp e).ses.scene.objects, c < (frame d0 cp e).next_ptr := by
    intro c hc
    rw [c1] at hc
    rw [c3]
    exact Nat.lt_of_lt_of_le (hf c hc) (Nat.le_add_right _ _)
  obtain ⟨p1, p2, p3, p4, p5⟩ := paste_frame_spec d0 pa (frame d0 cp e) s2 c4 hpa hbuf hfo
  have hlen : (frame d0 cp e).selection_buffer.length = e.selected_objects.length := by
    rw [c2, List.length_range']
  rw [c1, c3, hlen] at p1
  rw [c3] at p3 p4 p5
  have hlt : ∀ o ∈ e.ses.scene.objects, o < e.next_ptr + e.selected_objects.length :=
    fun o ho => Nat.lt_of_lt_of_le (hf o ho) (Nat.le_add_right _ _)
  refine ⟨p1, ?_, ⟨List.nodup_range' _ _, ?_⟩, ?_, ⟨c2, c8, p2, ?_⟩⟩
  · intro i s hs
    have hi' : i < e.selected_objects.length := (List.getElem?_eq_some_iff.mp hs).1
    have hg : (frame d0 cp e).selection_buffer[i]? = some (e.next_ptr + i) := by
      rw [c2, List.getElem?_range' _ _ hi']
      simp
    rw [p5 i _ hg, c8 i s hs]
  · intro p hp
    have h1 := (List.mem_range'_1.mp hp).1
    refine ⟨fun hm => ?_, fun hm => ?_⟩
    · exact absurd (hlt p hm) (Nat.not_lt.mpr h1)
    · rw [c2] at hm
      exact absurd (List.mem_range'_1.mp hm).2 (Nat.not_lt.mpr h1)
  · intro o ho
    refine ⟨by rw [p3 o (hlt o ho), c6 o (hf o ho)], fun hsel => ?_⟩
    rw [p4 o (hlt o ho) ?_, c7 o (hf o ho) hsel]
    rcases hsel with hsel | hsel
    · exact Or.inr (Or.inl (by rw [c6 o (hf o ho)]; exact hsel))
    · exact Or.inr (Or.inr (c5 hsel))
  · intro b hb'
    refine p4 b (by rw [← c3]; exact hbuf b hb') (Or.inl ?_)
    rw [c1]
    intro hm
    rw [c2] at hb'
    exact absurd (hf b hm) (Nat.not_lt.mpr (List.mem_range'_1.mp hb').1)

/-- Copy then paste at concrete frames: objects 1 and 3 (translations 10 and
30) are selected; copy and paste add the objects 6 and 7 with these translations,
unselected. -/
theorem copy_then_paste_per_entry_witness :
    C4_editor.between_frames ∧
    (∀ c ∈ C4_editor.ses.scene.objects, c < C4_editor.next_ptr) ∧
    (frame C4_new_object (C4_frame [event.KeyPressed key_code.V true false])
      (frame C4_new_object (C4_frame [event.KeyPressed key_code.C true false])
        C4_editor)).ses.scene.objects = [1, 2, 3, 6, 7] ∧
    ∀ i s, C4_editor.selected_objects[i]? = some s →
      (frame C4_new_object (C4_frame [event.KeyPressed key_code.V true false])
        (frame C4_new_object (C4_frame [event.KeyPressed key_code.C true false])
          C4_editor)).obj (C4_editor.next_ptr + C4_editor.selected_objects.length + i)
        = { C4_editor.obj s with selected := false } := by
  have hb : C4_editor.between_frames := by
    simp [editor.between_frames, C4_editor]
  have hf : ∀ c ∈ C4_editor.ses.scene.objects, c < C4_editor.next_ptr := by decide
  have h := copy_then_paste_per_entry C4_new_object
    (C4_frame [event.KeyPressed key_code.C true false])
    (C4_frame [event.KeyPressed key_code.V true false]) C4_editor false false hb rfl rfl hf
  exact ⟨hb, hf, by rw [h.1]; rfl, h.2.1⟩

/-! ### The scale invariant (C16) -/

section scale_invariant
variable {F : Type} [LinearOrder F] [Zero F]

theorem scale_mono_refl (h : ObjId → selection_object (vec3 F) M) : scale_mono h h :=
  fun _ hp => hp

theorem scale_mono_trans {h1 h2 h3 : ObjId → selection_object (vec3 F) M}
    (a : scale_mono h1 h2) (b : scale_mono h2 h3) : scale_mono h1 h3 :=
  fun o hp => b o (a o hp)

theorem scale_mono_update (h : ObjId → selection_object (vec3 F) M) (o : ObjId)
    (v : selection_object (vec3 F) M) (hv : v.scale_vec.positive) :
    scale_mono h (Function.update h o v) := by
  intro o' hp
  by_cases ho : o' = o
  · subst ho; rw [Function.update_same]; exact hv
  · rw [Function.update_noteq ho]; exact hp

theorem scale_mono_modify (s : Scene (vec3 F) M) (o : ObjId)
    (f : selection_object (vec3 F) M → selection_object (vec3 F) M)
    (hf : (s.heap o).scale_vec.positive → (f (s.heap o)).scale_vec.positive) :
    scale_mono s.heap (s.modify o f).heap := by
  intro o' hp
  rw [modify_heap]
  by_cases ho : o' = o
  · subst ho; rw [if_pos rfl]; exact hf hp
  · rw [if_neg ho]; exact hp

theorem pack_scale_ok_iff (h : ObjId → selection_object (vec3 F) M)
    (L : List (command (vec3 F) M)) : pack_scale_ok h L ↔ ∀ c ∈ L, c.scale_ok h := by
  induction L with
  | nil => simp [pack_scale_ok]
  | cons c L ih => simp [pack_scale_ok, ih]

theorem pack_scale_ok_append (h : ObjId → selection_object (vec3 F) M)
    (a b : List (command (vec3 F) M)) :
    pack_scale_ok h (a ++ b) ↔ pack_scale_ok h a ∧ pack_scale_ok h b := by
  simp only [pack_scale_ok_iff, List.mem_append]
  constructor
  · intro H; exact ⟨fun c hc => H c (Or.inl hc), fun c hc => H c (Or.inr hc)⟩
  · rintro ⟨H1, H2⟩ c (hc | hc)
    · exact H1 c hc
    · exact H2 c hc

mutual
theorem scale_ok_mono : ∀ (c : command (vec3 F) M) (h h' : ObjId → selection_object (vec3 F) M),
    scale_mono h h' → c.scale_ok h → c.scale_ok h'
  | .packed_command pack, h, h', hm, hc => by
    simp only [command.scale_ok] at hc ⊢
    exact pack_scale_ok_mono pack h h' hm hc
  | .add_command o, _, _, hm, hc => hm o hc
  | .remove_command o, _, _, hm, hc => hm o hc
  | .select_command _, _, _, _, _ => trivial
  | .deselect_command _, _, _, _, _ => trivial
  | .translate_command _ _ _, _, _, _, _ => trivial
  | .rotate_command _ _ _, _, _, _, _ => trivial
  | .scale_command _ _ _, _, _, _, hc => hc
theorem pack_scale_ok_mono : ∀ (L : List (command (vec3 F) M))
    (h h' : ObjId → selection_object (vec3 F) M),
    scale_mono h h' → pack_scale_ok h L → pack_scale_ok h' L
  | [], _, _, _, _ => trivial
  | c :: cs, h, h', hm, hc =>
    ⟨scale_ok_mono c h h' hm hc.1, pack_scale_ok_mono cs h h' hm hc.2⟩
end

mutual
theorem execute_scale_ok : ∀ (c : command (vec3 F) M) (s : Scene (vec3 F) M),
    c.scale_ok s.heap → (∀ o ∈ s.objects, (s.heap o).scale_vec.positive) →
    scale_mono s.heap (c.execute s).heap ∧
    ∀ o ∈ (c.execute s).objects, ((c.execute s).heap o).scale_vec.positive
  | .packed_command pack, s, hc, ho => by
    simp only [command.scale_ok] at hc
    exact execute_pack_scale_ok pack s hc ho
  | .add_command o, s, hc, ho => by
    refine ⟨scale_mono_refl _, ?_⟩
    intro o' h'
    simp only [command.execute, List.mem_append, List.mem_singleton] at h'
    rcases h' with h' | h'
    · exact ho o' h'
    · subst h'; exact hc
  | .remove_command o, s, _, ho => by
    refine ⟨scale_mono_refl _, ?_⟩
    intro o' h'
    simp only [command.execute, erase_first_eq_erase] at h'
    exact ho o' (List.mem_of_mem_erase h')
  | .select_command o, s, _, ho => by
    have hm := scale_mono_modify s o (fun x => { x with selected := true }) (fun h => h)
    exact ⟨hm, fun o' h' => hm o' (ho o' h')⟩
  | .deselect_command o, s, _, ho => by
    have hm := scale_mono_modify s o (fun x => { x with selected := false }) (fun h => h)
    exact ⟨hm, fun o' h' => hm o' (ho o' h')⟩
  | .translate_command o _ e, s, _, ho => by
    have hm := scale_mono_modify s o (fun x => { x with translate_vec := e }) (fun h => h)
    exact ⟨hm, fun o' h' => hm o' (ho o' h')⟩
  | .rotate_command o _ e, s, _, ho => by
    have hm := scale_mono_modify s o (fun x => { x with rotation_mat := e }) (fun h => h)
    exact ⟨hm, fun o' h' => hm o' (ho o' h')⟩
  | .scale_command o _ e, s, hc, ho => by
    have hm := scale_mono_modify s o (fun x => { x with scale_vec := e }) (fun _ => hc.2)
    exact ⟨hm, fun o' h' => hm o' (ho o' h')⟩
theorem execute_pack_scale_ok : ∀ (L : List (command (vec3 F) M)) (s : Scene (vec3 F) M),
    pack_scale_ok s.heap L → (∀ o ∈ s.objects, (s.heap o).scale_vec.positive) →
    scale_mono s.heap (execute_pack L s).heap ∧
    ∀ o ∈ (execute_pack L s).objects, ((execute_pack L s).heap o).scale_vec.positive
  | [], _, _, ho => ⟨scale_mono_refl _, ho⟩
  | c :: cs, s, hc, ho => by
    obtain ⟨m1, o1⟩ := execute_scale_ok c s hc.1 ho
    obtain ⟨m2, o2⟩ := execute_pack_scale_ok cs (c.execute s)
      (pack_scale_ok_mono cs _ _ m1 hc.2) o1
    exact ⟨scale_mono_trans m1 m2, o2⟩
end

mutual
theorem unexecute_scale_ok : ∀ (c : command (vec3 F) M) (s : Scene (vec3 F) M),
    c.scale_ok s.heap → (∀ o ∈ s.objects, (s.heap o).scale_vec.positive) →
    scale_mono s.heap (c.unexecute s).heap ∧
    ∀ o ∈ (c.unexecute s).objects, ((c.unexecute s).heap o).scale_vec.positive
  | .packed_command pack, s, hc, ho => by
    simp only [command.scale_ok] at hc
    exact unexecute_pack_scale_ok pack s hc ho
  | .remove_command o, s, hc, ho => by
    refine ⟨scale_mono_refl _, ?_⟩
    intro o' h'
    simp only [command.unexecute, List.mem_append, List.mem_singleton] at h'
    rcases h' with h' | h'
    · exact ho o' h'
    · subst h'; exact hc
  | .add_command o, s, _, ho => by
    refine ⟨scale_mono_refl _, ?_⟩
    intro o' h'
    simp only [command.unexecute, erase_first_eq_erase] at h'
    exact ho o' (List.mem_of_mem_erase h')
  | .select_command o, s, _, ho => by
    have hm := scale_mono_modify s o (fun x => { x with selected := false }) (fun h => h)
    exact ⟨hm, fun o' h' => hm o' (ho o' h')⟩
  | .deselect_command o, s, _, ho => by
    have hm := scale_mono_modify s o (fun x => { x with selected := true }) (fun h => h)
    exact ⟨hm, fun o' h' => hm o' (ho o' h')⟩
  | .translate_command o st _, s, _, ho => by
    have hm := scale_mono_modify s o (fun x => { x with translate_vec := st }) (fun h => h)
    exact ⟨hm, fun o' h' => hm o' (ho o' h')⟩
  | .rotate_command o st _, s, _, ho => by
    have hm := scale_mono_modify s o (fun x => { x with rotation_mat := st }) (fun h => h)
    exact ⟨hm, fun o' h' => hm o' (ho o' h')⟩
  | .scale_command o st _, s, hc, ho => by
    have hm := scale_mono_modify s o (fun x => { x with scale_vec := st }) (fun _ => hc.1)
    exact ⟨hm, fun o' h' => hm o' (ho o' h')⟩
theorem unexecute_pack_scale_ok : ∀ (L : List (command (vec3 F) M)) (s : Scene (vec3 F) M),
    pack_scale_ok s.heap L → (∀ o ∈ s.objects, (s.heap o).scale_vec.positive) →
    scale_mono s.heap (unexecute_pack L s).heap ∧
    ∀ o ∈ (unexecute_pack L s).objects, ((unexecute_pack L s).heap o).scale_vec.positive
  | [], _, _, ho => ⟨scale_mono_refl _, ho⟩
  | c :: cs, s, hc, ho => by
    obtain ⟨m1, o1⟩ := unexecute_scale_ok c s hc.1 ho
    obtain ⟨m2, o2⟩ := unexecute_pack_scale_ok cs (c.unexecute s)
      (pack_scale_ok_mono cs _ _ m1 hc.2) o1
    exact ⟨scale_mono_trans m1 m2, o2⟩
end

mutual
theorem set_end_scale_ok : ∀ (c : command (vec3 F) M) (e : ObjId) (t : command_type)
    (s : Scene (vec3 F) M) (h : ObjId → selection_object (vec3 F) M),
    (s.heap e).scale_vec.positive → c.scale_ok h → (c.set_end e t s).scale_ok h
  | .packed_command pack, e, t, s, h, he, hc => by
    simp only [command.set_end, command.scale_ok] at hc ⊢
    exact set_end_pack_scale_ok pack e t s h he hc
  | .add_command _, _, _, _, _, _, hc => hc
  | .remove_command _, _, _, _, _, _, hc => hc
  | .select_command _, _, _, _, _, _, _ => trivial
  | .deselect_command _, _, _, _, _, _, _ => trivial
  | .translate_command _ _ _, _, _, _, _, _, _ => trivial
  | .rotate_command _ _ _, _, _, _, _, _, _ => trivial
  | .scale_command _ _ _, _, _, _, _, he, hc => ⟨hc.1, he⟩
theorem set_end_pack_scale_ok : ∀ (L : List (command (vec3 F) M)) (e : ObjId)
    (t : command_type) (s : Scene (vec3 F) M) (h : ObjId → selection_object (vec3 F) M),
    (s.heap e).scale_vec.positive → pack_scale_ok h L → pack_scale_ok h (set_end_pack L e t s)
  | [], _, _, _, _, _, _ => trivial
  | c :: cs, e, t, s, h, he, hc => by
    simp only [set_end_pack, pack_scale_ok]
    refine ⟨?_, set_end_pack_scale_ok cs e t s h he hc.2⟩
    split
    · exact set_end_scale_ok c e t s h he hc.1
    · exact hc.1
end

end scale_invariant

section scale_invariant
variable {F : Type} [LinearOrder F] [Zero F]

theorem undo_scale_inv (x : Session (vec3 F) M) (hx : x.scale_inv) :
    (history.undo x).scale_inv ∧ scale_mono x.scene.heap (history.undo x).scene.heap := by
  obtain ⟨ho, hc⟩ := hx
  have key : scale_mono x.scene.heap (history.undo x).scene.heap ∧
      ∀ o ∈ (history.undo x).scene.objects,
        ((history.undo x).scene.heap o).scale_vec.positive := by
    unfold history.undo
    simp only
    split
    · split
      · rename_i c hget
        exact unexecute_scale_ok c x.scene
          ((pack_scale_ok_iff _ _).mp hc c (List.getElem?_mem hget)) ho
      · exact ⟨scale_mono_refl _, ho⟩
    · exact ⟨scale_mono_refl _, ho⟩
  exact ⟨⟨key.2, pack_scale_ok_mono _ _ _ key.1 hc⟩, key.1⟩

theorem redo_scale_inv (x : Session (vec3 F) M) (hx : x.scale_inv) :
    (history.redo x).scale_inv ∧ scale_mono x.scene.heap (history.redo x).scene.heap := by
  obtain ⟨ho, hc⟩ := hx
  have key : (history.redo x).his.commandlist = x.his.commandlist ∧
      scale_mono x.scene.heap (history.redo x).scene.heap ∧
      ∀ o ∈ (history.redo x).scene.objects,
        ((history.redo x).scene.heap o).scale_vec.positive := by
    unfold history.redo
    simp only
    split
    · refine ⟨rfl, ?_⟩
      simp only
      split
      · split
        · rename_i c hget
          exact execute_scale_ok c x.scene
            ((pack_scale_ok_iff _ _).mp hc c (List.getElem?_mem hget)) ho
        · exact ⟨scale_mono_refl _, ho⟩
      · exact ⟨scale_mono_refl _, ho⟩
    · exact ⟨rfl, scale_mono_refl _, ho⟩
  exact ⟨⟨key.2.2, by rw [key.1]; exact pack_scale_ok_mono _ _ _ key.2.1 hc⟩, key.2.1⟩

theorem mem_resize_and_store (cl : List (command V M)) (n : Nat) (c d : command V M)
    (h : d ∈ resize_and_store cl n c) : d ∈ cl ∨ d = c := by
  unfold resize_and_store at h
  simp only at h
  split at h
  · rcases List.mem_or_eq_of_mem_set h with h | h
    · exact Or.inl (List.mem_of_mem_take h)
    · exact Or.inr h
  · rcases List.mem_append.mp h with h | h
    · exact Or.inl (List.mem_of_mem_take h)
    · exact Or.inr (List.mem_singleton.mp h)

theorem put_scale_inv (x : Session (vec3 F) M) (c : command (vec3 F) M) (hx : x.scale_inv)
    (hc : c.scale_ok x.scene.heap) :
    (history.put x c).scale_inv ∧ scale_mono x.scene.heap (history.put x c).scene.heap := by
  obtain ⟨ho, hl⟩ := hx
  have key : scale_mono x.scene.heap (history.put x c).scene.heap ∧
      ∀ o ∈ (history.put x c).scene.objects,
        ((history.put x c).scene.heap o).scale_vec.positive := by
    unfold history.put
    simp only
    rw [execute_with_freed]
    exact execute_scale_ok c x.scene hc ho
  refine ⟨⟨key.2, ?_⟩, key.1⟩
  rw [pack_scale_ok_iff]
  intro d hd
  rcases mem_resize_and_store _ _ _ _ hd with h | h
  · exact scale_ok_mono d _ _ key.1 ((pack_scale_ok_iff _ _).mp hl d h)
  · rw [h]; exact scale_ok_mono c _ _ key.1 hc

theorem set_end_loop_scale_ok (cl : List (command (vec3 F) M)) (o : ObjId) (ct : command_type)
    (s : Scene (vec3 F) M) (h : ObjId → selection_object (vec3 F) M) (n : Nat)
    (hp : (s.heap o).scale_vec.positive) (hl : pack_scale_ok h cl) :
    pack_scale_ok h (history.set_end_loop cl o ct s n) := by
  induction n with
  | zero => exact hl
  | succ n ih =>
    unfold history.set_end_loop
    split
    · rename_i c hget
      split
      · rw [pack_scale_ok_iff]
        intro d hd
        rcases List.mem_or_eq_of_mem_set hd with hd | hd
        · exact (pack_scale_ok_iff _ _).mp hl d hd
        · rw [hd]
          exact set_end_scale_ok c o ct s h hp
            ((pack_scale_ok_iff _ _).mp hl c (List.getElem?_mem hget))
      · exact ih
    · exact ih

theorem set_end_scale_inv (x : Session (vec3 F) M) (o : ObjId) (ct : command_type)
    (hx : x.scale_inv) (hp : (x.scene.heap o).scale_vec.positive) :
    (history.set_end x o ct).scale_inv := by
  obtain ⟨ho, hl⟩ := hx
  unfold history.set_end
  simp only
  split
  · exact ⟨ho, set_end_loop_scale_ok _ o ct x.scene _ _ hp hl⟩
  · exact ⟨ho, hl⟩

theorem set_end_loop_selected_scale_inv (ct : command_type) (cs : List ObjId)
    (x : Session (vec3 F) M) (hx : x.scale_inv)
    (hcs : ∀ c ∈ cs, (x.scene.heap c).scale_vec.positive) :
    (set_end_loop_selected ct cs x).scale_inv ∧
    (set_end_loop_selected ct cs x).scene = x.scene := by
  induction cs generalizing x with
  | nil => exact ⟨hx, rfl⟩
  | cons c cs ih =>
    unfold set_end_loop_selected
    split
    · have h1 := set_end_scale_inv x c ct hx (hcs c (List.mem_cons_self _ _))
      have h2 : (history.set_end x c ct).scene = x.scene := set_end_scene x c ct
      obtain ⟨a, b⟩ := ih (history.set_end x c ct) h1
        (fun d hd => by rw [h2]; exact hcs d (List.mem_cons_of_mem _ hd))
      exact ⟨a, b.trans h2⟩
    · exact ih x hx (fun d hd => hcs d (List.mem_cons_of_mem _ hd))

end scale_invariant

section scale_invariant
variable {F : Type} [LinearOrder F] [Zero F]

/-- A step that keeps the live list and the history, writes the store
monotonically, and adds to the buffer and the pack only what satisfies the
invariant, keeps the scale invariant. -/
theorem scale_inv_step (e e' : editor (vec3 F) M P) (he : e.scale_inv)
    (hobj : e'.ses.scene.objects = e.ses.scene.objects)
    (hhis : e'.ses.his.commandlist = e.ses.his.commandlist)
    (hm : scale_mono e.ses.scene.heap e'.ses.scene.heap)
    (hbuf : ∀ b ∈ e'.selection_buffer,
      b ∈ e.selection_buffer ∨ (e'.obj b).scale_vec.positive)
    (hpc : ∀ c ∈ e'.pc, c ∈ e.pc ∨ c.scale_ok e'.ses.scene.heap) : e'.scale_inv := by
  obtain ⟨⟨h1, h2⟩, h3, h4⟩ := he
  refine ⟨⟨?_, ?_⟩, ?_, ?_⟩
  · intro o ho
    rw [hobj] at ho
    exact hm o (h1 o ho)
  · rw [hhis]
    exact pack_scale_ok_mono _ _ _ hm h2
  · intro b hb
    rcases hbuf b hb with h | h
    · exact hm b (h3 b h)
    · exact h
  · rw [pack_scale_ok_iff]
    intro c hc
    rcases hpc c hc with h | h
    · exact scale_ok_mono c _ _ hm ((pack_scale_ok_iff _ _).mp h4 c h)
    · exact h

theorem pc_put_scale_inv (e : editor (vec3 F) M P) (c : command (vec3 F) M)
    (he : e.scale_inv) (hc : c.scale_ok e.ses.scene.heap) : (e.pc_put c).scale_inv := by
  refine scale_inv_step e (e.pc_put c) he rfl rfl (scale_mono_refl _) (fun b hb => Or.inl hb) ?_
  intro d hd
  rcases List.mem_append.mp hd with h | h
  · exact Or.inl h
  · rw [List.mem_singleton.mp h]; exact Or.inr hc

theorem copy_loop_scale_inv (cs : List ObjId) (e : editor (vec3 F) M P) (he : e.scale_inv)
    (hcs : ∀ c ∈ cs, (e.obj c).scale_vec.positive) :
    (copy_loop cs e).scale_inv ∧
    scale_mono e.ses.scene.heap (copy_loop cs e).ses.scene.heap := by
  induction cs generalizing e with
  | nil => exact ⟨he, scale_mono_refl _⟩
  | cons c cs ih =>
    have hc := hcs c (List.mem_cons_self _ _)
    by_cases h : (e.obj c).selected = true
    · obtain ⟨e', he'⟩ : ∃ e', e' =
          (e.with_heap (Function.update e.ses.scene.heap e.next_ptr (e.obj c))).with_buffer
            (e.next_ptr + 1) (e.selection_buffer ++ [e.next_ptr]) := ⟨_, rfl⟩
      have h1 : copy_loop (c :: cs) e = copy_loop cs e' := by
        rw [he']
        simp only [copy_loop, h, if_true]
        rfl
      have hm : scale_mono e.ses.scene.heap e'.ses.scene.heap := by
        rw [he']
        exact scale_mono_update _ _ _ hc
      have hi : e'.scale_inv := by
        refine scale_inv_step e e' he (by rw [he']; rfl) (by rw [he']; rfl) hm ?_ ?_
        · intro b hb
          rw [he'] at hb
          rcases List.mem_append.mp hb with h | h
          · exact Or.inl h
          · right
            rw [List.mem_singleton.mp h, he']
            show (Function.update e.ses.scene.heap e.next_ptr (e.obj c)
              e.next_ptr).scale_vec.positive
            rw [Function.update_same]
            exact hc
        · intro d hd
          rw [he'] at hd
          exact Or.inl hd
      obtain ⟨a, b⟩ := ih e' hi (fun d hd => hm d (hcs d (List.mem_cons_of_mem _ hd)))
      rw [h1]
      exact ⟨a, scale_mono_trans hm b⟩
    · have h1 : copy_loop (c :: cs) e = copy_loop cs e := by
        simp [copy_loop, h]
      rw [h1]
      exact ih e he (fun d hd => hcs d (List.mem_cons_of_mem _ hd))

theorem cut_loop_scale_inv (cs : List ObjId) (e : editor (vec3 F) M P) (he : e.scale_inv)
    (hcs : ∀ c ∈ cs, (e.obj c).scale_vec.positive) :
    (cut_loop cs e).scale_inv ∧
    scale_mono e.ses.scene.heap (cut_loop cs e).ses.scene.heap := by
  induction cs generalizing e with
  | nil => exact ⟨he, scale_mono_refl _⟩
  | cons c cs ih =>
    have hc := hcs c (List.mem_cons_self _ _)
    by_cases h : (e.obj c).selected = true
    · obtain ⟨e', he'⟩ : ∃ e', e' =
          ((e.with_heap (Function.update e.ses.scene.heap e.next_ptr (e.obj c))).with_pc
            (e.pc ++ [.remove_command c])).with_buffer (e.next_ptr + 1)
              (e.selection_buffer ++ [e.next_ptr]) := ⟨_, rfl⟩
      have h1 : cut_loop (c :: cs) e = cut_loop cs e' := by
        rw [he']
        simp only [cut_loop, h, if_true]
        rfl
      have hm : scale_mono e.ses.scene.heap e'.ses.scene.heap := by
        rw [he']
        exact scale_mono_update _ _ _ hc
      have hi : e'.scale_inv := by
        refine scale_inv_step e e' he (by rw [he']; rfl) (by rw [he']; rfl) hm ?_ ?_
        · intro b hb
          rw [he'] at hb
          rcases List.mem_append.mp hb with h | h
          · exact Or.inl h
          · right
            rw [List.mem_singleton.mp h, he']
            show (Function.update e.ses.scene.heap e.next_ptr (e.obj c)
              e.next_ptr).scale_vec.positive
            rw [Function.update_same]
            exact hc
        · intro d hd
          rw [he'] at hd
          rcases List.mem_append.mp hd with h | h
          · exact Or.inl h
          · right
            rw [List.mem_singleton.mp h]
            exact hm c hc
      obtain ⟨a, b⟩ := ih e' hi (fun d hd => hm d (hcs d (List.mem_cons_of_mem _ hd)))
      rw [h1]
      exact ⟨a, scale_mono_trans hm b⟩
    · have h1 : cut_loop (c :: cs) e = cut_loop cs e := by
        simp [cut_loop, h]
      rw [h1]
      exact ih e he (fun d hd => hcs d (List.mem_cons_of_mem _ hd))

theorem paste_loop_scale_inv (bs : List ObjId) (e : editor (vec3 F) M P) (he : e.scale_inv)
    (hbs : ∀ c ∈ bs, (e.obj c).scale_vec.positive) :
    (paste_loop bs e).scale_inv ∧
    scale_mono e.ses.scene.heap (paste_loop bs e).ses.scene.heap := by
  induction bs generalizing e with
  | nil => exact ⟨he, scale_mono_refl _⟩
  | cons c cs ih =>
    have hc := hbs c (List.mem_cons_self _ _)
    obtain ⟨e', he'⟩ : ∃ e', e' =
        ((e.with_heap (Function.update e.ses.scene.heap e.next_ptr
            { e.obj c with selected := false })).with_pc
          (e.pc ++ [.add_command e.next_ptr])).with_buffer
          (e.next_ptr + 1) e.selection_buffer := ⟨_, rfl⟩
    have h1 : paste_loop (c :: cs) e = paste_loop cs e' := by
      rw [he']
      simp only [paste_loop, editor.alloc, editor.set_obj, editor.pc_put, editor.obj,
        editor.with_heap, editor.with_pc, editor.with_buffer, Function.update_same,
        Function.update_idem]
    have hm : scale_mono e.ses.scene.heap e'.ses.scene.heap := by
      rw [he']
      exact scale_mono_update _ _ _ hc
    have hi : e'.scale_inv := by
      refine scale_inv_step e e' he (by rw [he']; rfl) (by rw [he']; rfl) hm ?_ ?_
      · intro b hb
        rw [he'] at hb
        exact Or.inl hb
      · intro d hd
        rw [he'] at hd
        rcases List.mem_append.mp hd with h | h
        · exact Or.inl h
        · right
          rw [List.mem_singleton.mp h, he']
          show (Function.update e.ses.scene.heap e.next_ptr
            { e.obj c with selected := false } e.next_ptr).scale_vec.positive
          rw [Function.update_same]
          exact hc
    obtain ⟨a, b⟩ := ih e' hi (fun d hd => hm d (hbs d (List.mem_cons_of_mem _ hd)))
    rw [h1]
    exact ⟨a, scale_mono_trans hm b⟩

/-- A loop that only queues commands which satisfy the invariant keeps it. -/
theorem queue_loop_scale_inv (loop : List ObjId → editor (vec3 F) M P → editor (vec3 F) M P)
    (q : editor (vec3 F) M P → ObjId → editor (vec3 F) M P)
    (hnil : ∀ e, loop [] e = e)
    (hcons : ∀ c cs e, loop (c :: cs) e = loop cs (q e c))
    (hq : ∀ e c, e.scale_inv → (e.obj c).scale_vec.positive →
      (q e c).scale_inv ∧ (q e c).ses.scene.heap = e.ses.scene.heap)
    (cs : List ObjId) (e : editor (vec3 F) M P) (he : e.scale_inv)
    (hcs : ∀ c ∈ cs, (e.obj c).scale_vec.positive) :
    (loop cs e).scale_inv ∧ (loop cs e).ses.scene.heap = e.ses.scene.heap := by
  induction cs generalizing e with
  | nil => rw [hnil]; exact ⟨he, rfl⟩
  | cons c cs ih =>
    rw [hcons]
    obtain ⟨a, b⟩ := hq e c he (hcs c (List.mem_cons_self _ _))
    obtain ⟨a', b'⟩ := ih (q e c) a (fun d hd => by
      show ((q e c).ses.scene.heap d).scale_vec.positive
      rw [b]
      exact hcs d (List.mem_cons_of_mem _ hd))
    exact ⟨a', b'.trans b⟩

theorem delete_loop_scale_inv (cs : List ObjId) (e : editor (vec3 F) M P) (he : e.scale_inv)
    (hcs : ∀ c ∈ cs, (e.obj c).scale_vec.positive) :
    (delete_loop cs e).scale_inv ∧ (delete_loop cs e).ses.scene.heap = e.ses.scene.heap := by
  refine queue_loop_scale_inv delete_loop
    (fun e c => if (e.obj c).selected then e.pc_put (.remove_command c) else e)
    (fun _ => rfl) ?_ ?_ cs e he hcs
  · intro c cs e
    by_cases h : (e.obj c).selected = true <;> simp [delete_loop, h]
  · intro e c he hc
    by_cases h : (e.obj c).selected = true
    · beta_reduce
      rw [if_pos h]
      exact ⟨pc_put_scale_inv e _ he hc, rfl⟩
    · beta_reduce
      rw [if_neg h]
      exact ⟨he, rfl⟩

theorem select_all_loop_scale_inv (cs : List ObjId) (e : editor (vec3 F) M P)
    (he : e.scale_inv) (hcs : ∀ c ∈ cs, (e.obj c).scale_vec.positive) :
    (select_all_loop cs e).scale_inv ∧
    (select_all_loop cs e).ses.scene.heap = e.ses.scene.heap := by
  refine queue_loop_scale_inv select_all_loop
    (fun e c => if (e.obj c).selected then e else e.pc_put (.select_command c))
    (fun _ => rfl) ?_ ?_ cs e he hcs
  · intro c cs e
    by_cases h : (e.obj c).selected = true <;> simp [select_all_loop, h]
  · intro e c he _
    by_cases h : (e.obj c).selected = true
    · beta_reduce
      rw [if_pos h]
      exact ⟨he, rfl⟩
    · beta_reduce
      rw [if_neg h]
      exact ⟨pc_put_scale_inv e _ he trivial, rfl⟩

theorem invert_loop_scale_inv (cs : List ObjId) (e : editor (vec3 F) M P)
    (he : e.scale_inv) (hcs : ∀ c ∈ cs, (e.obj c).scale_vec.positive) :
    (invert_loop cs e).scale_inv ∧ (invert_loop cs e).ses.scene.heap = e.ses.scene.heap := by
  refine queue_loop_scale_inv invert_loop
    (fun e c => if (e.obj c).selected then e.pc_put (.deselect_command c)
      else e.pc_put (.select_command c))
    (fun _ => rfl) ?_ ?_ cs e he hcs
  · intro c cs e
    by_cases h : (e.obj c).selected = true <;> simp [invert_loop, h]
  · intro e c he _
    by_cases h : (e.obj c).selected = true
    · beta_reduce
      rw [if_pos h]
      exact ⟨pc_put_scale_inv e _ he trivial, rfl⟩
    · beta_reduce
      rw [if_neg h]
      exact ⟨pc_put_scale_inv e _ he trivial, rfl⟩

theorem deselect_loop_scale_inv (cs : List ObjId) (e : editor (vec3 F) M P)
    (he : e.scale_inv) (hcs : ∀ c ∈ cs, (e.obj c).scale_vec.positive) :
    (deselect_loop cs e).scale_inv ∧
    (deselect_loop cs e).ses.scene.heap = e.ses.scene.heap := by
  refine queue_loop_scale_inv deselect_loop
    (fun e c => if (e.obj c).selected then e.pc_put (.deselect_command c) else e)
    (fun _ => rfl) ?_ ?_ cs e he hcs
  · intro c cs e
    by_cases h : (e.obj c).selected = true <;> simp [deselect_loop, h]
  · intro e c he _
    by_cases h : (e.obj c).selected = true
    · beta_reduce
      rw [if_pos h]
      exact ⟨pc_put_scale_inv e _ he trivial, rfl⟩
    · beta_reduce
      rw [if_neg h]
      exact ⟨he, rfl⟩

end scale_invariant

section scale_invariant
variable {F : Type} [LinearOrder F] [Zero F]

theorem set_obj_scale_inv (e : editor (vec3 F) M P) (c : ObjId)
    (v : selection_object (vec3 F) M) (he : e.scale_inv) (hv : v.scale_vec.positive) :
    (e.set_obj c v).scale_inv ∧ scale_mono e.ses.scene.heap (e.set_obj c v).ses.scene.heap := by
  have hm : scale_mono e.ses.scene.heap (e.set_obj c v).ses.scene.heap :=
    scale_mono_update _ _ _ hv
  exact ⟨scale_inv_step e (e.set_obj c v) he rfl rfl hm (fun b hb => Or.inl hb)
    (fun d hd => Or.inl hd), hm⟩

theorem with_ses_scale_inv (e e' : editor (vec3 F) M P) (he : e.scale_inv)
    (hx : e'.ses.scale_inv) (hm : scale_mono e.ses.scene.heap e'.ses.scene.heap)
    (hbuf : e'.selection_buffer = e.selection_buffer) (hpc : e'.pc = e.pc) : e'.scale_inv := by
  obtain ⟨-, h3, h4⟩ := he
  refine ⟨hx, ?_, ?_⟩
  · intro b hb
    rw [hbuf] at hb
    exact hm b (h3 b hb)
  · rw [hpc]
    exact pack_scale_ok_mono _ _ _ hm h4

theorem key_pressed_scale_inv (d0 : selection_object (vec3 F) M) (e : editor (vec3 F) M P)
    (code : key_code) (ctrl shift : Bool) (hd0 : d0.scale_vec.positive) (he : e.scale_inv) :
    (key_pressed d0 e code ctrl shift).scale_inv := by
  have hobjs : ∀ c ∈ e.ses.scene.objects, (e.obj c).scale_vec.positive := he.1.1
  have hclear : e.clear_buffer.scale_inv :=
    ⟨⟨he.1.1, he.1.2⟩, fun b hb => absurd hb (List.not_mem_nil _), he.2.2⟩
  cases code with
  | T => unfold key_pressed; simp only; split <;> exact he
  | R => unfold key_pressed; simp only; split <;> exact he
  | Y => unfold key_pressed; simp only; split <;> exact he
  | F => exact he
  | Space =>
    have h1 := set_obj_scale_inv e e.next_ptr d0 he hd0
    refine scale_inv_step e (key_pressed d0 e .Space ctrl shift) he rfl rfl h1.2
      (fun b hb => Or.inl hb) ?_
    intro d hd
    rcases List.mem_append.mp hd with h | h
    · exact Or.inl h
    · right
      rw [List.mem_singleton.mp h]
      show (Function.update e.ses.scene.heap e.next_ptr d0 e.next_ptr).scale_vec.positive
      rw [Function.update_same]
      exact hd0
  | Delete => exact (delete_loop_scale_inv _ e he hobjs).1
  | Z =>
    unfold key_pressed
    simp only
    split
    · split
      · obtain ⟨a, b⟩ := redo_scale_inv e.ses he.1
        exact with_ses_scale_inv e _ he a b rfl rfl
      · obtain ⟨a, b⟩ := undo_scale_inv e.ses he.1
        exact with_ses_scale_inv e _ he a b rfl rfl
    · exact he
  | C =>
    unfold key_pressed
    simp only
    split
    · exact (copy_loop_scale_inv _ e.clear_buffer hclear hobjs).1
    · exact he
  | X =>
    unfold key_pressed
    simp only
    split
    · exact (cut_loop_scale_inv _ e.clear_buffer hclear hobjs).1
    · exact he
  | V =>
    unfold key_pressed
    simp only
    split
    · exact (paste_loop_scale_inv _ e he he.2.1).1
    · exact he
  | A =>
    unfold key_pressed
    simp only
    split
    · exact (select_all_loop_scale_inv _ e he hobjs).1
    · exact he
  | I =>
    unfold key_pressed
    simp only
    split
    · exact (invert_loop_scale_inv _ e he hobjs).1
    · exact he
  | Num1 => exact he
  | Num2 => exact he
  | Num3 => exact he
  | Other => exact he

theorem event_handler_scale_inv (d0 : selection_object (vec3 F) M) (e : editor (vec3 F) M P)
    (ev : event P) (hd0 : d0.scale_vec.positive) (he : e.scale_inv) :
    (event_handler d0 e ev).scale_inv := by
  cases ev with
  | KeyPressed code ctrl shift => exact key_pressed_scale_inv d0 e code ctrl shift hd0 he
  | KeyReleased code => cases code <;> exact he
  | MouseMoved pos => exact he
  | MouseButtonPressed b => cases b <;> exact he
  | MouseButtonReleased b => exact he
  | Other => exact he

theorem handle_events_scale_inv (d0 : selection_object (vec3 F) M) (evs : List (event P))
    (e : editor (vec3 F) M P) (hd0 : d0.scale_vec.positive) (he : e.scale_inv) :
    (handle_events d0 evs e).scale_inv := by
  induction evs generalizing e with
  | nil => exact he
  | cons ev evs ih => exact ih _ (event_handler_scale_inv d0 e ev hd0 he)

theorem click_step_scale_inv (inp : frame_input (vec3 F) M P) (e : editor (vec3 F) M P)
    (he : e.scale_inv) : (click_step inp e).scale_inv := by
  unfold click_step
  split
  · exact (deselect_loop_scale_inv _ e he he.1.1).1
  · exact he

end scale_invariant

section scale_invariant
variable {F : Type} [LinearOrder F] [Zero F]

theorem pick_step_scale_inv (inp : frame_input (vec3 F) M P) (e : editor (vec3 F) M P)
    (c : ObjId) (he : e.scale_inv) : (pick_step inp e c).scale_inv := by
  unfold pick_step
  split
  · split
    · exact pc_put_scale_inv e _ he trivial
    · exact he
  · exact he

theorem begin_step_scale_inv (e : editor (vec3 F) M P) (c : ObjId) (he : e.scale_inv)
    (hc : (e.obj c).scale_vec.positive) : (begin_step e c).scale_inv := by
  have h1 : (if e.translate_begin && !e.translate_action then
      e.pc_put (.translate_command c (e.obj c).translate_vec (e.obj c).translate_vec)
      else e).scale_inv := by
    split
    · exact pc_put_scale_inv e _ he trivial
    · exact he
  have h2 : ∀ e1 : editor (vec3 F) M P, e1.scale_inv →
      (if e1.rotate_begin && !e1.rotate_action then
        e1.pc_put (.rotate_command c (e1.obj c).rotation_mat (e1.obj c).rotation_mat)
        else e1).scale_inv := by
    intro e1 h
    split
    · exact pc_put_scale_inv e1 _ h trivial
    · exact h
  have h3 : ∀ e2 : editor (vec3 F) M P, e2.scale_inv → (e2.obj c).scale_vec.positive →
      (if e2.scale_begin && !e2.scale_action then
        e2.pc_put (.scale_command c (e2.obj c).scale_vec (e2.obj c).scale_vec)
        else e2).scale_inv := by
    intro e2 h hp
    split
    · exact pc_put_scale_inv e2 _ h ⟨hp, hp⟩
    · exact h
  unfold begin_step
  refine h3 _ (h2 _ h1) ?_
  show ((if _ then _ else _ : editor (vec3 F) M P).ses.scene.heap c).scale_vec.positive
  rw [show ∀ e1 : editor (vec3 F) M P, (if e1.rotate_begin && !e1.rotate_action then
        e1.pc_put (.rotate_command c (e1.obj c).rotation_mat (e1.obj c).rotation_mat)
        else e1).ses = e1.ses from fun e1 => by split <;> rfl]
  rw [show (if e.translate_begin && !e.translate_action then
      e.pc_put (.translate_command c (e.obj c).translate_vec (e.obj c).translate_vec)
      else e).ses = e.ses from by split <;> rfl]
  exact hc

theorem action_step_scale_inv (inp : frame_input (vec3 F) M P) (e : editor (vec3 F) M P)
    (c : ObjId) (hstep : ∀ p v, (inp.scale_step p v).positive) (he : e.scale_inv)
    (hc : (e.obj c).scale_vec.positive) :
    (action_step inp e c).scale_inv ∧
    scale_mono e.ses.scene.heap (action_step inp e c).ses.scene.heap := by
  unfold action_step
  simp only
  split
  · exact set_obj_scale_inv e c _ he hc
  · split
    · exact set_obj_scale_inv e c _ he hc
    · split
      · exact set_obj_scale_inv e c _ he (hstep _ _)
      · exact ⟨he, scale_mono_refl _⟩

theorem object_step_scale_inv (inp : frame_input (vec3 F) M P) (e : editor (vec3 F) M P)
    (c : ObjId) (hstep : ∀ p v, (inp.scale_step p v).positive) (he : e.scale_inv)
    (hc : (e.obj c).scale_vec.positive) :
    (object_step inp e c).scale_inv ∧
    scale_mono e.ses.scene.heap (object_step inp e c).ses.scene.heap := by
  have hp := pick_step_scale_inv inp e c he
  have hps : (pick_step inp e c).ses = e.ses := pick_step_ses inp e c
  have hpc : ((pick_step inp e c).obj c).scale_vec.positive := by
    show ((pick_step inp e c).ses.scene.heap c).scale_vec.positive
    rw [hps]; exact hc
  rw [object_step_eq]
  split
  · have hb := begin_step_scale_inv (pick_step inp e c) c hp hpc
    have hbs : (begin_step (pick_step inp e c) c).ses = e.ses :=
      (begin_step_ses _ c).trans hps
    have hes : (end_step (begin_step (pick_step inp e c) c)).ses = e.ses := hbs
    have hei : (end_step (begin_step (pick_step inp e c) c)).scale_inv := hb
    obtain ⟨a, b⟩ := action_step_scale_inv inp _ c hstep hei (by
      show ((end_step (begin_step (pick_step inp e c) c)).ses.scene.heap c).scale_vec.positive
      rw [hes]; exact hc)
    rw [hes] at b
    exact ⟨a, b⟩
  · refine ⟨hp, ?_⟩
    rw [hps]
    exact scale_mono_refl _

theorem objects_loop_scale_inv (inp : frame_input (vec3 F) M P) (cs : List ObjId)
    (e : editor (vec3 F) M P) (hstep : ∀ p v, (inp.scale_step p v).positive)
    (he : e.scale_inv) (hcs : ∀ c ∈ cs, (e.obj c).scale_vec.positive) :
    (objects_loop inp cs e).scale_inv := by
  induction cs generalizing e with
  | nil => exact he
  | cons c cs ih =>
    obtain ⟨a, b⟩ := object_step_scale_inv inp e c hstep he (hcs c (List.mem_cons_self _ _))
    exact ih _ a (fun d hd => b d (hcs d (List.mem_cons_of_mem _ hd)))

theorem commit_step_scale_inv (e : editor (vec3 F) M P) (he : e.scale_inv) :
    (commit_step e).scale_inv := by
  unfold commit_step
  split
  · exact he
  · obtain ⟨a, b⟩ := put_scale_inv e.ses (.packed_command e.pc) he.1 he.2.2
    exact ⟨a, fun o ho => b o (he.2.1 o ho), trivial⟩

theorem stamp_step_scale_inv (e : editor (vec3 F) M P) (he : e.scale_inv) :
    (stamp_step e).scale_inv := by
  have key : ∀ (ct : command_type) (b : Bool) (x : Session (vec3 F) M), x.scale_inv →
      (if b then set_end_loop_selected ct x.scene.objects x else x).scale_inv ∧
      (if b then set_end_loop_selected ct x.scene.objects x else x).scene = x.scene := by
    intro ct b x hx
    cases b
    · exact ⟨hx, rfl⟩
    · exact set_end_loop_selected_scale_inv ct _ x hx hx.1
  obtain ⟨a1, b1⟩ := key .TRANSLATE e.translate_end e.ses he.1
  obtain ⟨a2, b2⟩ := key .ROTATE e.rotate_end _ a1
  obtain ⟨a3, b3⟩ := key .SCALE e.scale_end _ a2
  have hs : (stamp_step e).ses.scene = e.ses.scene := (b3.trans b2).trans b1
  refine ⟨a3, ?_, ?_⟩
  · intro b hb
    show ((stamp_step e).ses.scene.heap b).scale_vec.positive
    rw [hs]
    exact he.2.1 b hb
  · show pack_scale_ok (stamp_step e).ses.scene.heap e.pc
    rw [hs]
    exact he.2.2

theorem frame_scale_inv (d0 : selection_object (vec3 F) M) (inp : frame_input (vec3 F) M P)
    (e : editor (vec3 F) M P) (hd0 : d0.scale_vec.positive)
    (hstep : ∀ p v, (inp.scale_step p v).positive) (he : e.scale_inv) :
    (frame d0 inp e).scale_inv := by
  rw [frame_eq]
  have h1 := click_step_scale_inv inp _ (handle_events_scale_inv d0 inp.events e hd0 he)
  have h2 := objects_loop_scale_inv inp _ _ hstep h1 h1.1.1
  have h3 : (warp_step (objects_loop inp
      (click_step inp (handle_events d0 inp.events e)).ses.scene.objects
      (click_step inp (handle_events d0 inp.events e)))).scale_inv := h2
  have h4 := commit_step_scale_inv _ h3
  have h5 : (activate_step (commit_step (warp_step (objects_loop inp
      (click_step inp (handle_events d0 inp.events e)).ses.scene.objects
      (click_step inp (handle_events d0 inp.events e)))))).scale_inv := h4
  exact stamp_step_scale_inv _ h5

theorem run_frames_scale_inv (d0 : selection_object (vec3 F) M)
    (inputs : List (frame_input (vec3 F) M P)) (e : editor (vec3 F) M P)
    (hd0 : d0.scale_vec.positive)
    (hstep : ∀ inp ∈ inputs, ∀ p v, (inp.scale_step p v).positive) (he : e.scale_inv) :
    (run_frames d0 inputs e).scale_inv := by
  induction inputs generalizing e with
  | nil => exact he
  | cons inp inputs ih =>
    exact ih _ (fun i hi => hstep i (List.mem_cons_of_mem _ hi))
      (frame_scale_inv d0 inp e hd0 (hstep inp (List.mem_cons_self _ _)) he)

mutual
theorem scale_ok_of_mem_members : ∀ (c : command (vec3 F) M)
    (h : ObjId → selection_object (vec3 F) M), c.scale_ok h → ∀ d ∈ c.members, d.scale_ok h
  | .packed_command pack, h, hc, d, hd => by
    simp only [command.members, List.mem_cons] at hd
    rcases hd with hd | hd
    · rw [hd]; exact hc
    · simp only [command.scale_ok] at hc
      exact scale_ok_of_mem_members_pack pack h hc d hd
  | .add_command _, _, hc, d, hd => by
    rw [List.mem_singleton.mp hd]; exact hc
  | .remove_command _, _, hc, d, hd => by
    rw [List.mem_singleton.mp hd]; exact hc
  | .select_command _, _, hc, d, hd => by
    rw [List.mem_singleton.mp hd]; exact hc
  | .deselect_command _, _, hc, d, hd => by
    rw [List.mem_singleton.mp hd]; exact hc
  | .translate_command _ _ _, _, hc, d, hd => by
    rw [List.mem_singleton.mp hd]; exact hc
  | .rotate_command _ _ _, _, hc, d, hd => by
    rw [List.mem_singleton.mp hd]; exact hc
  | .scale_command _ _ _, _, hc, d, hd => by
    rw [List.mem_singleton.mp hd]; exact hc
theorem scale_ok_of_mem_members_pack : ∀ (L : List (command (vec3 F) M))
    (h : ObjId → selection_object (vec3 F) M), pack_scale_ok h L →
    ∀ d ∈ members_pack L, d.scale_ok h
  | [], _, _, d, hd => by simp [members_pack] at hd
  | c :: cs, h, hc, d, hd => by
    simp only [members_pack, List.mem_append] at hd
    rcases hd with hd | hd
    · exact scale_ok_of_mem_members c h hc.1 d hd
    · exact scale_ok_of_mem_members_pack cs h hc.2 d hd
end

/-- C16: in every state reached from the initial editor (no live object, empty
history) through any sequence of frames, with any events, whose Scale steps
are the step of the code in a `float` arithmetic in which `0 < 0.01`, and with
`selection_object()` constructing a positive scale (it constructs
`vec3( 1 )`): every component of the scale of every object of the live list is
strictly positive, and so is every component of the start-state and of the
end-state of every Scale command stored in the history, inside packed commands
at any depth. -/
theorem C16_scale_stays_positive (d0 : selection_object (vec3 F) M)
    (h0 : ObjId → selection_object (vec3 F) M) (p0 : vec2 F)
    (inputs : List (frame_input (vec3 F) M (vec2 F)))
    (hd0 : d0.scale_vec.positive)
    (hin : ∀ inp ∈ inputs, ∃ env : gesture_env F M,
      0 < env.fp.c001 ∧ inp.scale_step = scale_gesture env) :
    (∀ o ∈ (run_frames d0 inputs (editor.init h0 p0)).ses.scene.objects,
      ((run_frames d0 inputs (editor.init h0 p0)).obj o).scale_vec.positive) ∧
    (∀ c ∈ members_pack (run_frames d0 inputs (editor.init h0 p0)).ses.his.commandlist,
      ∀ o st en, c = command.scale_command o st en → st.positive ∧ en.positive) := by
  have hinit : (editor.init h0 p0 : editor (vec3 F) M (vec2 F)).scale_inv :=
    ⟨⟨fun o ho => absurd ho (List.not_mem_nil _), trivial⟩,
      fun b hb => absurd hb (List.not_mem_nil _), trivial⟩
  have hstep : ∀ inp ∈ inputs, ∀ p v, (inp.scale_step p v).positive := by
    intro inp hi p v
    obtain ⟨env, h001, henv⟩ := hin inp hi
    rw [henv]
    exact scale_gesture_positive env h001 p v
  obtain ⟨⟨h1, h2⟩, -, -⟩ := run_frames_scale_inv d0 inputs _ hd0 hstep hinit
  refine ⟨h1, ?_⟩
  intro c hc o st en hce
  have := scale_ok_of_mem_members_pack _ _ h2 c hc
  rw [hce] at this
  exact this

end scale_invariant

/-- C16 at a concrete run: an object is added, selected and scaled down by a
Scale gesture; its scale and the states of the Scale command are positive. -/
theorem C16_scale_stays_positive_witness :
    unit_object.scale_vec.positive ∧
    (∀ inp ∈ C16_frames, ∃ env : gesture_env ℚ Int,
      0 < env.fp.c001 ∧ inp.scale_step = scale_gesture env) ∧
    (∀ o ∈ (run_frames unit_object C16_frames
        (editor.init (fun _ => unit_object) ⟨0, 0⟩)).ses.scene.objects,
      ((run_frames unit_object C16_frames
        (editor.init (fun _ => unit_object) ⟨0, 0⟩)).obj o).scale_vec.positive) ∧
    (∀ c ∈ members_pack (run_frames unit_object C16_frames
        (editor.init (fun _ => unit_object) ⟨0, 0⟩)).ses.his.commandlist,
      ∀ o st en, c = command.scale_command o st en → st.positive ∧ en.positive) := by
  have hd0 : unit_object.scale_vec.positive := by
    simp [unit_object, vec3.positive, vec3.splat]
  have h001 : (0 : ℚ) < (sample_env false).fp.c001 := by
    simp [sample_env, float_ops.exact]
  have hin : ∀ inp ∈ C16_frames, ∃ env : gesture_env ℚ Int,
      0 < env.fp.c001 ∧ inp.scale_step = scale_gesture env := by
    intro inp hi
    simp only [C16_frames, List.mem_cons, List.mem_singleton, List.not_mem_nil, or_false] at hi
    rcases hi with h | h | h | h | h | h <;> subst h <;> exact ⟨sample_env false, h001, rfl⟩
  exact ⟨hd0, hin, C16_scale_stays_positive unit_object (fun _ => unit_object) ⟨0, 0⟩
    C16_frames hd0 hin⟩

/-! ### `packed_command::execute`, `unexecute` and `set_end` (C22, C24) -/

/-- C24: for every pack `c_1 .. c_n` and every scene, `packed_command::execute`
is `c_1.execute`, then `c_2.execute`, ..., then `c_n.execute`, and
`packed_command::unexecute` is `c_1.unexecute`, then `c_2.unexecute`, ..., then
`c_n.unexecute`: both are left folds over the pack in insertion order; a
command that `put` appends to the pack is executed last and also unexecuted
last. -/
theorem C24_pack_in_insertion_order (L : List (command V M)) (s : Scene V M) :
    (command.packed_command L).execute s = L.foldl (fun s c => c.execute s) s ∧
    (command.packed_command L).unexecute s = L.foldl (fun s c => c.unexecute s) s ∧
    (∀ c, (command.packed_command (L ++ [c])).execute s
      = c.execute ((command.packed_command L).execute s)) ∧
    (∀ c, (command.packed_command (L ++ [c])).unexecute s
      = c.unexecute ((command.packed_command L).unexecute s)) := by
  have he : ∀ (L : List (command V M)) (s : Scene V M),
      execute_pack L s = L.foldl (fun s c => c.execute s) s := by
    intro L
    induction L with
    | nil => intro s; rfl
    | cons c L ih => intro s; exact ih (c.execute s)
  have hu : ∀ (L : List (command V M)) (s : Scene V M),
      unexecute_pack L s = L.foldl (fun s c => c.unexecute s) s := by
    intro L
    induction L with
    | nil => intro s; rfl
    | cons c L ih => intro s; exact ih (c.unexecute s)
  refine ⟨he L s, hu L s, ?_, ?_⟩
  · intro c
    show execute_pack (L ++ [c]) s = c.execute (execute_pack L s)
    rw [execute_pack_append]
    rfl
  · intro c
    show unexecute_pack (L ++ [c]) s = c.unexecute (unexecute_pack L s)
    rw [unexecute_pack_append]
    rfl

/-- Unexecuting in insertion order is not unexecuting in reverse order: on the
live list `[1, 1, 2]` the pack `[Add 3, Remove 3]` is unexecuted to
`[1, 1, 2, 3]` (the Add finds no 3 to erase, then the Remove appends 3), while
the reverse order would give `[1, 1, 2]`. -/
theorem unexecute_order_matters :
    ((command.packed_command add_then_remove_pack).unexecute
      duplicate_session.scene).objects = [1, 1, 2, 3] ∧
    (add_then_remove_pack.foldr (fun c s => c.unexecute s)
      duplicate_session.scene).objects = [1, 1, 2] := by
  refine ⟨by decide, by decide⟩
mutual
/-- Asked for the kind `PACKED`, `set_end` changes nothing: only nested packs
have that kind, and inside them again only nested packs match. -/
theorem set_end_packed_kind : ∀ (c : command V M) (e : ObjId) (s : Scene V M),
    c.type = .PACKED → c.set_end e .PACKED s = c
  | .packed_command pack, e, s, _ => by
    simp only [command.set_end]
    rw [set_end_pack_packed_kind pack e s]
  | .add_command _, _, _, _ => rfl
  | .remove_command _, _, _, _ => rfl
  | .select_command _, _, _, _ => rfl
  | .deselect_command _, _, _, _ => rfl
  | .translate_command _ _ _, _, _, h => by simp [command.type] at h
  | .rotate_command _ _ _, _, _, h => by simp [command.type] at h
  | .scale_command _ _ _, _, _, h => by simp [command.type] at h
theorem set_end_pack_packed_kind : ∀ (pack : List (command V M)) (e : ObjId) (s : Scene V M),
    set_end_pack pack e .PACKED s = pack
  | [], _, _ => rfl
  | c :: cs, e, s => by
    simp only [set_end_pack]
    rw [set_end_pack_packed_kind cs e s]
    split
    · rename_i h
      rw [set_end_packed_kind c e s h.1]
    · rfl
end

/-- A matching member is amended to the current attribute of the object. -/
theorem set_end_of_match (c : command V M) (e : ObjId) (t : command_type) (s : Scene V M)
    (h : c.type = t ∧ c.o = e) : c.set_end e t s = c.with_end_of (s.heap e) := by
  cases c with
  | packed_command pack =>
    obtain ⟨ht, -⟩ := h
    have ht' : t = .PACKED := ht.symm
    subst ht'
    exact set_end_packed_kind _ e s rfl
  | add_command o1 => rfl
  | remove_command o1 => rfl
  | select_command o1 => rfl
  | deselect_command o1 => rfl
  | translate_command o1 st en => rfl
  | rotate_command o1 st en => rfl
  | scale_command o1 st en => rfl

theorem with_end_of_type (c : command V M) (v : selection_object V M) :
    (c.with_end_of v).type = c.type ∧ (c.with_end_of v).o = c.o ∧
    (c.with_end_of v).start_state = c.start_state := by
  cases c <;> exact ⟨rfl, rfl, rfl⟩

/-- C22: for every pack, object `e`, kind `t` and scene, `packed_command::set_end`
returns the pack in which every member whose type is `t` and whose target is
`e` (each of them, not only the first) has its end-state replaced by the current
value of the corresponding attribute of `e`, and every other member is the same
command as before; the members keep their number, order, type, target and
start-state.  The scene is only read: no object attribute is written. -/
theorem C22_set_end_amends_every_match (pack : List (command V M)) (e : ObjId)
    (t : command_type) (s : Scene V M) :
    (command.packed_command pack).set_end e t s
      = .packed_command (pack.map (fun c =>
          if c.type = t ∧ c.o = e then c.with_end_of (s.heap e) else c)) ∧
    (set_end_pack pack e t s).length = pack.length ∧
    (∀ (i : Nat) (c : command V M), pack[i]? = some c → ∃ c1 : command V M, (set_end_pack pack e t s)[i]? = some c1 ∧
      c1.type = c.type ∧ c1.o = c.o ∧ c1.start_state = c.start_state ∧
      (¬ (c.type = t ∧ c.o = e) → c1 = c) ∧
      (c.type = t ∧ c.o = e → c1 = c.with_end_of (s.heap e))) := by
  have hmap : set_end_pack pack e t s
      = pack.map (fun c => if c.type = t ∧ c.o = e then c.with_end_of (s.heap e) else c) := by
    induction pack with
    | nil => rfl
    | cons c cs ih =>
      simp only [set_end_pack, List.map_cons]
      rw [ih]
      by_cases h : c.type = t ∧ c.o = e
      · rw [if_pos h, if_pos h, set_end_of_match c e t s h]
      · rw [if_neg h, if_neg h]
  refine ⟨?_, ?_, ?_⟩
  · show command.packed_command (set_end_pack pack e t s) = _
    rw [hmap]
  · rw [hmap, List.length_map]
  · intro i c hc
    rw [hmap, List.getElem?_map, hc]
    by_cases h : c.type = t ∧ c.o = e
    · refine ⟨c.with_end_of (s.heap e), ?_, (with_end_of_type c _).1, (with_end_of_type c _).2.1,
        (with_end_of_type c _).2.2, fun hn => absurd h hn, fun _ => rfl⟩
      simp only [Option.map_some', if_pos h]
    · refine ⟨c, ?_, rfl, rfl, rfl, fun _ => rfl, fun hm => absurd hm h⟩
      simp only [Option.map_some', if_neg h]

/-! ### The axis locks and the gesture flags (C21, C23) -/

theorem delete_loop_controls (cs : List ObjId) (e : editor V M P) :
    (delete_loop cs e).controls = e.controls := by
  induction cs generalizing e with
  | nil => rfl
  | cons c cs ih =>
    simp only [delete_loop]
    split <;> rw [ih]
    rfl

theorem copy_loop_controls (cs : List ObjId) (e : editor V M P) :
    (copy_loop cs e).controls = e.controls := by
  induction cs generalizing e with
  | nil => rfl
  | cons c cs ih =>
    simp only [copy_loop]
    split <;> rw [ih]
    rfl

theorem cut_loop_controls (cs : List ObjId) (e : editor V M P) :
    (cut_loop cs e).controls = e.controls := by
  induction cs generalizing e with
  | nil => rfl
  | cons c cs ih =>
    simp only [cut_loop]
    split <;> rw [ih]
    rfl

theorem paste_loop_controls (cs : List ObjId) (e : editor V M P) :
    (paste_loop cs e).controls = e.controls := by
  induction cs generalizing e with
  | nil => rfl
  | cons c cs ih => simp only [paste_loop]; rw [ih]; rfl

theorem select_all_loop_controls (cs : List ObjId) (e : editor V M P) :
    (select_all_loop cs e).controls = e.controls := by
  induction cs generalizing e with
  | nil => rfl
  | cons c cs ih =>
    simp only [select_all_loop]
    split <;> rw [ih]
    rfl

theorem invert_loop_controls (cs : List ObjId) (e : editor V M P) :
    (invert_loop cs e).controls = e.controls := by
  induction cs generalizing e with
  | nil => rfl
  | cons c cs ih =>
    simp only [invert_loop]
    split <;> rw [ih] <;> rfl

theorem deselect_loop_controls (cs : List ObjId) (e : editor V M P) :
    (deselect_loop cs e).controls = e.controls := by
  induction cs generalizing e with
  | nil => rfl
  | cons c cs ih =>
    simp only [deselect_loop]
    split <;> rw [ih]
    rfl

/-- A key other than the three lock keys leaves the locks and the gesture flags
as they are. -/
theorem key_pressed_controls (d0 : selection_object V M) (e : editor V M P) (code : key_code)
    (ctrl shift : Bool) (h1 : code ≠ .Num1) (h2 : code ≠ .Num2) (h3 : code ≠ .Num3) :
    (key_pressed d0 e code ctrl shift).controls = e.controls := by
  cases code with
  | T => simp only [key_pressed]; split <;> rfl
  | R => simp only [key_pressed]; split <;> rfl
  | Y => simp only [key_pressed]; split <;> rfl
  | F => rfl
  | Space => rfl
  | Delete => exact delete_loop_controls _ _
  | Z => simp only [key_pressed]; split_ifs <;> rfl
  | C => simp only [key_pressed]; split; exact copy_loop_controls _ _; rfl
  | X => simp only [key_pressed]; split; exact cut_loop_controls _ _; rfl
  | V => simp only [key_pressed]; split; exact paste_loop_controls _ _; rfl
  | A => simp only [key_pressed]; split; exact select_all_loop_controls _ _; rfl
  | I => simp only [key_pressed]; split; exact invert_loop_controls _ _; rfl
  | Num1 => exact absurd rfl h1
  | Num2 => exact absurd rfl h2
  | Num3 => exact absurd rfl h3
  | Other => rfl

theorem controls_locks (e e1 : editor V M P) (h : e1.controls = e.controls) :
    e1.locks = e.locks := congrArg Prod.fst h

theorem controls_gesture_flags (e e1 : editor V M P) (h : e1.controls = e.controls) :
    e1.gesture_flags = e.gesture_flags := congrArg Prod.snd h

theorem key_pressed_locks (d0 : selection_object V M) (e : editor V M P) (code : key_code)
    (ctrl shift : Bool) (h1 : code ≠ .Num1) (h2 : code ≠ .Num2) (h3 : code ≠ .Num3) :
    (key_pressed d0 e code ctrl shift).locks = e.locks :=
  controls_locks _ _ (key_pressed_controls d0 e code ctrl shift h1 h2 h3)

/-- No key changes the gesture flags. -/
theorem key_pressed_gesture_flags (d0 : selection_object V M) (e : editor V M P)
    (code : key_code) (ctrl shift : Bool) :
    (key_pressed d0 e code ctrl shift).gesture_flags = e.gesture_flags := by
  by_cases h1 : code = .Num1
  · subst h1; rfl
  by_cases h2 : code = .Num2
  · subst h2; rfl
  by_cases h3 : code = .Num3
  · subst h3; rfl
  exact controls_gesture_flags _ _ (key_pressed_controls d0 e code ctrl shift h1 h2 h3)

theorem handle_events_gesture_flags (d0 : selection_object V M) (evs : List (event P))
    (e : editor V M P) : (handle_events d0 evs e).gesture_flags = e.gesture_flags := by
  induction evs generalizing e with
  | nil => rfl
  | cons ev evs ih =>
    refine (ih _).trans ?_
    cases ev with
    | KeyPressed code ctrl shift => exact key_pressed_gesture_flags d0 e code ctrl shift
    | KeyReleased code => cases code <;> rfl
    | MouseMoved pos => rfl
    | MouseButtonPressed b => cases b <;> rfl
    | MouseButtonReleased b => rfl
    | Other => rfl

theorem key_pressed_exclusive (d0 : selection_object V M) (e : editor V M P) (code : key_code)
    (ctrl shift : Bool) (h : at_most_one_lock e.locks) :
    at_most_one_lock (key_pressed d0 e code ctrl shift).locks := by
  by_cases h1 : code = .Num1
  · subst h1; simp [at_most_one_lock, editor.locks, key_pressed]
  by_cases h2 : code = .Num2
  · subst h2; simp [at_most_one_lock, editor.locks, key_pressed]
  by_cases h3 : code = .Num3
  · subst h3; simp [at_most_one_lock, editor.locks, key_pressed]
  rw [key_pressed_locks d0 e code ctrl shift h1 h2 h3]
  exact h

theorem event_handler_exclusive (d0 : selection_object V M) (e : editor V M P) (ev : event P)
    (h : at_most_one_lock e.locks) : at_most_one_lock (event_handler d0 e ev).locks := by
  cases ev with
  | KeyPressed code ctrl shift => exact key_pressed_exclusive d0 e code ctrl shift h
  | KeyReleased code => cases code <;> exact h
  | MouseMoved pos => exact h
  | MouseButtonPressed b => cases b <;> exact h
  | MouseButtonReleased b => exact h
  | Other => exact h

theorem handle_events_exclusive (d0 : selection_object V M) (evs : List (event P))
    (e : editor V M P) (h : at_most_one_lock e.locks) :
    at_most_one_lock (handle_events d0 evs e).locks := by
  induction evs generalizing e with
  | nil => exact h
  | cons ev evs ih => exact ih _ (event_handler_exclusive d0 e ev h)

theorem pick_step_stable (inp : frame_input V M P) (e : editor V M P) (c : ObjId) :
    (pick_step inp e c).locks = e.locks ∧ (pick_step inp e c).warped = e.warped := by
  simp only [pick_step]
  split_ifs <;> exact ⟨rfl, rfl⟩

theorem begin_step_stable (e : editor V M P) (c : ObjId) :
    (begin_step e c).locks = e.locks ∧ (begin_step e c).warped = e.warped := by
  simp only [begin_step]
  split_ifs <;> exact ⟨rfl, rfl⟩

theorem action_step_stable (inp : frame_input V M P) (e : editor V M P) (c : ObjId) :
    (action_step inp e c).locks = e.locks ∧ (action_step inp e c).warped = e.warped := by
  simp only [action_step]
  split_ifs <;> exact ⟨rfl, rfl⟩

theorem object_step_stable (inp : frame_input V M P) (e : editor V M P) (c : ObjId) :
    (object_step inp e c).locks = e.locks ∧ (object_step inp e c).warped = e.warped := by
  rw [object_step_eq]
  split
  · have h1 := action_step_stable inp (end_step (begin_step (pick_step inp e c) c)) c
    have h2 : (end_step (begin_step (pick_step inp e c) c)).locks
        = (begin_step (pick_step inp e c) c).locks := rfl
    have h3 : (end_step (begin_step (pick_step inp e c) c)).warped
        = (begin_step (pick_step inp e c) c).warped := rfl
    have h4 := begin_step_stable (pick_step inp e c) c
    have h5 := pick_step_stable inp e c
    exact ⟨h1.1.trans (h2.trans (h4.1.trans h5.1)), h1.2.trans (h3.trans (h4.2.trans h5.2))⟩
  · exact pick_step_stable inp e c

theorem objects_loop_stable (inp : frame_input V M P) (cs : List ObjId) (e : editor V M P) :
    (objects_loop inp cs e).locks = e.locks ∧ (objects_loop inp cs e).warped = e.warped := by
  induction cs generalizing e with
  | nil => exact ⟨rfl, rfl⟩
  | cons c cs ih =>
    have h1 := ih (object_step inp e c)
    have h2 := object_step_stable inp e c
    exact ⟨h1.1.trans h2.1, h1.2.trans h2.2⟩

theorem click_step_controls (inp : frame_input V M P) (e : editor V M P) :
    (click_step inp e).controls = e.controls := by
  simp only [click_step]
  split
  · exact deselect_loop_controls _ _
  · rfl

theorem commit_step_locks (e : editor V M P) : (commit_step e).locks = e.locks := by
  simp only [commit_step]
  split <;> rfl

/-- The locks at the end of a frame are the locks its events left. -/
theorem frame_locks (d0 : selection_object V M) (inp : frame_input V M P) (e : editor V M P) :
    (frame d0 inp e).locks = (handle_events d0 inp.events e).locks := by
  have h : (frame d0 inp e).locks
      = (commit_step (warp_step (objects_loop inp
          (click_step inp (handle_events d0 inp.events e)).ses.scene.objects
          (click_step inp (handle_events d0 inp.events e))))).locks := rfl
  rw [h, commit_step_locks]
  exact (objects_loop_stable inp _ _).1.trans (controls_locks _ _ (click_step_controls inp _))

theorem run_frames_exclusive (d0 : selection_object V M) (inputs : List (frame_input V M P))
    (e : editor V M P) (h : at_most_one_lock e.locks) :
    at_most_one_lock (run_frames d0 inputs e).locks := by
  induction inputs generalizing e with
  | nil => exact h
  | cons inp inputs ih =>
    apply ih
    rw [frame_locks]
    exact handle_events_exclusive d0 _ e h

/-- C23: in every state reached from the initial state by any sequence of
frames followed by any sequence of events of the next frame, at most one of
`lock_to_x`, `lock_to_y`, `lock_to_z` is on; pressing the key of a lock (`Num1`
for x, `Num2` for y, `Num3` for z) negates that lock and clears the other two,
and pressing the same key twice restores the value that lock had. -/
theorem C23_at_most_one_axis_lock (d0 : selection_object V M)
    (h0 : ObjId → selection_object V M) (p0 : P)
    (inputs : List (frame_input V M P)) (evs : List (event P))
    (e : editor V M P) (ctrl shift ctrl2 shift2 : Bool) :
    at_most_one_lock (handle_events d0 evs
      (run_frames d0 inputs (editor.init h0 p0))).locks ∧
    (key_pressed d0 e .Num1 ctrl shift).locks = (!e.lock_to_x, false, false) ∧
    (key_pressed d0 e .Num2 ctrl shift).locks = (false, !e.lock_to_y, false) ∧
    (key_pressed d0 e .Num3 ctrl shift).locks = (false, false, !e.lock_to_z) ∧
    (key_pressed d0 (key_pressed d0 e .Num1 ctrl shift) .Num1 ctrl2 shift2).lock_to_x
      = e.lock_to_x ∧
    (key_pressed d0 (key_pressed d0 e .Num2 ctrl shift) .Num2 ctrl2 shift2).lock_to_y
      = e.lock_to_y ∧
    (key_pressed d0 (key_pressed d0 e .Num3 ctrl shift) .Num3 ctrl2 shift2).lock_to_z
      = e.lock_to_z := by
  refine ⟨?_, rfl, rfl, rfl, ?_, ?_, ?_⟩
  · apply handle_events_exclusive
    apply run_frames_exclusive
    simp [at_most_one_lock, editor.locks, editor.init]
  · simp [key_pressed]
  · simp [key_pressed]
  · simp [key_pressed]

/-! ### Undo of a transaction of Removes (C25) -/

/-- C25: on a session whose cursor is in range and whose live list has no
duplicates, for distinct live objects `rs`: `history.put` of the transaction of
the Removes of `rs` followed by `history.undo` gives the live list with the
objects of `rs` taken out of their places and appended at the end in command
order.  That list has the members of the original one (it is a permutation of
it), and it is the original list exactly when `rs` is a suffix of the original
list. -/
theorem C25_undo_of_removes_appends (x : Session V M) (rs : List ObjId)
    (hr : x.his.in_range) (hnd : x.scene.objects.Nodup) (hrs : rs.Nodup)
    (hlive : ∀ o ∈ rs, o ∈ x.scene.objects) :
    (history.undo (history.put x (.packed_command (rs.map .remove_command)))).scene.objects
      = x.scene.objects.filter (fun o => decide (o ∉ rs)) ++ rs ∧
    ((history.undo (history.put x (.packed_command (rs.map .remove_command)))).scene.objects).Perm
      x.scene.objects ∧
    ((history.undo (history.put x (.packed_command (rs.map .remove_command)))).scene.objects
      = x.scene.objects ↔ rs <:+ x.scene.objects) := by
  have h1 : (history.undo (history.put x (.packed_command (rs.map .remove_command)))).scene.objects
      = x.scene.objects.filter (fun o => decide (o ∉ rs)) ++ rs := by
    rw [undo_put_scene x _ hr]
    show (unexecute_pack (rs.map .remove_command) _).objects = _
    rw [unexecute_pack_removes]
    show (history.put x (.packed_command (rs.map .remove_command))).scene.objects ++ rs = _
    rw [(put_scene_objects x _).1]
    rw [execute_pack_removes]
    show x.scene.objects.diff rs ++ rs = _
    rw [List.Nodup.diff_eq_filter hnd]
  refine ⟨h1, ?_, ?_⟩
  · rw [h1]
    have hin : (x.scene.objects.filter (fun o => decide (o ∈ rs))).Perm rs := by
      rw [List.perm_ext_iff_of_nodup (hnd.filter _) hrs]
      intro o
      simp only [List.mem_filter, decide_eq_true_eq]
      exact ⟨fun h => h.2, fun h => ⟨hlive o h, h⟩⟩
    have hsplit := List.filter_append_perm (fun o => decide (o ∈ rs)) x.scene.objects
    have hneg : x.scene.objects.filter (fun o => !decide (o ∈ rs))
        = x.scene.objects.filter (fun o => decide (o ∉ rs)) := by
      apply List.filter_congr
      intro o _
      simp
    rw [hneg] at hsplit
    exact (List.perm_append_comm.trans (List.Perm.append_right _ hin.symm)).trans hsplit
  · rw [h1]
    constructor
    · intro h
      exact ⟨_, h⟩
    · rintro ⟨t, ht⟩
      rw [← ht] at hnd ⊢
      rw [List.filter_append]
      have hd := List.nodup_append.1 hnd
      have ht1 : t.filter (fun o => decide (o ∉ rs)) = t := by
        rw [List.filter_eq_self]
        intro o ho
        simpa using fun hrs1 => hd.2.2 ho hrs1
      have ht2 : rs.filter (fun o => decide (o ∉ rs)) = [] := by
        rw [List.filter_eq_nil_iff]
        intro o ho
        simpa using ho
      rw [ht1, ht2, List.append_nil]

/-- The conditions of `C25_undo_of_removes_appends` on the session with live
list `[1, 2, 3]` and the Removes of 1 and 2: after put and undo the list is
`[3, 1, 2]`. -/
theorem C25_undo_of_removes_appends_witness :
    (history.undo (history.put C4_editor.ses
      (.packed_command ([1, 2].map .remove_command)))).scene.objects = [3, 1, 2] :=
  (C25_undo_of_removes_appends C4_editor.ses [1, 2]
    (by simp [history.in_range, C4_editor, history.init]) (by decide) (by decide)
    (by decide)).1

/-! ### The first Active frame of a gesture (C21) -/

theorem set_obj_self (e : editor V M P) (c : ObjId) : e.set_obj c (e.obj c) = e := by
  simp [editor.set_obj, editor.obj]

theorem action_step_eq_value (inp : frame_input V M P) (e : editor V M P) (c : ObjId) :
    action_step inp e c = e.set_obj c (gesture_value inp e (e.obj c)) := by
  simp only [action_step, gesture_value]
  split_ifs
  · rfl
  · rfl
  · rfl
  · exact (set_obj_self e c).symm

theorem gesture_value_selected (inp : frame_input V M P) (e : editor V M P)
    (v : selection_object V M) : (gesture_value inp e v).selected = v.selected := by
  simp only [gesture_value]
  split_ifs <;> rfl

theorem gesture_value_not_warped (inp : frame_input V M P) (e : editor V M P)
    (v : selection_object V M) (hw : e.warped = false) : gesture_value inp e v = v := by
  simp [gesture_value, hw]

/-- The step of one object in a frame without click, press or release. -/
theorem object_step_quiet (inp : frame_input V M P) (e : editor V M P) (c : ObjId)
    (h1 : e.clicked = false) (h2 : e.translate_begin = false)
    (h3 : e.rotate_begin = false) (h4 : e.scale_begin = false)
    (h5 : e.translate_end = false) (h6 : e.rotate_end = false) (h7 : e.scale_end = false) :
    object_step inp e c =
      e.with_heap (fun o => if o = c ∧ (e.obj o).selected = true
        then gesture_value inp e (e.obj o) else e.obj o) := by
  rw [object_step_eq, pick_step_not_clicked inp e c h1, begin_step_none e c h2 h3 h4,
    end_step_none e h5 h6 h7]
  by_cases hs : (e.obj c).selected = true
  · rw [if_pos hs, action_step_eq_value, set_obj_eq_with_heap]
    congr 1
    funext o
    by_cases ho : o = c
    · subst ho
      rw [if_pos ⟨rfl, hs⟩, Function.update_same]
    · rw [if_neg (fun h => ho h.1), Function.update_noteq ho]
      rfl
  · rw [if_neg hs]
    refine (with_heap_self e).symm.trans ?_
    congr 1
    funext o
    by_cases ho : o = c
    · subst ho
      rw [if_neg (fun h => hs h.2)]
      rfl
    · rw [if_neg (fun h => ho h.1)]
      rfl

/-- The loop over a list without duplicates, in a frame without click, press or
release: every selected object of the list gets the value of the direct
mutation, every other object keeps its value. -/
theorem objects_loop_active (inp : frame_input V M P) (cs : List ObjId) (e : editor V M P)
    (hnd : cs.Nodup) (h1 : e.clicked = false) (h2 : e.translate_begin = false)
    (h3 : e.rotate_begin = false) (h4 : e.scale_begin = false)
    (h5 : e.translate_end = false) (h6 : e.rotate_end = false) (h7 : e.scale_end = false) :
    objects_loop inp cs e =
      e.with_heap (fun o => if o ∈ cs ∧ (e.obj o).selected = true
        then gesture_value inp e (e.obj o) else e.obj o) := by
  induction cs generalizing e with
  | nil =>
    refine (with_heap_self e).symm.trans ?_
    congr 1
  | cons c cs ih =>
    obtain ⟨hc, hnd'⟩ := List.nodup_cons.1 hnd
    show objects_loop inp cs (object_step inp e c) = _
    rw [object_step_quiet inp e c h1 h2 h3 h4 h5 h6 h7]
    obtain ⟨e1, he1⟩ : ∃ e1, e1 = e.with_heap (fun o => if o = c ∧ (e.obj o).selected = true
        then gesture_value inp e (e.obj o) else e.obj o) := ⟨_, rfl⟩
    rw [← he1]
    rw [ih e1 hnd' (by rw [he1]; exact h1) (by rw [he1]; exact h2) (by rw [he1]; exact h3)
      (by rw [he1]; exact h4) (by rw [he1]; exact h5) (by rw [he1]; exact h6)
      (by rw [he1]; exact h7)]
    have hv : ∀ v, gesture_value inp e1 v = gesture_value inp e v := by
      intro v
      rw [he1]
      rfl
    have hobj : ∀ o, e1.obj o = if o = c ∧ (e.obj o).selected = true
        then gesture_value inp e (e.obj o) else e.obj o := by
      intro o
      rw [he1]
      rfl
    have hw : ∀ h, e1.with_heap h = e.with_heap h := by
      intro h
      rw [he1]
      rfl
    rw [hw]
    congr 1
    funext o
    rw [hv]
    by_cases ho : o = c
    · subst ho
      rw [if_neg (fun h => hc h.1), hobj]
      by_cases hs : (e.obj o).selected = true
      · rw [if_pos ⟨rfl, hs⟩, if_pos ⟨List.mem_cons_self _ _, hs⟩]
      · rw [if_neg (fun h => hs h.2), if_neg (fun h => hs h.2)]
    · have hoo : e1.obj o = e.obj o := by
        rw [hobj, if_neg (fun h => ho h.1)]
      rw [hoo]
      by_cases hm : o ∈ cs ∧ (e.obj o).selected = true
      · rw [if_pos hm, if_pos ⟨List.mem_cons_of_mem _ hm.1, hm.2⟩]
      · rw [if_neg hm, if_neg]
        rintro ⟨hm1, hm2⟩
        rcases List.mem_cons.1 hm1 with h | h
        · exact ho h
        · exact hm ⟨h, hm2⟩

/-- All `begin_step` does is append commands to the per-frame pack. -/
theorem begin_step_marks (e : editor V M P) (c : ObjId) :
    ∃ L, begin_step e c = e.with_pc (e.pc ++ L) := by
  obtain ⟨t, ht⟩ : ∃ t : command V M, t
      = .translate_command c (e.obj c).translate_vec (e.obj c).translate_vec := ⟨_, rfl⟩
  obtain ⟨r, hr⟩ : ∃ r : command V M, r
      = .rotate_command c (e.obj c).rotation_mat (e.obj c).rotation_mat := ⟨_, rfl⟩
  obtain ⟨y, hy⟩ : ∃ y : command V M, y
      = .scale_command c (e.obj c).scale_vec (e.obj c).scale_vec := ⟨_, rfl⟩
  have h1 : ∀ (a b : command V M), (e.pc_put a).pc_put b = e.with_pc (e.pc ++ [a, b]) := by
    intro a b
    simp [editor.pc_put, editor.with_pc]
  have h2 : ∀ (a b d : command V M),
      ((e.pc_put a).pc_put b).pc_put d = e.with_pc (e.pc ++ [a, b, d]) := by
    intro a b d
    simp [editor.pc_put, editor.with_pc]
  have h0 : e = e.with_pc (e.pc ++ []) := by
    simp [editor.with_pc]
  simp only [begin_step]
  split_ifs
  · exact ⟨[t, r, y], by rw [ht, hr, hy]; exact h2 _ _ _⟩
  · exact ⟨[t, r], by rw [ht, hr]; exact h1 _ _⟩
  · exact ⟨[t, y], by rw [ht, hy]; exact h1 _ _⟩
  · exact ⟨[t], by rw [ht]; rfl⟩
  · exact ⟨[r, y], by rw [hr, hy]; exact h1 _ _⟩
  · exact ⟨[r], by rw [hr]; rfl⟩
  · exact ⟨[y], by rw [hy]; rfl⟩
  · exact ⟨[], h0⟩

theorem action_step_not_warped (inp : frame_input V M P) (e : editor V M P) (c : ObjId)
    (hw : e.warped = false) : action_step inp e c = e := by
  rw [action_step_eq_value, gesture_value_not_warped inp e _ hw, set_obj_self]

/-- The step of one object while `warped` is down, in a frame without click or
release: no object is written; only the commands of a press are queued. -/
theorem object_step_not_warped (inp : frame_input V M P) (e : editor V M P) (c : ObjId)
    (h1 : e.clicked = false) (h5 : e.translate_end = false) (h6 : e.rotate_end = false)
    (h7 : e.scale_end = false) (hw : e.warped = false) :
    ∃ L, object_step inp e c = e.with_pc (e.pc ++ L) ∧
      (e.translate_begin = false → e.rotate_begin = false → e.scale_begin = false →
        L = []) := by
  have h0 : e = e.with_pc (e.pc ++ []) := by
    simp [editor.with_pc]
  rw [object_step_eq, pick_step_not_clicked inp e c h1]
  by_cases hs : (e.obj c).selected = true
  · rw [if_pos hs]
    by_cases hb : e.translate_begin = false ∧ e.rotate_begin = false ∧ e.scale_begin = false
    · rw [begin_step_none e c hb.1 hb.2.1 hb.2.2, end_step_none e h5 h6 h7,
        action_step_not_warped inp e c hw]
      exact ⟨[], h0, fun _ _ _ => rfl⟩
    · obtain ⟨L, hL⟩ := begin_step_marks e c
      refine ⟨L, ?_, fun a b d => absurd ⟨a, b, d⟩ hb⟩
      rw [hL, end_step_none (e.with_pc (e.pc ++ L)) h5 h6 h7,
        action_step_not_warped inp (e.with_pc (e.pc ++ L)) c hw]
  · rw [if_neg hs]
    exact ⟨[], h0, fun _ _ _ => rfl⟩

/-- The loop over the objects while `warped` is down, in a frame without click
or release: no object is written. -/
theorem objects_loop_not_warped (inp : frame_input V M P) (cs : List ObjId)
    (e : editor V M P) (h1 : e.clicked = false) (h5 : e.translate_end = false)
    (h6 : e.rotate_end = false) (h7 : e.scale_end = false) (hw : e.warped = false) :
    ∃ L, objects_loop inp cs e = e.with_pc (e.pc ++ L) ∧
      (e.translate_begin = false → e.rotate_begin = false → e.scale_begin = false →
        L = []) := by
  induction cs generalizing e with
  | nil =>
    refine ⟨[], ?_, fun _ _ _ => rfl⟩
    simp [objects_loop, editor.with_pc]
  | cons c cs ih =>
    obtain ⟨L1, hL1, hn1⟩ := object_step_not_warped inp e c h1 h5 h6 h7 hw
    obtain ⟨e1, he1⟩ : ∃ e1, e1 = e.with_pc (e.pc ++ L1) := ⟨_, rfl⟩
    obtain ⟨L2, hL2, hn2⟩ := ih e1 (by rw [he1]; exact h1) (by rw [he1]; exact h5)
      (by rw [he1]; exact h6) (by rw [he1]; exact h7) (by rw [he1]; exact hw)
    refine ⟨L1 ++ L2, ?_, ?_⟩
    · show objects_loop inp cs (object_step inp e c) = _
      rw [hL1, ← he1, hL2, he1]
      simp [editor.with_pc]
    · intro a b d
      rw [hn1 a b d, hn2 (by rw [he1]; exact a) (by rw [he1]; exact b) (by rw [he1]; exact d)]
      rfl

/-- The flags at the end of a frame, from the flags at the end of its loop
over the objects. -/
theorem frame_tail_flags (e : editor V M P) :
    (reset_step (stamp_step (activate_step (commit_step (warp_step e))))).warped
      = (e.translate_action || e.rotate_action || e.scale_action) ∧
    (reset_step (stamp_step (activate_step (commit_step (warp_step e))))).translate_action
      = (if e.translate_begin then true else e.translate_action) ∧
    (reset_step (stamp_step (activate_step (commit_step (warp_step e))))).rotate_action
      = (if e.rotate_begin then true else e.rotate_action) ∧
    (reset_step (stamp_step (activate_step (commit_step (warp_step e))))).scale_action
      = (if e.scale_begin then true else e.scale_action) ∧
    (reset_step (stamp_step (activate_step (commit_step (warp_step e))))).mouse_pos
      = e.mouse_pos := by
  simp only [reset_step, stamp_step, activate_step, commit_step, warp_step]
  split <;> exact ⟨rfl, rfl, rfl, rfl, rfl⟩

/-- While `warped` is down the loop over the objects writes no object, whatever
the events of the frame were: the session after the loop is the session before
it. -/
theorem objects_loop_ses_not_warped (inp : frame_input V M P) (cs : List ObjId)
    (e : editor V M P) (hw : e.warped = false) : (objects_loop inp cs e).ses = e.ses := by
  induction cs generalizing e with
  | nil => rfl
  | cons c cs ih =>
    have hstep : (object_step inp e c).ses = e.ses := by
      rw [object_step_eq]
      split
      · rw [action_step_not_warped]
        · exact (begin_step_ses _ c).trans (pick_step_ses inp e c)
        · exact ((begin_step_stable _ c).2.trans (pick_step_stable inp e c).2).trans hw
      · exact pick_step_ses inp e c
    exact (ih _ ((object_step_stable inp e c).2.trans hw)).trans hstep

/-- A frame whose events leave `warped`, the click flag and the end flags down:
the flags at its end, and its session when nothing was pressed or queued. -/
theorem frame_not_warped (d0 : selection_object V M) (inp : frame_input V M P)
    (e : editor V M P) (h1 : (handle_events d0 inp.events e).clicked = false)
    (h5 : (handle_events d0 inp.events e).translate_end = false)
    (h6 : (handle_events d0 inp.events e).rotate_end = false)
    (h7 : (handle_events d0 inp.events e).scale_end = false)
    (hw : (handle_events d0 inp.events e).warped = false) :
    (frame d0 inp e).warped = ((handle_events d0 inp.events e).translate_action ||
      (handle_events d0 inp.events e).rotate_action ||
      (handle_events d0 inp.events e).scale_action) ∧
    (frame d0 inp e).translate_action = (if (handle_events d0 inp.events e).translate_begin
      then true else (handle_events d0 inp.events e).translate_action) ∧
    (frame d0 inp e).rotate_action = (if (handle_events d0 inp.events e).rotate_begin
      then true else (handle_events d0 inp.events e).rotate_action) ∧
    (frame d0 inp e).scale_action = (if (handle_events d0 inp.events e).scale_begin
      then true else (handle_events d0 inp.events e).scale_action) ∧
    ((handle_events d0 inp.events e).translate_begin = false →
      (handle_events d0 inp.events e).rotate_begin = false →
      (handle_events d0 inp.events e).scale_begin = false →
      (handle_events d0 inp.events e).pc = [] →
      (frame d0 inp e).ses = (handle_events d0 inp.events e).ses) := by
  obtain ⟨e0, he0⟩ : ∃ e0, e0 = handle_events d0 inp.events e := ⟨_, rfl⟩
  rw [frame_eq, ← he0]
  rw [← he0] at h1 h5 h6 h7 hw
  rw [click_step_not_clicked inp e0 h1]
  obtain ⟨L, hL, hn⟩ := objects_loop_not_warped inp e0.ses.scene.objects e0 h1 h5 h6 h7 hw
  rw [hL]
  obtain ⟨f1, f2, f3, f4, -⟩ := frame_tail_flags (e0.with_pc (e0.pc ++ L))
  refine ⟨f1, f2, f3, f4, ?_⟩
  intro a b d hpc
  rw [hn a b d, frame_tail_ses (e0.with_pc (e0.pc ++ [])) h5 h6 h7]
  have hp : (e0.with_pc (e0.pc ++ [])).pc = [] := by
    show e0.pc ++ [] = []
    rw [hpc]
    rfl
  rw [hp]
  rfl

/-- A frame of cursor movements only, over a live list without duplicates:
every selected live object ends with the value of the direct mutation at the
last cursor position. -/
theorem frame_active (d0 : selection_object V M) (inp : frame_input V M P)
    (e : editor V M P) (hm : only_mouse_moves inp) (hb : e.between_frames)
    (hnd : e.ses.scene.objects.Nodup) (c : ObjId) (hc : c ∈ e.ses.scene.objects)
    (hs : (e.obj c).selected = true) :
    (frame d0 inp e).obj c
      = gesture_value inp (e.with_mouse_pos (frame d0 inp e).mouse_pos) (e.obj c) := by
  obtain ⟨hb0, hb1, hb2, hb3, hb4, hb5, hb6, hb7⟩ := hb
  obtain ⟨q, hq⟩ := handle_events_mouse_moves d0 inp.events e hm
  have hmp : (frame d0 inp e).mouse_pos = q := by
    rw [frame_eq, hq, click_step_not_clicked inp (e.with_mouse_pos q) hb7,
      (frame_tail_flags _).2.2.2.2]
    exact congrArg editor.mouse_pos
      (objects_loop_active inp (e.with_mouse_pos q).ses.scene.objects (e.with_mouse_pos q)
        hnd hb7 hb1 hb2 hb3 hb4 hb5 hb6)
  rw [hmp]
  show (frame d0 inp e).ses.scene.heap c = _
  rw [frame_eq, hq, click_step_not_clicked inp (e.with_mouse_pos q) hb7,
    objects_loop_active inp (e.with_mouse_pos q).ses.scene.objects (e.with_mouse_pos q)
      hnd hb7 hb1 hb2 hb3 hb4 hb5 hb6]
  obtain ⟨F, hF⟩ : ∃ F, F = (e.with_mouse_pos q).with_heap (fun o =>
      if o ∈ (e.with_mouse_pos q).ses.scene.objects ∧ ((e.with_mouse_pos q).obj o).selected = true
      then gesture_value inp (e.with_mouse_pos q) ((e.with_mouse_pos q).obj o)
      else (e.with_mouse_pos q).obj o) := ⟨_, rfl⟩
  rw [← hF, frame_tail_ses F (by rw [hF]; exact hb4) (by rw [hF]; exact hb5)
    (by rw [hF]; exact hb6)]
  have hp : F.pc = [] := by rw [hF]; exact hb0
  rw [hp, hF]
  show (if c ∈ e.ses.scene.objects ∧ (e.obj c).selected = true
    then gesture_value inp (e.with_mouse_pos q) (e.obj c) else e.obj c) = _
  rw [if_pos ⟨hc, hs⟩]

/-- At the end of every frame: when no gesture is Active, `warped` is down. -/
theorem frame_idle_not_warped (d0 : selection_object V M) (inp : frame_input V M P)
    (e : editor V M P) (hi : (frame d0 inp e).idle) : (frame d0 inp e).warped = false := by
  rw [frame_eq] at hi ⊢
  obtain ⟨f1, f2, f3, f4, -⟩ := frame_tail_flags (objects_loop inp
    (click_step inp (handle_events d0 inp.events e)).ses.scene.objects
    (click_step inp (handle_events d0 inp.events e)))
  obtain ⟨i1, i2, i3⟩ := hi
  rw [f2] at i1
  rw [f3] at i2
  rw [f4] at i3
  rw [f1]
  revert i1 i2 i3
  cases (objects_loop inp (click_step inp (handle_events d0 inp.events e)).ses.scene.objects
    (click_step inp (handle_events d0 inp.events e))).translate_action <;>
  cases (objects_loop inp (click_step inp (handle_events d0 inp.events e)).ses.scene.objects
    (click_step inp (handle_events d0 inp.events e))).rotate_action <;>
  cases (objects_loop inp (click_step inp (handle_events d0 inp.events e)).ses.scene.objects
    (click_step inp (handle_events d0 inp.events e))).scale_action <;>
  simp

/-- In every state reached from the initial state by frames: the editor is
between two frames, and when no gesture is Active, `warped` is down. -/
theorem run_frames_reach (d0 : selection_object V M) (inputs : List (frame_input V M P))
    (e : editor V M P) (hb : e.between_frames) (hw : e.idle → e.warped = false) :
    (run_frames d0 inputs e).between_frames ∧
    ((run_frames d0 inputs e).idle → (run_frames d0 inputs e).warped = false) := by
  induction inputs generalizing e with
  | nil => exact ⟨hb, hw⟩
  | cons inp inputs ih =>
    exact ih (frame d0 inp e) (by rw [frame_eq]; exact frame_tail_between _)
      (frame_idle_not_warped d0 inp e)

theorem click_step_ses (inp : frame_input V M P) (e : editor V M P) :
    (click_step inp e).ses = e.ses := by
  simp only [click_step]
  split
  · rw [deselect_loop_eq]
    rfl
  · rfl

/-- A press of T, R or Y while no gesture is Active raises the begin flag of
its kind and nothing else. -/
theorem key_pressed_gesture_key (d0 : selection_object V M) (e : editor V M P)
    (code : key_code) (ctrl shift : Bool) (hi : e.idle)
    (hcode : code = .T ∨ code = .R ∨ code = .Y) :
    key_pressed d0 e code ctrl shift =
      { e with translate_begin := (e.translate_begin || decide (code = .T)),
               rotate_begin := (e.rotate_begin || decide (code = .R)),
               scale_begin := (e.scale_begin || decide (code = .Y)) } := by
  obtain ⟨i1, i2, i3⟩ := hi
  rcases hcode with rfl | rfl | rfl <;> simp [key_pressed, i1, i2, i3]

/-- C21, with the condition it needs: in a state reached from the initial
state by frames in which no gesture kind is Active, a press of T, R or Y makes
that kind Active at the end of the press frame with `warped` still down.  In
the next frame, the first in which the kind is Active, the loop over the
objects writes no object whatever the events of that frame are; when its events
are cursor movements only, the whole session is the same at its end and
`warped` is up.  In the frame after that (again cursor movements only, live
list without duplicates) every selected live object gets the step of the kind
at the last cursor position. -/
theorem C21_first_active_frame_writes_nothing (d0 : selection_object V M)
    (h0 : ObjId → selection_object V M) (p0 : P) (inputs : List (frame_input V M P))
    (p f1 f2 : frame_input V M P) (code : key_code) (ctrl shift : Bool)
    (hi : (run_frames d0 inputs (editor.init h0 p0)).idle)
    (hcode : code = .T ∨ code = .R ∨ code = .Y)
    (hp : p.events = [event.KeyPressed code ctrl shift]) :
    ((run_frames d0 (inputs ++ [p]) (editor.init h0 p0)).translate_action = decide (code = .T) ∧
     (run_frames d0 (inputs ++ [p]) (editor.init h0 p0)).rotate_action = decide (code = .R) ∧
     (run_frames d0 (inputs ++ [p]) (editor.init h0 p0)).scale_action = decide (code = .Y) ∧
     (run_frames d0 (inputs ++ [p]) (editor.init h0 p0)).warped = false) ∧
    (objects_loop f1
        (click_step f1 (handle_events d0 f1.events
          (run_frames d0 (inputs ++ [p]) (editor.init h0 p0)))).ses.scene.objects
        (click_step f1 (handle_events d0 f1.events
          (run_frames d0 (inputs ++ [p]) (editor.init h0 p0))))).ses
      = (handle_events d0 f1.events (run_frames d0 (inputs ++ [p]) (editor.init h0 p0))).ses ∧
    (only_mouse_moves f1 →
      (run_frames d0 (inputs ++ [p, f1]) (editor.init h0 p0)).ses
        = (run_frames d0 (inputs ++ [p]) (editor.init h0 p0)).ses ∧
      (run_frames d0 (inputs ++ [p, f1]) (editor.init h0 p0)).warped = true ∧
      (only_mouse_moves f2 →
        (run_frames d0 (inputs ++ [p, f1]) (editor.init h0 p0)).ses.scene.objects.Nodup →
        ∀ c ∈ (run_frames d0 (inputs ++ [p, f1]) (editor.init h0 p0)).ses.scene.objects,
        ((run_frames d0 (inputs ++ [p, f1]) (editor.init h0 p0)).obj c).selected = true →
        (code = .T → (run_frames d0 (inputs ++ [p, f1, f2]) (editor.init h0 p0)).obj c =
          { (run_frames d0 (inputs ++ [p, f1]) (editor.init h0 p0)).obj c with
            translate_vec := f2.translate_step
              (run_frames d0 (inputs ++ [p, f1, f2]) (editor.init h0 p0)).mouse_pos
              (run_frames d0 (inputs ++ [p, f1]) (editor.init h0 p0)).lock_to_x
              (run_frames d0 (inputs ++ [p, f1]) (editor.init h0 p0)).lock_to_y
              (run_frames d0 (inputs ++ [p, f1]) (editor.init h0 p0)).lock_to_z
              ((run_frames d0 (inputs ++ [p, f1]) (editor.init h0 p0)).obj c).translate_vec }) ∧
        (code = .R → (run_frames d0 (inputs ++ [p, f1, f2]) (editor.init h0 p0)).obj c =
          { (run_frames d0 (inputs ++ [p, f1]) (editor.init h0 p0)).obj c with
            rotation_mat := f2.rotate_step
              (run_frames d0 (inputs ++ [p, f1, f2]) (editor.init h0 p0)).mouse_pos
              (run_frames d0 (inputs ++ [p, f1]) (editor.init h0 p0)).lock_to_x
              (run_frames d0 (inputs ++ [p, f1]) (editor.init h0 p0)).lock_to_y
              (run_frames d0 (inputs ++ [p, f1]) (editor.init h0 p0)).lock_to_z
              ((run_frames d0 (inputs ++ [p, f1]) (editor.init h0 p0)).obj c).rotation_mat }) ∧
        (code = .Y → (run_frames d0 (inputs ++ [p, f1, f2]) (editor.init h0 p0)).obj c =
          { (run_frames d0 (inputs ++ [p, f1]) (editor.init h0 p0)).obj c with
            scale_vec := f2.scale_step
              (run_frames d0 (inputs ++ [p, f1, f2]) (editor.init h0 p0)).mouse_pos
              ((run_frames d0 (inputs ++ [p, f1]) (editor.init h0 p0)).obj c).scale_vec }))) := by
  have hinit : (editor.init h0 p0).between_frames ∧
      ((editor.init h0 p0).idle → (editor.init h0 p0).warped = false) :=
    ⟨⟨rfl, rfl, rfl, rfl, rfl, rfl, rfl, rfl⟩, fun _ => rfl⟩
  obtain ⟨hb, hw⟩ := run_frames_reach d0 inputs (editor.init h0 p0) hinit.1 hinit.2
  rw [run_frames_append d0 inputs [p], run_frames_append d0 inputs [p, f1],
    run_frames_append d0 inputs [p, f1, f2]]
  obtain ⟨e, he⟩ : ∃ e, e = run_frames d0 inputs (editor.init h0 p0) := ⟨_, rfl⟩
  rw [← he] at hi hb hw ⊢
  have hw0 := hw hi
  have E1 : run_frames d0 [p] e = frame d0 p e := rfl
  have E2 : run_frames d0 [p, f1] e = frame d0 f1 (frame d0 p e) := rfl
  have E3 : run_frames d0 [p, f1, f2] e = frame d0 f2 (frame d0 f1 (frame d0 p e)) := rfl
  rw [E3, E2, E1]
  have hk : handle_events d0 p.events e =
      { e with translate_begin := (e.translate_begin || decide (code = .T)),
               rotate_begin := (e.rotate_begin || decide (code = .R)),
               scale_begin := (e.scale_begin || decide (code = .Y)) } := by
    rw [hp]
    exact key_pressed_gesture_key d0 e code ctrl shift hi hcode
  obtain ⟨b0, b1, b2, b3, b4, b5, b6, b7⟩ := hb
  obtain ⟨i1, i2, i3⟩ := hi
  obtain ⟨p1, p2, p3, p4, -⟩ := frame_not_warped d0 p e (by rw [hk]; exact b7)
    (by rw [hk]; exact b4) (by rw [hk]; exact b5) (by rw [hk]; exact b6) (by rw [hk]; exact hw0)
  rw [hk] at p1 p2 p3 p4
  have a1 : (frame d0 p e).translate_action = decide (code = .T) := by
    rw [p2]
    show (if (e.translate_begin || decide (code = .T)) = true then true
      else e.translate_action) = _
    rw [b1, i1]
    simp
  have a2 : (frame d0 p e).rotate_action = decide (code = .R) := by
    rw [p3]
    show (if (e.rotate_begin || decide (code = .R)) = true then true
      else e.rotate_action) = _
    rw [b2, i2]
    simp
  have a3 : (frame d0 p e).scale_action = decide (code = .Y) := by
    rw [p4]
    show (if (e.scale_begin || decide (code = .Y)) = true then true
      else e.scale_action) = _
    rw [b3, i3]
    simp
  have aw : (frame d0 p e).warped = false := by
    rw [p1]
    show (e.translate_action || e.rotate_action || e.scale_action) = false
    rw [i1, i2, i3]
    rfl
  have hb1 : (frame d0 p e).between_frames := by
    rw [frame_eq]
    exact frame_tail_between _
  obtain ⟨e1, he1⟩ : ∃ e1, e1 = frame d0 p e := ⟨_, rfl⟩
  rw [← he1] at a1 a2 a3 aw hb1 ⊢
  refine ⟨⟨a1, a2, a3, aw⟩, ?_, ?_⟩
  · have g1 := handle_events_gesture_flags d0 f1.events e1
    have g2 := controls_gesture_flags _ _
      (click_step_controls f1 (handle_events d0 f1.events e1))
    have g3 : (click_step f1 (handle_events d0 f1.events e1)).warped = false :=
      (congrArg (fun t => t.2.2.2) (g2.trans g1)).trans aw
    rw [objects_loop_ses_not_warped f1 _ _ g3, click_step_ses]
  intro hm1
  obtain ⟨c0, c1, c2, c3, c4, c5, c6, c7⟩ := hb1
  obtain ⟨q, hq⟩ := handle_events_mouse_moves d0 f1.events e1 hm1
  obtain ⟨q1, q2, q3, q4, q5⟩ := frame_not_warped d0 f1 e1 (by rw [hq]; exact c7)
    (by rw [hq]; exact c4) (by rw [hq]; exact c5) (by rw [hq]; exact c6) (by rw [hq]; exact aw)
  rw [hq] at q1 q2 q3 q4 q5
  have s2 : (frame d0 f1 e1).ses = e1.ses := q5 c1 c2 c3 c0
  have w2 : (frame d0 f1 e1).warped = true := by
    rw [q1]
    show (e1.translate_action || e1.rotate_action || e1.scale_action) = true
    rw [a1, a2, a3]
    rcases hcode with rfl | rfl | rfl <;> rfl
  have t2 : (frame d0 f1 e1).translate_action = decide (code = .T) := by
    rw [q2]
    show (if e1.translate_begin = true then true else e1.translate_action) = _
    rw [c1, a1]
    rfl
  have r2 : (frame d0 f1 e1).rotate_action = decide (code = .R) := by
    rw [q3]
    show (if e1.rotate_begin = true then true else e1.rotate_action) = _
    rw [c2, a2]
    rfl
  have y2 : (frame d0 f1 e1).scale_action = decide (code = .Y) := by
    rw [q4]
    show (if e1.scale_begin = true then true else e1.scale_action) = _
    rw [c3, a3]
    rfl
  have hb2 : (frame d0 f1 e1).between_frames := by
    rw [frame_eq]
    exact frame_tail_between _
  obtain ⟨e2, he2⟩ : ∃ e2, e2 = frame d0 f1 e1 := ⟨_, rfl⟩
  rw [← he2] at s2 w2 t2 r2 y2 hb2 ⊢
  refine ⟨s2, w2, ?_⟩
  intro hm2 hnd c hc hs
  rw [frame_active d0 f2 e2 hm2 hb2 hnd c hc hs]
  obtain ⟨m, hm⟩ : ∃ m, m = (frame d0 f2 e2).mouse_pos := ⟨_, rfl⟩
  rw [← hm]
  have tt : (e2.with_mouse_pos m).translate_action = decide (code = .T) := t2
  have tr : (e2.with_mouse_pos m).rotate_action = decide (code = .R) := r2
  have ty : (e2.with_mouse_pos m).scale_action = decide (code = .Y) := y2
  have tw : (e2.with_mouse_pos m).warped = true := w2
  refine ⟨?_, ?_, ?_⟩
  · intro hT
    rw [hT] at tt
    simp only [gesture_value, tt, tw, decide_True, Bool.and_self, if_true]
    rfl
  · intro hR
    rw [hR] at tt tr
    have tt1 : (e2.with_mouse_pos m).translate_action = false := tt
    simp only [gesture_value, tt1, tr, tw, decide_True, Bool.and_self, if_true,
      Bool.false_and, Bool.false_eq_true, if_false]
    rfl
  · intro hY
    rw [hY] at tt tr ty
    have tt1 : (e2.with_mouse_pos m).translate_action = false := tt
    have tr1 : (e2.with_mouse_pos m).rotate_action = false := tr
    simp only [gesture_value, tt1, tr1, ty, tw, decide_True, Bool.and_self, if_true,
      Bool.false_and, Bool.false_eq_true, if_false]
    rfl

/-- The conditions of `C21_first_active_frame_writes_nothing` after Space and
Ctrl+A from the initial state, with a press of T and a cursor movement: the
session after the first Active frame is the session after the press frame, and
`warped` is up. -/
theorem C21_first_active_frame_writes_nothing_witness :
    (run_frames C4_new_object (C21_setup ++ [C4_frame [event.KeyPressed key_code.T false false],
        C4_frame [event.MouseMoved 3]]) empty_editor).ses
      = (run_frames C4_new_object
          (C21_setup ++ [C4_frame [event.KeyPressed key_code.T false false]]) empty_editor).ses ∧
    (run_frames C4_new_object (C21_setup ++ [C4_frame [event.KeyPressed key_code.T false false],
        C4_frame [event.MouseMoved 3]]) empty_editor).warped = true :=
  have h := (C21_first_active_frame_writes_nothing C4_new_object (fun _ => C4_new_object) 0
    C21_setup (C4_frame [event.KeyPressed key_code.T false false])
    (C4_frame [event.MouseMoved 3]) (C4_frame []) key_code.T false false
    ⟨by decide, by decide, by decide⟩ (Or.inl rfl) rfl).2.2
    (fun ev hev => ⟨3, List.mem_singleton.1 hev⟩)
  ⟨h.1, h.2.1⟩

/-- C21 as written fails when another gesture kind is already Active: after
Space, Ctrl+A, a press of R and a cursor movement, T is pressed; Translate is
not Active at the start of that frame and is Active at its end, and in the
next frame, the first in which Translate is Active, the cursor movement to 5
moves the object from translation 0 to translation 5. -/
theorem C21_counterexample :
    (run_frames C4_new_object (C21_frames.take 4) empty_editor).translate_action = false ∧
    (run_frames C4_new_object (C21_frames.take 5) empty_editor).translate_action = true ∧
    (run_frames C4_new_object (C21_frames.take 5) empty_editor).ses.scene.objects = [1] ∧
    ((run_frames C4_new_object (C21_frames.take 5) empty_editor).obj 1).selected = true ∧
    ((run_frames C4_new_object (C21_frames.take 5) empty_editor).obj 1).translate_vec = 0 ∧
    ((run_frames C4_new_object C21_frames empty_editor).obj 1).translate_vec = 5 := by
  decide

/-! ### Duplicates in the live list (C26) -/

/-- C26 fails on the code: from the initial state, the frames Space, Ctrl+A,
Delete together with Ctrl+X, Ctrl+Z leave the live list `[1, 1]`.  The frame
with both keys commits two Removes of object 1; the second finds nothing to
erase, and the undo appends object 1 once for each. -/
theorem C26_undo_of_double_remove_duplicates :
    (run_frames C4_new_object (C26_frames.take 2) empty_editor).ses.scene.objects = [1] ∧
    (run_frames C4_new_object (C26_frames.take 3) empty_editor).ses.scene.objects = [] ∧
    (run_frames C4_new_object C26_frames empty_editor).ses.scene.objects = [1, 1] ∧
    ¬ (run_frames C4_new_object C26_frames empty_editor).ses.scene.objects.Nodup := by
  decide

/-! ### The gesture, the copy and the cut at reachable states (C4, C13, C14) -/

/-- C4 fails on the code.  After a press and a release of T on the empty scene,
Space and Ctrl+A, the flag `translate_action` is still up, object 1 is selected
at translation 0 and the history holds the Add and the Select.  The gesture
that follows (press of T, two cursor movements, release of T) moves object 1
to translation 9 and leaves the history as it was: no Translate command is
recorded.  After Space, Ctrl+A, Delete with Ctrl+X and Ctrl+Z the live list is
`[1, 1]`, and the same gesture records two Translate commands for object 1. -/
theorem C4_gesture_not_recorded :
    (run_frames C4_new_object C4_stuck_frames empty_editor).translate_action = true ∧
    (run_frames C4_new_object C4_stuck_frames empty_editor).ses.scene.objects = [1] ∧
    ((run_frames C4_new_object C4_stuck_frames empty_editor).obj 1).selected = true ∧
    ((run_frames C4_new_object C4_stuck_frames empty_editor).obj 1).translate_vec = 0 ∧
    (run_frames C4_new_object C4_stuck_frames empty_editor).ses.his.commandlist
      = [.packed_command [.add_command 1], .packed_command [.select_command 1]] ∧
    ((run_frames C4_new_object (C4_stuck_frames ++ C4_gesture_frames) empty_editor).obj
      1).translate_vec = 9 ∧
    (run_frames C4_new_object (C4_stuck_frames ++ C4_gesture_frames)
      empty_editor).ses.his.commandlist
      = [.packed_command [.add_command 1], .packed_command [.select_command 1]] ∧
    (run_frames C4_new_object C26_frames empty_editor).translate_action = false ∧
    (run_frames C4_new_object (C26_frames ++ C4_gesture_frames)
      empty_editor).ses.his.commandlist
      = [.packed_command [.add_command 1], .packed_command [.select_command 1],
         .packed_command [.translate_command 1 0 10, .translate_command 1 0 10]] := by
  refine ⟨by decide, by decide, by decide, by decide, by rfl, by decide, by rfl, by decide,
    by rfl⟩

/-- C13 fails on the code.  After Space, Ctrl+A, Delete with Ctrl+X and Ctrl+Z
the live list is `[1, 1]` and object 1 is selected; Ctrl+C and Ctrl+V then add
two new objects, 5 and 6, for the one selected object. -/
theorem C13_paste_of_duplicate_entry :
    (run_frames C4_new_object C26_frames empty_editor).ses.scene.objects = [1, 1] ∧
    ((run_frames C4_new_object C26_frames empty_editor).obj 1).selected = true ∧
    (run_frames C4_new_object (C26_frames ++ C13_copy_paste_frames)
      empty_editor).ses.scene.objects = [1, 1, 5, 6] := by
  decide

/-- C14 as written fails while a gesture is Active.  After Space, Ctrl+A, a
press of T and a cursor movement to 5, object 1 is selected at translation 0,
Translate is Active and `warped` is up.  The frame of Ctrl+X copies object 1 to
the clipboard (pointer 2, translation 0), then its loop moves object 1 to
translation 5, then the commit removes it; the undo puts object 1 back at
translation 5, not at the translation 0 it had when Ctrl+X was pressed. -/
theorem C14_counterexample :
    (run_frames C4_new_object C14_frames empty_editor).ses.scene.objects = [1] ∧
    ((run_frames C4_new_object C14_frames empty_editor).obj 1).selected = true ∧
    ((run_frames C4_new_object C14_frames empty_editor).obj 1).translate_vec = 0 ∧
    (run_frames C4_new_object C14_frames empty_editor).translate_action = true ∧
    (run_frames C4_new_object C14_frames empty_editor).warped = true ∧
    (frame C4_new_object (C4_frame [event.KeyPressed key_code.X true false])
      (run_frames C4_new_object C14_frames empty_editor)).ses.scene.objects = [] ∧
    (frame C4_new_object (C4_frame [event.KeyPressed key_code.X true false])
      (run_frames C4_new_object C14_frames empty_editor)).selection_buffer = [2] ∧
    ((frame C4_new_object (C4_frame [event.KeyPressed key_code.X true false])
      (run_frames C4_new_object C14_frames empty_editor)).obj 2).translate_vec = 0 ∧
    (history.undo (frame C4_new_object (C4_frame [event.KeyPressed key_code.X true false])
      (run_frames C4_new_object C14_frames empty_editor)).ses).scene.objects = [1] ∧
    ((history.undo (frame C4_new_object (C4_frame [event.KeyPressed key_code.X true false])
      (run_frames C4_new_object C14_frames empty_editor)).ses).scene.heap 1).translate_vec
      = 5 := by
  decide

/-! ### The locked gesture steps in any arithmetic (C20) -/

/-- C20 (amended): for every arithmetic of `float` and every camera, with the
X lock on, or with the lock of the second axis the gesture maps the cursor to
(Z for global-space Translate, Y for camera-relative Translate and for Rotate
in both modes), the step is restricted to one axis: the Translate step adds to
the translation the one term `k * axis * 2 * len` (`k` the cursor delta along
the screen axis, `len` the screen extent at the object) whose axis is world X or Z
(global space) or camera right or up (camera relative), and the Rotate step
left-multiplies one rotation about world X or Y (global space) or about camera
right or up.  With the remaining lock on alone (Y in global-space Translate, Z
in camera-relative Translate and in Rotate) the step is the two-axis step of
no lock at all. -/
theorem C20_locked_step_single_axis {F : Type} [Zero F] (env : gesture_env F M) (p : vec2 F)
    (lock_to_x lock_to_y lock_to_z : Bool) (t : vec3 F) (r : M) :
    ((env.ctrl = true → lock_to_x = true →
        translate_gesture env p lock_to_x lock_to_y lock_to_z t
          = t.add env.fp (vec3.along env.fp (env.delta p).x ⟨env.fp.one, 0, 0⟩ (env.top t))) ∧
      (env.ctrl = true → lock_to_x = false → lock_to_z = true →
        translate_gesture env p lock_to_x lock_to_y lock_to_z t
          = t.add env.fp
              (vec3.along env.fp (env.fp.neg (env.delta p).y) ⟨0, 0, env.fp.one⟩ (env.right t))) ∧
      (env.ctrl = false → lock_to_x = true →
        translate_gesture env p lock_to_x lock_to_y lock_to_z t
          = t.add env.fp (vec3.along env.fp (env.delta p).x env.right_vec (env.top t))) ∧
      (env.ctrl = false → lock_to_x = false → lock_to_y = true →
        translate_gesture env p lock_to_x lock_to_y lock_to_z t
          = t.add env.fp (vec3.along env.fp (env.delta p).y env.up_vec (env.right t)))) ∧
    ((lock_to_x = true →
        rotate_gesture env p lock_to_x lock_to_y lock_to_z r
          = env.mat_mul
              (env.create_rotation
                (env.radians (env.fp.mul (env.fp.neg (env.delta p).y) env.fp.forty))
                (if env.ctrl then ⟨env.fp.one, 0, 0⟩ else env.right_vec)) r) ∧
      (lock_to_x = false → lock_to_y = true →
        rotate_gesture env p lock_to_x lock_to_y lock_to_z r
          = env.mat_mul
              (env.create_rotation (env.radians (env.fp.mul (env.delta p).x env.fp.forty))
                (if env.ctrl then ⟨0, env.fp.one, 0⟩ else env.up_vec)) r)) ∧
    ((env.ctrl = true →
        translate_gesture env p false true false t = translate_gesture env p false false false t) ∧
      (env.ctrl = false →
        translate_gesture env p false false true t = translate_gesture env p false false false t) ∧
      rotate_gesture env p false false true r = rotate_gesture env p false false false r) := by
  refine ⟨⟨?_, ?_, ?_, ?_⟩, ⟨?_, ?_⟩, ?_, ?_, ?_⟩
  · intro hc hx
    simp only [translate_gesture, hc, hx, if_true]
    rfl
  · intro hc hx hz
    simp only [translate_gesture, hc, hx, hz, if_true, Bool.false_eq_true, if_false]
    rfl
  · intro hc hx
    simp only [translate_gesture, hc, hx, if_true, Bool.false_eq_true, if_false]
    rfl
  · intro hc hx hy
    simp only [translate_gesture, hc, hx, hy, if_true, Bool.false_eq_true, if_false]
    rfl
  · intro hx
    cases hc : env.ctrl <;> simp [rotate_gesture, hc, hx, gesture_env.delta]
  · intro hx hy
    cases hc : env.ctrl <;> simp [rotate_gesture, hc, hx, hy, gesture_env.delta]
  · intro hc
    simp [translate_gesture, hc]
  · intro hc
    simp [translate_gesture, hc]
  · cases hc : env.ctrl <;> simp [rotate_gesture, hc]

/-- C20 (amended) at a concrete step: in global-space mode with the Z lock on,
a cursor delta of (1, 1) moves the object at (5, 6, 7) to (5, 6, 5): the one
term added lies along world Z. -/
theorem C20_locked_step_single_axis_witness :
    translate_gesture (sample_env true) ⟨3 / 2, 3 / 2⟩ false false true ⟨5, 6, 7⟩
      = (⟨5, 6, 5⟩ : vec3 ℚ) ∧
    translate_gesture (sample_env true) ⟨3 / 2, 3 / 2⟩ false false true ⟨5, 6, 7⟩
      = vec3.add (sample_env true).fp ⟨5, 6, 7⟩
          (vec3.along (sample_env true).fp
            ((sample_env true).fp.neg ((sample_env true).delta ⟨3 / 2, 3 / 2⟩).y)
            ⟨0, 0, (sample_env true).fp.one⟩ ((sample_env true).right ⟨5, 6, 7⟩)) :=
  ⟨by
    simp only [translate_gesture, sample_env, vec2.sub_scalar, vec3.smul, vec3.mul_scalar,
      vec3.add, vec3.sub, if_true, Bool.false_eq_true, if_false, float_ops.exact]
    norm_num,
   (C20_locked_step_single_axis (sample_env true) ⟨3 / 2, 3 / 2⟩ false false true ⟨5, 6, 7⟩
    (0 : Int)).1.2.1 rfl rfl rfl⟩

/-! ### Releases (C17)

The only `delete` of a `selection_object` is the loop that clears
`selection_buffer` (lines 635-640, 656-661).  The entries of the buffer are
copies made by `new`; they never enter the live list or a command. -/

mutual
/-- The method `set_end` keeps the targets of a command. -/
theorem set_end_targets : ∀ (c : command V M) (e : ObjId) (t : command_type) (s : Scene V M),
    (c.set_end e t s).targets = c.targets
  | .packed_command pack, e, t, s => by
    show (leaves_pack (set_end_pack pack e t s)).map command.o = (leaves_pack pack).map command.o
    exact set_end_pack_targets pack e t s
  | .add_command _, _, _, _ => rfl
  | .remove_command _, _, _, _ => rfl
  | .select_command _, _, _, _ => rfl
  | .deselect_command _, _, _, _ => rfl
  | .translate_command _ _ _, _, _, _ => rfl
  | .rotate_command _ _ _, _, _, _ => rfl
  | .scale_command _ _ _, _, _, _ => rfl
theorem set_end_pack_targets : ∀ (L : List (command V M)) (e : ObjId) (t : command_type)
    (s : Scene V M),
    (leaves_pack (set_end_pack L e t s)).map command.o = (leaves_pack L).map command.o
  | [], _, _, _ => rfl
  | c :: cs, e, t, s => by
    simp only [set_end_pack, leaves_pack, List.map_append]
    rw [set_end_pack_targets cs e t s]
    congr 1
    split
    · exact set_end_targets c e t s
    · rfl
end

/-- Releases at concrete frames.  After Space, Ctrl+A, Delete and Ctrl+Z the
`put` of a further Space discards the undone Delete and releases nothing,
object 1 stays live.  After Space, Ctrl+A and two Ctrl+C the clipboard entry of
the first copy (pointer 2) is released; it is not in the live list `[1]`. -/
theorem releases_at_concrete_frames :
    (run_frames C4_new_object
      (C17_frames ++ [C4_frame [event.KeyPressed key_code.Space false false]])
      empty_editor).ses.scene.freed = [] ∧
    (run_frames C4_new_object
      (C17_frames ++ [C4_frame [event.KeyPressed key_code.Space false false]])
      empty_editor).ses.scene.objects = [1, 2] ∧
    (run_frames C4_new_object C17_copy_frames empty_editor).ses.scene.freed = [2] ∧
    (run_frames C4_new_object C17_copy_frames empty_editor).selection_buffer = [3] ∧
    (run_frames C4_new_object C17_copy_frames empty_editor).ses.scene.objects = [1] := by
  decide

end BasicSelection
